import Mathlib

/-!
# Spy-cat missions: the mission and cat use cases over their repositories

A shallow embedding of `internal/mission` and `internal/cat` (domain, usecase,
repository, HTTP handler). Go's `error` is its message (`String`); a method that returns
`(T, error)` returns `Except String T`; the repository a use case talks to is a
record of state-passing functions, so that what a use case leaves in the store
is part of its result. `int64` identifiers are `Int` (no arithmetic is done on
them by the code), `time.Time` is a tick count.
-/

namespace Domain

/-- The `domain.Target` struct. -/
structure Target where
  ID : Int
  MissionID : Int
  Name : String
  Country : String
  Notes : String
  Completed : Bool
  CreatedAt : Nat
  UpdatedAt : Nat
  deriving DecidableEq

/-- The `domain.Mission` struct; `CatID` is a nullable pointer in the source. -/
structure Mission where
  ID : Int
  CatID : Option Int
  Completed : Bool
  CreatedAt : Nat
  UpdatedAt : Nat
  Targets : List Target
  deriving DecidableEq

/-- What a repository method hands back: its Go result and the store it leaves. -/
abbrev Outcome (σ α : Type) := Except String α × σ

/-- The `domain.Repository` interface over a store of type `σ`.
`CreateMission` fills the identifier and timestamps of the mission it is given
(a pointer in the source), so the filled mission is part of its result. -/
structure Repository (σ : Type) where
  CreateMission : Mission → σ → Outcome σ Mission
  GetMissionByID : Int → σ → Outcome σ Mission
  ListMissions : σ → Outcome σ (List Mission)
  UpdateMission : Mission → σ → Outcome σ Unit
  DeleteMission : Int → σ → Outcome σ Unit
  GetTargetByID : Int → σ → Outcome σ Target
  AddTargets : List Target → σ → Outcome σ Unit
  UpdateTarget : Target → σ → Outcome σ Unit
  DeleteTarget : Int → σ → Outcome σ Unit

/-- A repository method call together with its argument. -/
inductive Call where
  | CreateMission (m : Mission)
  | GetMissionByID (id : Int)
  | ListMissions
  | UpdateMission (m : Mission)
  | DeleteMission (id : Int)
  | GetTargetByID (id : Int)
  | AddTargets (targets : List Target)
  | UpdateTarget (t : Target)
  | DeleteTarget (id : Int)
  deriving DecidableEq

/-- Append a call to the log kept next to the store. -/
def logged {σ α : Type} (c : Call) (r : Outcome σ α) (log : List Call) : Outcome (σ × List Call) α :=
  (r.1, (r.2, log ++ [c]))

/-- The same repository, recording every method call in order (what the
testify mock of the test suite does). -/
def Repository.recording {σ : Type} (r : Repository σ) : Repository (σ × List Call) where
  CreateMission m s := logged (Call.CreateMission m) (r.CreateMission m s.1) s.2
  GetMissionByID id s := logged (Call.GetMissionByID id) (r.GetMissionByID id s.1) s.2
  ListMissions s := logged Call.ListMissions (r.ListMissions s.1) s.2
  UpdateMission m s := logged (Call.UpdateMission m) (r.UpdateMission m s.1) s.2
  DeleteMission id s := logged (Call.DeleteMission id) (r.DeleteMission id s.1) s.2
  GetTargetByID id s := logged (Call.GetTargetByID id) (r.GetTargetByID id s.1) s.2
  AddTargets ts s := logged (Call.AddTargets ts) (r.AddTargets ts s.1) s.2
  UpdateTarget t s := logged (Call.UpdateTarget t) (r.UpdateTarget t s.1) s.2
  DeleteTarget id s := logged (Call.DeleteTarget id) (r.DeleteTarget id s.1) s.2

/-- Whether a call is a call of the store's `UpdateMission`. -/
def Call.isUpdateMission : Call → Bool
  | Call.UpdateMission _ => true
  | _ => false

/-- Whether a call is a call of the store's `DeleteMission`. -/
def Call.isDeleteMission : Call → Bool
  | Call.DeleteMission _ => true
  | _ => false

/-- Whether a call is a call of the store's `AddTargets`. -/
def Call.isAddTargets : Call → Bool
  | Call.AddTargets _ => true
  | _ => false

/-- Whether a call is a call of the store's `UpdateTarget`. -/
def Call.isUpdateTarget : Call → Bool
  | Call.UpdateTarget _ => true
  | _ => false

end Domain

open Domain

/-! ## `internal/mission/usecase/usecase.go` -/

namespace MissionUsecase

variable {σ : Type}

/-- `MissionUsecase.CreateMission`. -/
def CreateMission (repo : Repository σ) (m : Mission) (s : σ) : Outcome σ Mission :=
  repo.CreateMission m s

/-- `MissionUsecase.GetMissionByID`. -/
def GetMissionByID (repo : Repository σ) (id : Int) (s : σ) : Outcome σ Mission :=
  repo.GetMissionByID id s

/-- `MissionUsecase.ListMissions`. -/
def ListMissions (repo : Repository σ) (s : σ) : Outcome σ (List Mission) :=
  repo.ListMissions s

/-- `MissionUsecase.UpdateMission`. -/
def UpdateMission (repo : Repository σ) (m : Mission) (s : σ) : Outcome σ Unit :=
  match repo.GetMissionByID m.ID s with
  | (.error err, s1) => (.error err, s1)
  | (.ok existing, s1) =>
    if existing.Completed then
      (.error "cannot update a completed mission", s1)
    else
      repo.UpdateMission m s1

/-- `MissionUsecase.DeleteMission`. -/
def DeleteMission (repo : Repository σ) (id : Int) (s : σ) : Outcome σ Unit :=
  match repo.GetMissionByID id s with
  | (.error err, s1) => (.error err, s1)
  | (.ok m, s1) =>
    if m.CatID ≠ none ∧ m.CatID ≠ some 0 then
      (.error "mission cannot be deleted because it is assigned to a cat", s1)
    else
      repo.DeleteMission id s1

/-- `MissionUsecase.AddTargets`. The targets go to the store as they came. -/
def AddTargets (repo : Repository σ) (missionID : Int) (targets : List Target) (s : σ) :
    Outcome σ Unit :=
  match repo.GetMissionByID missionID s with
  | (.error err, s1) => (.error err, s1)
  | (.ok mission, s1) =>
    if mission.Completed then
      (.error "cannot add targets to a completed mission", s1)
    else
      repo.AddTargets targets s1

/-- `MissionUsecase.UpdateTarget`. The mission is loaded by the request's
`MissionID`. -/
def UpdateTarget (repo : Repository σ) (t : Target) (s : σ) : Outcome σ Unit :=
  match repo.GetTargetByID t.ID s with
  | (.error err, s1) => (.error err, s1)
  | (.ok existingTarget, s1) =>
    match repo.GetMissionByID t.MissionID s1 with
    | (.error err, s2) => (.error err, s2)
    | (.ok mission, s2) =>
      if (existingTarget.Completed || mission.Completed) ∧ t.Notes ≠ existingTarget.Notes then
        (.error "cannot update notes because target or mission is completed", s2)
      else
        repo.UpdateTarget t s2

/-- `MissionUsecase.DeleteTarget`. -/
def DeleteTarget (repo : Repository σ) (id : Int) (s : σ) : Outcome σ Unit :=
  match repo.GetTargetByID id s with
  | (.error err, s1) => (.error err, s1)
  | (.ok t, s1) =>
    if t.Completed then
      (.error "cannot delete a completed target", s1)
    else
      repo.DeleteTarget id s1

/-- `MissionUsecase.AssignCatToMission`. The loaded mission, with its `CatID`
overwritten, goes straight to the store's `UpdateMission`. -/
def AssignCatToMission (repo : Repository σ) (missionID catID : Int) (s : σ) : Outcome σ Unit :=
  match repo.GetMissionByID missionID s with
  | (.error err, s1) => (.error err, s1)
  | (.ok mission, s1) =>
    if mission.CatID ≠ none ∧ mission.CatID ≠ some 0 then
      (.error "mission already assigned to a cat", s1)
    else
      repo.UpdateMission { mission with CatID := some catID } s1

end MissionUsecase

/-! ## The relational store behind `internal/mission/repository/repository.go`

The repository talks to PostgreSQL through a `pgxpool.Pool`. The tables, their
keys and what one SQL statement does are not Go code of the repository; they
are modelled here, statement by statement, and the repository methods below
are translated from the source on top of them. -/

namespace Store

/-- A row of `missions`. -/
structure MissionRow where
  id : Int
  cat_id : Option Int
  completed : Bool
  created_at : Nat
  updated_at : Nat
  deriving DecidableEq

/-- A row of `targets`. -/
structure TargetRow where
  id : Int
  mission_id : Int
  name : String
  country : String
  notes : String
  completed : Bool
  created_at : Nat
  updated_at : Nat
  deriving DecidableEq

/-- Modelled from the spec: the relational schema, which no source file
declares. `cats(id PK)`, `missions(id PK, cat_id NULL → cats.id, completed,
created_at, updated_at)`, `targets(id PK, mission_id → missions.id, name,
country, notes, completed, created_at, updated_at)`; identifiers come from a
sequence per table. `cats` holds the ids of the rows of the cats table.
`cascade` is the `ON DELETE` action of `targets.mission_id` (the spec leaves it
open): delete the targets with their mission, or refuse. `now` is the server
clock. `faults` decides, round trip by round trip, whether the driver fails
(lost connection, cancelled context) before the statement runs. -/
structure DB where
  cats : List Int
  missions : List MissionRow
  targets : List TargetRow
  missions_id_seq : Int
  targets_id_seq : Int
  now : Nat
  cascade : Bool
  faults : List Bool
  deriving DecidableEq

/-- The driver's error for a failed round trip. -/
def errDriver : String := "failed to connect"

/-- The driver's `pgx.ErrNoRows`. -/
def errNoRows : String := "no rows in result set"

/-- The server's foreign-key violation. -/
def errForeignKey : String := "violates foreign key constraint"

/-- The server's primary-key violation. -/
def errUniqueViolation : String := "duplicate key value violates unique constraint"

/-- The driver's error when `Scan` meets NULL and the destination is a plain
`int64`. -/
def errScanNull : String := "cannot scan NULL into *int64"

/-- One round trip: the clock moves on and the next fault flag, if any, is
consumed. The flag tells whether the round trip fails. -/
def DB.roundTrip (s : DB) : Bool × DB :=
  match s.faults with
  | [] => (false, { s with now := s.now + 1 })
  | f :: fs => (f, { s with now := s.now + 1, faults := fs })

/-- Whether `cat_id` may be stored in `missions`: NULL, or the id of a cat. -/
def DB.catOk (s : DB) (cat_id : Option Int) : Bool :=
  match cat_id with
  | none => true
  | some c => s.cats.contains c

/-- `INSERT INTO missions (cat_id, completed, created_at, updated_at) VALUES
($1, $2, now(), now()) RETURNING id, created_at, updated_at`. -/
def insertMission (cat_id : Option Int) (completed : Bool) (s : DB) : Outcome DB MissionRow :=
  match s.roundTrip with
  | (true, s1) => (.error errDriver, s1)
  | (false, s1) =>
    let row : MissionRow := ⟨s1.missions_id_seq, cat_id, completed, s1.now, s1.now⟩
    let s2 := { s1 with missions_id_seq := s1.missions_id_seq + 1 }
    if s2.missions.any (fun r => r.id = row.id) then (.error errUniqueViolation, s2)
    else if s2.catOk cat_id then (.ok row, { s2 with missions := s2.missions ++ [row] })
    else (.error errForeignKey, s2)

/-- `SELECT id, cat_id, completed, created_at, updated_at FROM missions WHERE
id = $1`, read with `QueryRow(...).Scan`. -/
def selectMission (id : Int) (s : DB) : Outcome DB MissionRow :=
  match s.roundTrip with
  | (true, s1) => (.error errDriver, s1)
  | (false, s1) =>
    match s1.missions.find? (fun r => r.id = id) with
    | none => (.error errNoRows, s1)
    | some r => (.ok r, s1)

/-- `SELECT id, cat_id, completed, created_at, updated_at FROM missions`. -/
def selectMissions (s : DB) : Outcome DB (List MissionRow) :=
  match s.roundTrip with
  | (true, s1) => (.error errDriver, s1)
  | (false, s1) => (.ok s1.missions, s1)

/-- `SELECT ... FROM targets WHERE mission_id = $1`. -/
def selectTargetsByMission (missionID : Int) (s : DB) : Outcome DB (List TargetRow) :=
  match s.roundTrip with
  | (true, s1) => (.error errDriver, s1)
  | (false, s1) => (.ok (s1.targets.filter (fun r => r.mission_id = missionID)), s1)

/-- `UPDATE missions SET cat_id = $1, completed = $2, updated_at = now() WHERE
id = $3`; the result is the number of rows affected. -/
def updateMission (cat_id : Option Int) (completed : Bool) (id : Int) (s : DB) : Outcome DB Nat :=
  match s.roundTrip with
  | (true, s1) => (.error errDriver, s1)
  | (false, s1) =>
    let n := s1.missions.countP (fun r => r.id = id)
    if n = 0 then (.ok 0, s1)
    else if s1.catOk cat_id then
      (.ok n, { s1 with missions := s1.missions.map (fun r =>
        if r.id = id then { r with cat_id := cat_id, completed := completed, updated_at := s1.now }
        else r) })
    else (.error errForeignKey, s1)

/-- `SELECT cat_id FROM missions WHERE id = $1`, before `Scan`. -/
def selectMissionCatID (id : Int) (s : DB) : Outcome DB (Option Int) :=
  match s.roundTrip with
  | (true, s1) => (.error errDriver, s1)
  | (false, s1) =>
    match s1.missions.find? (fun r => r.id = id) with
    | none => (.error errNoRows, s1)
    | some r => (.ok r.cat_id, s1)

/-- `DELETE FROM missions WHERE id = $1`; the result is the number of rows
affected. Targets of a deleted mission go with it under `cascade`, and block
the delete otherwise. -/
def deleteMission (id : Int) (s : DB) : Outcome DB Nat :=
  match s.roundTrip with
  | (true, s1) => (.error errDriver, s1)
  | (false, s1) =>
    let n := s1.missions.countP (fun r => r.id = id)
    if n = 0 then (.ok 0, s1)
    else if s1.cascade then
      (.ok n, { s1 with missions := s1.missions.filter (fun r => r.id ≠ id),
                        targets := s1.targets.filter (fun r => r.mission_id ≠ id) })
    else if s1.targets.any (fun r => r.mission_id = id) then (.error errForeignKey, s1)
    else (.ok n, { s1 with missions := s1.missions.filter (fun r => r.id ≠ id) })

/-- `INSERT INTO targets (mission_id, name, country, notes, completed,
created_at, updated_at) VALUES ($1, $2, $3, $4, $5, now(), now())`. -/
def insertTarget (mission_id : Int) (name country notes : String) (completed : Bool) (s : DB) :
    Outcome DB Unit :=
  match s.roundTrip with
  | (true, s1) => (.error errDriver, s1)
  | (false, s1) =>
    let row : TargetRow :=
      ⟨s1.targets_id_seq, mission_id, name, country, notes, completed, s1.now, s1.now⟩
    let s2 := { s1 with targets_id_seq := s1.targets_id_seq + 1 }
    if s2.targets.any (fun r => r.id = row.id) then (.error errUniqueViolation, s2)
    else if s2.missions.any (fun r => r.id = mission_id) then
      (.ok (), { s2 with targets := s2.targets ++ [row] })
    else (.error errForeignKey, s2)

/-- `UPDATE targets SET notes = $1, completed = $2, updated_at = now() WHERE
id = $3`; the result is the number of rows affected. -/
def updateTarget (notes : String) (completed : Bool) (id : Int) (s : DB) : Outcome DB Nat :=
  match s.roundTrip with
  | (true, s1) => (.error errDriver, s1)
  | (false, s1) =>
    (.ok (s1.targets.countP (fun r => r.id = id)),
      { s1 with targets := s1.targets.map (fun r =>
        if r.id = id then { r with notes := notes, completed := completed, updated_at := s1.now }
        else r) })

/-- `SELECT id, mission_id, name, country, notes, completed, created_at,
updated_at FROM targets WHERE id = $1`, read with `QueryRow(...).Scan`. -/
def selectTarget (id : Int) (s : DB) : Outcome DB TargetRow :=
  match s.roundTrip with
  | (true, s1) => (.error errDriver, s1)
  | (false, s1) =>
    match s1.targets.find? (fun r => r.id = id) with
    | none => (.error errNoRows, s1)
    | some r => (.ok r, s1)

/-- `SELECT completed FROM targets WHERE id = $1`, read with
`QueryRow(...).Scan`. -/
def selectTargetCompleted (id : Int) (s : DB) : Outcome DB Bool :=
  match s.roundTrip with
  | (true, s1) => (.error errDriver, s1)
  | (false, s1) =>
    match s1.targets.find? (fun r => r.id = id) with
    | none => (.error errNoRows, s1)
    | some r => (.ok r.completed, s1)

/-- `DELETE FROM targets WHERE id = $1`; the result is the number of rows
affected. -/
def deleteTarget (id : Int) (s : DB) : Outcome DB Nat :=
  match s.roundTrip with
  | (true, s1) => (.error errDriver, s1)
  | (false, s1) =>
    (.ok (s1.targets.countP (fun r => r.id = id)),
      { s1 with targets := s1.targets.filter (fun r => r.id ≠ id) })

/-- A scanned `targets` row as a `domain.Target`. -/
def TargetRow.toTarget (r : TargetRow) : Target :=
  ⟨r.id, r.mission_id, r.name, r.country, r.notes, r.completed, r.created_at, r.updated_at⟩

end Store

open Store

/-! ## `internal/mission/repository/repository.go` -/

namespace MissionPostgres

/-- `MissionPostgres.CreateMission`: the insert, whose returned id and
timestamps are scanned into the mission. -/
def CreateMission (m : Mission) (s : DB) : Outcome DB Mission :=
  match insertMission m.CatID m.Completed s with
  | (.error err, s1) => (.error err, s1)
  | (.ok row, s1) =>
    (.ok { m with ID := row.id, CreatedAt := row.created_at, UpdatedAt := row.updated_at }, s1)

/-- `MissionPostgres.listTargetsByMissionID`. -/
def listTargetsByMissionID (missionID : Int) (s : DB) : Outcome DB (List Target) :=
  match selectTargetsByMission missionID s with
  | (.error err, s1) => (.error err, s1)
  | (.ok rows, s1) => (.ok (rows.map TargetRow.toTarget), s1)

/-- `MissionPostgres.GetMissionByID`. -/
def GetMissionByID (id : Int) (s : DB) : Outcome DB Mission :=
  match selectMission id s with
  | (.error err, s1) => (.error err, s1)
  | (.ok row, s1) =>
    match listTargetsByMissionID row.id s1 with
    | (.error err, s2) => (.error err, s2)
    | (.ok targets, s2) =>
      (.ok ⟨row.id, row.cat_id, row.completed, row.created_at, row.updated_at, targets⟩, s2)

/-- The loop of `MissionPostgres.ListMissions` over the scanned rows. -/
def listMissionsLoop : List MissionRow → List Mission → DB → Outcome DB (List Mission)
  | [], missions, s => (.ok missions, s)
  | row :: rows, missions, s =>
    match listTargetsByMissionID row.id s with
    | (.error err, s1) => (.error err, s1)
    | (.ok targets, s1) =>
      listMissionsLoop rows
        (missions ++ [⟨row.id, row.cat_id, row.completed, row.created_at, row.updated_at, targets⟩])
        s1

/-- `MissionPostgres.ListMissions`. -/
def ListMissions (s : DB) : Outcome DB (List Mission) :=
  match selectMissions s with
  | (.error err, s1) => (.error err, s1)
  | (.ok rows, s1) => listMissionsLoop rows [] s1

/-- `MissionPostgres.UpdateMission`. -/
def UpdateMission (m : Mission) (s : DB) : Outcome DB Unit :=
  match updateMission m.CatID m.Completed m.ID s with
  | (.error err, s1) => (.error err, s1)
  | (.ok rowsAffected, s1) =>
    if rowsAffected = 0 then (.error "mission not found", s1) else (.ok (), s1)

/-- `MissionPostgres.DeleteMission`. The selected `cat_id` is scanned into a
plain `int64`, which fails on NULL. -/
def DeleteMission (id : Int) (s : DB) : Outcome DB Unit :=
  match selectMissionCatID id s with
  | (.error err, s1) => (.error err, s1)
  | (.ok none, s1) => (.error errScanNull, s1)
  | (.ok (some catID), s1) =>
    if catID ≠ 0 then (.error "cannot delete mission assigned to a cat", s1)
    else
      match deleteMission id s1 with
      | (.error err, s2) => (.error err, s2)
      | (.ok rowsAffected, s2) =>
        if rowsAffected = 0 then (.error "mission not found", s2) else (.ok (), s2)

/-- `MissionPostgres.AddTargets`: one insert per target, in order, stopping at
the first failure. -/
def AddTargets : List Target → DB → Outcome DB Unit
  | [], s => (.ok (), s)
  | t :: targets, s =>
    if t.MissionID = 0 then (.error "target must have mission_id", s)
    else
      match insertTarget t.MissionID t.Name t.Country t.Notes t.Completed s with
      | (.error err, s1) => (.error err, s1)
      | (.ok _, s1) => AddTargets targets s1

/-- `MissionPostgres.UpdateTarget`. -/
def UpdateTarget (t : Target) (s : DB) : Outcome DB Unit :=
  match updateTarget t.Notes t.Completed t.ID s with
  | (.error err, s1) => (.error err, s1)
  | (.ok rowsAffected, s1) =>
    if rowsAffected = 0 then (.error "target not found", s1) else (.ok (), s1)

/-- `MissionPostgres.GetTargetByID`. -/
def GetTargetByID (id : Int) (s : DB) : Outcome DB Target :=
  match selectTarget id s with
  | (.error err, s1) => (.error err, s1)
  | (.ok row, s1) => (.ok row.toTarget, s1)

/-- `MissionPostgres.DeleteTarget`. -/
def DeleteTarget (id : Int) (s : DB) : Outcome DB Unit :=
  match selectTargetCompleted id s with
  | (.error err, s1) => (.error err, s1)
  | (.ok completed, s1) =>
    if completed then (.error "cannot delete a completed target", s1)
    else
      match deleteTarget id s1 with
      | (.error err, s2) => (.error err, s2)
      | (.ok rowsAffected, s2) =>
        if rowsAffected = 0 then (.error "target not found", s2) else (.ok (), s2)

end MissionPostgres

/-- `NewMissionPostgres`: the PostgreSQL adapter as a `domain.Repository`. -/
def NewMissionPostgres : Repository DB where
  CreateMission := MissionPostgres.CreateMission
  GetMissionByID := MissionPostgres.GetMissionByID
  ListMissions := MissionPostgres.ListMissions
  UpdateMission := MissionPostgres.UpdateMission
  DeleteMission := MissionPostgres.DeleteMission
  GetTargetByID := MissionPostgres.GetTargetByID
  AddTargets := MissionPostgres.AddTargets
  UpdateTarget := MissionPostgres.UpdateTarget
  DeleteTarget := MissionPostgres.DeleteTarget

/-! ## `internal/mission/delivery/http/handler.go`: adding targets -/

namespace Handler

/-- The `TargetDTO` request struct. -/
structure TargetDTO where
  Name : String
  Country : String
  Notes : String
  Completed : Bool
  deriving DecidableEq

/-- What a handler writes: the status code and, for `gin.H` error bodies, the
message under "error". -/
structure Response where
  status : Nat
  error : Option String
  deriving DecidableEq

/-- The domain targets that `Handler.addTargets` builds from the request body:
every one carries the mission id of the path. -/
def domainTargets (missionID : Int) (targetsDTO : List TargetDTO) : List Target :=
  targetsDTO.map (fun t => ⟨0, missionID, t.Name, t.Country, t.Notes, t.Completed, 0, 0⟩)

/-- `Handler.addTargets`, with the use case wired as in `main.go`. `id` is what
`strconv.ParseInt` made of the path parameter and `body` what `ShouldBindJSON`
made of the request body. -/
def addTargets {σ : Type} (repo : Repository σ) (id : Except String Int)
    (body : Except String (List TargetDTO)) (s : σ) : Response × σ :=
  match id with
  | .error _ => (⟨400, some "invalid mission id"⟩, s)
  | .ok missionID =>
    match body with
    | .error err => (⟨400, some err⟩, s)
    | .ok targetsDTO =>
      match MissionUsecase.AddTargets repo missionID (domainTargets missionID targetsDTO) s with
      | (.error err, s1) => (⟨500, some err⟩, s1)
      | (.ok _, s1) => (⟨201, none⟩, s1)

end Handler

/-- Everything of the store but the clock and the pending faults. -/
def Store.DB.tables (s : DB) :
    List Int × List MissionRow × List TargetRow × Int × Int × Bool :=
  (s.cats, s.missions, s.targets, s.missions_id_seq, s.targets_id_seq, s.cascade)

/-! ## Sequences of use-case operations over the PostgreSQL adapter -/

/-- One call of a method of `domain.Usecase`, with its arguments. -/
inductive Op where
  | CreateMission (m : Mission)
  | GetMissionByID (id : Int)
  | ListMissions
  | UpdateMission (m : Mission)
  | DeleteMission (id : Int)
  | AddTargets (missionID : Int) (targets : List Target)
  | UpdateTarget (t : Target)
  | DeleteTarget (id : Int)
  | AssignCatToMission (missionID catID : Int)
  deriving DecidableEq

/-- The store a use-case call leaves, whether it succeeds or fails. -/
def Op.run (op : Op) (s : DB) : DB :=
  match op with
  | .CreateMission m => (MissionUsecase.CreateMission NewMissionPostgres m s).2
  | .GetMissionByID id => (MissionUsecase.GetMissionByID NewMissionPostgres id s).2
  | .ListMissions => (MissionUsecase.ListMissions NewMissionPostgres s).2
  | .UpdateMission m => (MissionUsecase.UpdateMission NewMissionPostgres m s).2
  | .DeleteMission id => (MissionUsecase.DeleteMission NewMissionPostgres id s).2
  | .AddTargets missionID targets =>
    (MissionUsecase.AddTargets NewMissionPostgres missionID targets s).2
  | .UpdateTarget t => (MissionUsecase.UpdateTarget NewMissionPostgres t s).2
  | .DeleteTarget id => (MissionUsecase.DeleteTarget NewMissionPostgres id s).2
  | .AssignCatToMission missionID catID =>
    (MissionUsecase.AssignCatToMission NewMissionPostgres missionID catID s).2

/-- The store after a sequence of use-case calls, one after the other. -/
def runOps (ops : List Op) (s : DB) : DB :=
  ops.foldl (fun acc op => op.run acc) s

/-- Mission `id` was handed out by the sequence and every row with that id is
completed. -/
def MissionFrozen (id : Int) (s : DB) : Prop :=
  id < s.missions_id_seq ∧ ∀ r ∈ s.missions, r.id = id → r.completed = true

instance (id : Int) (s : DB) : Decidable (MissionFrozen id s) := by
  unfold MissionFrozen
  infer_instance

/-- Target `id` was handed out by the sequence and every row with that id is
completed. -/
def TargetFrozen (id : Int) (s : DB) : Prop :=
  id < s.targets_id_seq ∧ ∀ r ∈ s.targets, r.id = id → r.completed = true

instance (id : Int) (s : DB) : Decidable (TargetFrozen id s) := by
  unfold TargetFrozen
  infer_instance

/-- The operation, run on the store `s`, is not an `UpdateTarget` request for
target `id` that carries `completed = false` together with the notes persisted
in `s`: such a request for `id` carries `completed = true` or notes other than
the persisted ones. -/
def Op.sparesTarget (id : Int) (s : DB) : Op → Prop
  | .UpdateTarget t =>
    t.ID = id → t.Completed = true ∨ ∀ r ∈ s.targets, r.id = id → r.notes ≠ t.Notes
  | _ => True

instance (id : Int) (s : DB) (op : Op) : Decidable (op.sparesTarget id s) := by
  cases op <;> unfold Op.sparesTarget <;> infer_instance

/-- Every operation of the sequence spares target `id` on the store it is run
on. -/
def sparesTargetAlong (id : Int) : List Op → DB → Prop
  | [], _ => True
  | op :: ops, s => op.sparesTarget id s ∧ sparesTargetAlong id ops (op.run s)

/-- Whether a sequence spares target `id`, by running it. -/
def sparesTargetAlong.decidable (id : Int) :
    (ops : List Op) → (s : DB) → Decidable (sparesTargetAlong id ops s)
  | [], _ => isTrue trivial
  | op :: ops, s =>
    @instDecidableAnd _ _ inferInstance (sparesTargetAlong.decidable id ops (op.run s))

instance (id : Int) (ops : List Op) (s : DB) : Decidable (sparesTargetAlong id ops s) :=
  sparesTargetAlong.decidable id ops s

/-- A store with a completed unassigned mission 1, an open mission 2 and one
open target of mission 1. -/
def demoDB : DB where
  cats := [7, 42]
  missions := [⟨1, none, true, 0, 0⟩, ⟨2, none, false, 0, 0⟩]
  targets := [⟨1, 1, "vault", "CH", "old", false, 0, 0⟩]
  missions_id_seq := 3
  targets_id_seq := 2
  now := 0
  cascade := true
  faults := []

/-- A store with an open mission 1 and its completed target 1. -/
def doneDB : DB where
  cats := []
  missions := [⟨1, none, false, 0, 0⟩]
  targets := [⟨1, 1, "vault", "CH", "old", true, 0, 0⟩]
  missions_id_seq := 2
  targets_id_seq := 2
  now := 0
  cascade := true
  faults := []

/-- Both sequences are ahead of every id in their table. -/
def SeqAhead (s : DB) : Prop :=
  (∀ r ∈ s.missions, r.id < s.missions_id_seq) ∧ (∀ r ∈ s.targets, r.id < s.targets_id_seq)

instance (s : DB) : Decidable (SeqAhead s) := by
  unfold SeqAhead
  infer_instance

/-- A database right after the schema is created: no missions, no targets, both
sequences at 1. -/
def freshDB (cats : List Int) (cascade : Bool) (faults : List Bool) : DB :=
  ⟨cats, [], [], 1, 1, 0, cascade, faults⟩

/-! ## More example stores -/

/-- A store with the open mission 1, assigned to cat 7, and its open target 1. -/
def assignedDB : DB where
  cats := [7, 42]
  missions := [⟨1, some 7, false, 0, 0⟩]
  targets := [⟨1, 1, "vault", "CH", "old", false, 0, 0⟩]
  missions_id_seq := 2
  targets_id_seq := 2
  now := 0
  cascade := true
  faults := []

/-- The foreign key of `missions.cat_id` holds and no cat has the id 0: every
`cat_id` in `missions` is NULL or the id of a cat, so none is 0. -/
def NoCatZero (s : DB) : Prop :=
  s.cats.contains 0 = false ∧ ∀ r ∈ s.missions, s.catOk r.cat_id = true

instance (s : DB) : Decidable (NoCatZero s) := by
  unfold NoCatZero
  infer_instance

/-- Mission `id` was handed out by the sequence and every row with that id has
`cat_id = c`. -/
def CatFixed (id c : Int) (s : DB) : Prop :=
  id < s.missions_id_seq ∧ ∀ r ∈ s.missions, r.id = id → r.cat_id = some c

instance (id c : Int) (s : DB) : Decidable (CatFixed id c s) := by
  unfold CatFixed
  infer_instance

/-- The operation is not an `UpdateMission` request for mission `id` that
carries another `cat_id` than `c`. -/
def Op.keepsCat (id c : Int) : Op → Prop
  | .UpdateMission m => m.ID = id → m.CatID = some c
  | _ => True

instance (id c : Int) (op : Op) : Decidable (op.keepsCat id c) := by
  cases op <;> unfold Op.keepsCat <;> infer_instance

/-! ## `internal/cat/domain` -/

namespace CatDomain

/-- A Go `float64` as its comparisons and its storage see it: not a number, an
infinity, or a finite value. A finite value is the rational it stands for, so
that both zeros are `fin 0`; no arithmetic is done on salaries by the code. -/
inductive Float64 where
  | nan
  | negInf
  | posInf
  | fin (q : ℚ)
  deriving DecidableEq

/-- Go's `a < b` on `float64`: false as soon as one side is not a number. -/
def Float64.lt : Float64 → Float64 → Bool
  | .nan, _ => false
  | _, .nan => false
  | .negInf, .negInf => false
  | .negInf, _ => true
  | _, .negInf => false
  | .posInf, _ => false
  | .fin _, .posInf => true
  | .fin p, .fin q => decide (p < q)

/-- Go's `a >= b` on `float64`: false as soon as one side is not a number. -/
def Float64.ge : Float64 → Float64 → Bool
  | .nan, _ => false
  | _, .nan => false
  | _, .negInf => true
  | .negInf, _ => false
  | .posInf, _ => true
  | .fin _, .posInf => false
  | .fin p, .fin q => decide (q ≤ p)

/-- The `float64` constant `0`. -/
def Float64.zero : Float64 := .fin 0

/-- The `domain.Cat` struct. -/
structure Cat where
  ID : Int
  Name : String
  YearsOfExperience : Int
  Breed : String
  Salary : Float64
  deriving DecidableEq

/-- The cat `domain.Repository` interface over a store of type `σ`. `Store`
fills the identifier of the cat it is given (a pointer in the source), so the
filled cat is part of its result. -/
structure Repository (σ : Type) where
  Store : Cat → σ → Outcome σ Cat
  GetByID : Int → σ → Outcome σ Cat
  UpdateSalary : Int → Float64 → σ → Outcome σ Unit
  Delete : Int → σ → Outcome σ Unit
  List : σ → Outcome σ (List Cat)

/-- The `domain.BreedValidator` interface; the catalog it asks is part of the
world `σ`. -/
structure BreedValidator (σ : Type) where
  ValidateBreed : String → σ → Outcome σ Bool

/-- A call of a method of the cat repository or of the breed validator, with
its arguments. -/
inductive CatCall where
  | ValidateBreed (breed : String)
  | Store (c : Cat)
  | GetByID (id : Int)
  | UpdateSalary (id : Int) (salary : Float64)
  | Delete (id : Int)
  | List
  deriving DecidableEq

/-- The calls made so far, in order. -/
abbrev CatLog := List CatCall

/-- Append a call to the log kept next to the store. -/
def noted {σ α : Type} (c : CatCall) (r : Outcome σ α) (log : CatLog) : Outcome (σ × CatLog) α :=
  (r.1, (r.2, log ++ [c]))

/-- The same cat repository, recording every method call in order. -/
def Repository.recording {σ : Type} (r : Repository σ) : Repository (σ × CatLog) where
  Store c s := noted (CatCall.Store c) (r.Store c s.1) s.2
  GetByID id s := noted (CatCall.GetByID id) (r.GetByID id s.1) s.2
  UpdateSalary id salary s := noted (CatCall.UpdateSalary id salary) (r.UpdateSalary id salary s.1) s.2
  Delete id s := noted (CatCall.Delete id) (r.Delete id s.1) s.2
  List s := noted CatCall.List (r.List s.1) s.2

/-- The same breed validator, recording every call. -/
def BreedValidator.recording {σ : Type} (v : BreedValidator σ) :
    BreedValidator (σ × CatLog) where
  ValidateBreed breed s := noted (CatCall.ValidateBreed breed) (v.ValidateBreed breed s.1) s.2

/-- Whether a call is a call of the store's `Store`. -/
def CatCall.isStore : CatCall → Bool
  | CatCall.Store _ => true
  | _ => false

/-- Whether a call is a call of the breed validator. -/
def CatCall.isValidateBreed : CatCall → Bool
  | CatCall.ValidateBreed _ => true
  | _ => false

end CatDomain

/-! ## `internal/cat/usecase/usecase.go` -/

namespace CatUsecase

open CatDomain

variable {σ : Type}

/-- `CatUsecase.Create`. -/
def Create (repo : CatDomain.Repository σ) (breedValidator : BreedValidator σ) (c : Cat) (s : σ) :
    Outcome σ Cat :=
  if c.Name = "" then
    (.error "cat name cannot be empty", s)
  else
    match breedValidator.ValidateBreed c.Breed s with
    | (.error err, s1) => (.error ("error validating breed: " ++ err), s1)
    | (.ok valid, s1) =>
      if !valid then
        (.error "invalid breed", s1)
      else
        repo.Store c s1

/-- `CatUsecase.GetByID`. -/
def GetByID (repo : CatDomain.Repository σ) (id : Int) (s : σ) : Outcome σ Cat :=
  repo.GetByID id s

/-- `CatUsecase.UpdateSalary`. -/
def UpdateSalary (repo : CatDomain.Repository σ) (id : Int) (salary : Float64) (s : σ) :
    Outcome σ Unit :=
  if salary.lt Float64.zero then
    (.error "salary cannot be negative", s)
  else
    repo.UpdateSalary id salary s

/-- `CatUsecase.Delete`. -/
def Delete (repo : CatDomain.Repository σ) (id : Int) (s : σ) : Outcome σ Unit :=
  repo.Delete id s

/-- `CatUsecase.List`. -/
def List (repo : CatDomain.Repository σ) (s : σ) : Outcome σ (List Cat) :=
  repo.List s

end CatUsecase

/-! ## `internal/cat/breed_validator_http.go` -/

namespace CatAPIValidator

/-- One element of the decoded catalog: the anonymous struct with the field
`Name`. -/
structure Breed where
  Name : String
  deriving DecidableEq

/-- What came back from `client.Do`: the status code and what the JSON decoder
makes of the body. -/
structure HTTPResponse where
  StatusCode : Nat
  decoded : Except String (List Breed)

/-- One exchange with the breed catalog, as far as `ValidateBreed` looks at
it: whether the request could be built, and what `client.Do` returned. -/
structure Exchange where
  request : Except String Unit
  response : Except String HTTPResponse

/-- The loop of `ValidateBreed` over the decoded catalog. -/
def loop (breed : String) : List Breed → Bool
  | [] => false
  | b :: breeds => if b.Name = breed then true else loop breed breeds

/-- `CatAPIValidator.ValidateBreed`, given the exchange with the catalog. -/
def ValidateBreed (x : Exchange) (breed : String) : Except String Bool :=
  match x.request with
  | .error err => .error err
  | .ok _ =>
    match x.response with
    | .error err => .error err
    | .ok resp =>
      if resp.StatusCode ≠ 200 then
        .error ("unexpected status: " ++ toString resp.StatusCode)
      else
        match resp.decoded with
        | .error err => .error err
        | .ok breeds => .ok (loop breed breeds)

end CatAPIValidator

/-! ## The cats table behind `internal/cat/repository/repository.go` -/

namespace CatStore

open CatDomain

/-- A row of `cats`. -/
structure CatRow where
  id : Int
  name : String
  years_of_experience : Int
  breed : String
  salary : Float64
  deriving DecidableEq

/-- Modelled from the spec: the `cats` table, which no source file declares:
`cats(id PK, name, years_of_experience, breed, salary)`, ids from a sequence.
`salaryColumn` is what the salary column keeps of a value it is given: the
value itself for a `double precision` column, the value rounded to the
column's scale for a `NUMERIC` one (the spec calls salaries two-decimal).
`referenced` lists the cat ids that rows of `missions` point at; the spec
leaves the foreign-key policy to the store, here the `DELETE` of a referenced
cat is refused. `faults` decides, round trip by round trip, whether the driver
fails before the statement runs. -/
structure CatDB where
  cats : List CatRow
  cats_id_seq : Int
  salaryColumn : Float64 → Float64
  referenced : List Int
  faults : List Bool

/-- One round trip: the next fault flag, if any, is consumed. The flag tells
whether the round trip fails. -/
def CatDB.roundTrip (s : CatDB) : Bool × CatDB :=
  match s.faults with
  | [] => (false, s)
  | f :: fs => (f, { s with faults := fs })

/-- `INSERT INTO cats (name, years_of_experience, breed, salary) VALUES ($1,
$2, $3, $4) RETURNING id`. -/
def insertCat (name : String) (years : Int) (breed : String) (salary : Float64) (s : CatDB) :
    Outcome CatDB Int :=
  match s.roundTrip with
  | (true, s1) => (.error errDriver, s1)
  | (false, s1) =>
    let id := s1.cats_id_seq
    let s2 := { s1 with cats_id_seq := s1.cats_id_seq + 1 }
    if s2.cats.any (fun r => r.id = id) then (.error errUniqueViolation, s2)
    else (.ok id, { s2 with cats := s2.cats ++ [⟨id, name, years, breed, s2.salaryColumn salary⟩] })

/-- `SELECT id, name, years_of_experience, breed, salary FROM cats WHERE id =
$1`, read with `QueryRow(...).Scan`. -/
def selectCat (id : Int) (s : CatDB) : Outcome CatDB CatRow :=
  match s.roundTrip with
  | (true, s1) => (.error errDriver, s1)
  | (false, s1) =>
    match s1.cats.find? (fun r => r.id = id) with
    | none => (.error errNoRows, s1)
    | some r => (.ok r, s1)

/-- `UPDATE cats SET salary = $1 WHERE id = $2`; the result is the number of
rows affected. -/
def updateSalary (salary : Float64) (id : Int) (s : CatDB) : Outcome CatDB Nat :=
  match s.roundTrip with
  | (true, s1) => (.error errDriver, s1)
  | (false, s1) =>
    (.ok (s1.cats.countP (fun r => r.id = id)),
      { s1 with cats := s1.cats.map (fun r =>
        if r.id = id then { r with salary := s1.salaryColumn salary } else r) })

/-- `DELETE FROM cats WHERE id = $1`; the result is the number of rows
affected. -/
def deleteCat (id : Int) (s : CatDB) : Outcome CatDB Nat :=
  match s.roundTrip with
  | (true, s1) => (.error errDriver, s1)
  | (false, s1) =>
    let n := s1.cats.countP (fun r => r.id = id)
    if n ≠ 0 ∧ s1.referenced.contains id then (.error errForeignKey, s1)
    else (.ok n, { s1 with cats := s1.cats.filter (fun r => r.id ≠ id) })

/-- `SELECT id, name, years_of_experience, breed, salary FROM cats`. -/
def selectCats (s : CatDB) : Outcome CatDB (List CatRow) :=
  match s.roundTrip with
  | (true, s1) => (.error errDriver, s1)
  | (false, s1) => (.ok s1.cats, s1)

/-- A scanned `cats` row as a `domain.Cat`. -/
def CatRow.toCat (r : CatRow) : Cat :=
  ⟨r.id, r.name, r.years_of_experience, r.breed, r.salary⟩

end CatStore

/-! ## `internal/cat/repository/repository.go` -/

namespace postgresCatRepository

open CatDomain CatStore

/-- `postgresCatRepository.Store`: the insert, whose returned id is scanned
into the cat. -/
def Store (c : Cat) (s : CatDB) : Outcome CatDB Cat :=
  match insertCat c.Name c.YearsOfExperience c.Breed c.Salary s with
  | (.error err, s1) => (.error err, s1)
  | (.ok id, s1) => (.ok { c with ID := id }, s1)

/-- `postgresCatRepository.GetByID`. -/
def GetByID (id : Int) (s : CatDB) : Outcome CatDB Cat :=
  match selectCat id s with
  | (.error err, s1) => (.error err, s1)
  | (.ok row, s1) => (.ok row.toCat, s1)

/-- `postgresCatRepository.UpdateSalary`: the number of rows affected is
dropped. -/
def UpdateSalary (id : Int) (salary : Float64) (s : CatDB) : Outcome CatDB Unit :=
  match updateSalary salary id s with
  | (.error err, s1) => (.error err, s1)
  | (.ok _, s1) => (.ok (), s1)

/-- `postgresCatRepository.Delete`: the number of rows affected is dropped. -/
def Delete (id : Int) (s : CatDB) : Outcome CatDB Unit :=
  match deleteCat id s with
  | (.error err, s1) => (.error err, s1)
  | (.ok _, s1) => (.ok (), s1)

/-- `postgresCatRepository.List`. -/
def List (s : CatDB) : Outcome CatDB (List Cat) :=
  match selectCats s with
  | (.error err, s1) => (.error err, s1)
  | (.ok rows, s1) => (.ok (rows.map CatRow.toCat), s1)

end postgresCatRepository

/-- `NewPostgresCatRepository`: the PostgreSQL adapter as a cat
`domain.Repository`. -/
def NewPostgresCatRepository : CatDomain.Repository CatStore.CatDB where
  Store := postgresCatRepository.Store
  GetByID := postgresCatRepository.GetByID
  UpdateSalary := postgresCatRepository.UpdateSalary
  Delete := postgresCatRepository.Delete
  List := postgresCatRepository.List

/-- What a two-decimal `NUMERIC` salary column keeps of a value: a finite value
rounded to two decimals, halves away from zero; anything else as it is. -/
def twoDecimals : CatDomain.Float64 → CatDomain.Float64
  | .fin q =>
    .fin ((if 0 ≤ q then Rat.floor (q * 100 + 1 / 2) else -Rat.floor (-q * 100 + 1 / 2) : Int)
      / 100)
  | x => x

/-- A cats table with Tom, cat 1, earning 1000, in a two-decimal salary
column. -/
def centsDB : CatStore.CatDB where
  cats := [⟨1, "Tom", 3, "Siamese", .fin 1000⟩]
  cats_id_seq := 2
  salaryColumn := twoDecimals
  referenced := []
  faults := []

/-- A cats table with Tom, cat 1, earning 1000, in a column that keeps every
value as it is. -/
def catsDB : CatStore.CatDB where
  cats := [⟨1, "Tom", 3, "Siamese", .fin 1000⟩]
  cats_id_seq := 2
  salaryColumn := fun salary => salary
  referenced := []
  faults := []

/-! ## `internal/mission/delivery/http/handler.go`: the other routes with a path id

Each handler is given what `strconv.ParseInt` made of its path parameter and
what `ShouldBindJSON` made of the request body, and writes one response. The
use case is wired as in `main.go`. -/

namespace Handler

/-- The `MissionDTO` request struct. -/
structure MissionDTO where
  CatID : Option Int
  Completed : Bool
  deriving DecidableEq

/-- What a handler writes when a success carries a JSON body: the status code,
the message under "error" for `gin.H` error bodies, and the body otherwise. -/
structure Reply (β : Type) where
  status : Nat
  error : Option String
  body : Option β
  deriving DecidableEq

/-- `Handler.getMissionByID`. -/
def getMissionByID {σ : Type} (repo : Repository σ) (id : Except String Int) (s : σ) :
    Reply Mission × σ :=
  match id with
  | .error _ => (⟨400, some "invalid mission id", none⟩, s)
  | .ok id =>
    match MissionUsecase.GetMissionByID repo id s with
    | (.error err, s1) => (⟨404, some err, none⟩, s1)
    | (.ok mission, s1) => (⟨200, none, some mission⟩, s1)

/-- `Handler.updateMission`. The body is bound twice: first into a `MissionDTO`
(`dto`), then onto the mission built from it (`rebind`, given that mission);
the id of the path is written last. -/
def updateMission {σ : Type} (repo : Repository σ) (id : Except String Int)
    (dto : Except String MissionDTO) (rebind : Mission → Except String Mission) (s : σ) :
    Reply Mission × σ :=
  match id with
  | .error _ => (⟨400, some "invalid mission id", none⟩, s)
  | .ok id =>
    match dto with
    | .error err => (⟨400, some err, none⟩, s)
    | .ok dto =>
      match rebind ⟨id, dto.CatID, dto.Completed, 0, 0, []⟩ with
      | .error err => (⟨400, some err, none⟩, s)
      | .ok bound =>
        let mission := { bound with ID := id }
        match MissionUsecase.UpdateMission repo mission s with
        | (.error err, s1) => (⟨500, some err, none⟩, s1)
        | (.ok _, s1) => (⟨200, none, some mission⟩, s1)

/-- `Handler.deleteMission`. -/
def deleteMission {σ : Type} (repo : Repository σ) (id : Except String Int) (s : σ) :
    Response × σ :=
  match id with
  | .error _ => (⟨400, some "invalid mission id"⟩, s)
  | .ok id =>
    match MissionUsecase.DeleteMission repo id s with
    | (.error err, s1) => (⟨500, some err⟩, s1)
    | (.ok _, s1) => (⟨204, none⟩, s1)

/-- `Handler.assignCatToMission`. -/
def assignCatToMission {σ : Type} (repo : Repository σ) (id catID : Except String Int) (s : σ) :
    Response × σ :=
  match id with
  | .error _ => (⟨400, some "invalid mission id"⟩, s)
  | .ok missionID =>
    match catID with
    | .error _ => (⟨400, some "invalid cat id"⟩, s)
    | .ok catID =>
      match MissionUsecase.AssignCatToMission repo missionID catID s with
      | (.error err, s1) => (⟨500, some err⟩, s1)
      | (.ok _, s1) => (⟨204, none⟩, s1)

/-- `Handler.updateTarget`. The body is bound into a `domain.Target` first, the
path id is parsed next and written over the target's `ID`. -/
def updateTarget {σ : Type} (repo : Repository σ) (body : Except String Target)
    (id : Except String Int) (s : σ) : Reply Target × σ :=
  match body with
  | .error err => (⟨400, some err, none⟩, s)
  | .ok bound =>
    match id with
    | .error _ => (⟨400, some "invalid target id", none⟩, s)
    | .ok id =>
      let target := { bound with ID := id }
      match MissionUsecase.UpdateTarget repo target s with
      | (.error err, s1) => (⟨500, some err, none⟩, s1)
      | (.ok _, s1) => (⟨200, none, some target⟩, s1)

/-- `Handler.deleteTarget`. -/
def deleteTarget {σ : Type} (repo : Repository σ) (id : Except String Int) (s : σ) :
    Response × σ :=
  match id with
  | .error _ => (⟨400, some "invalid target id"⟩, s)
  | .ok id =>
    match MissionUsecase.DeleteTarget repo id s with
    | (.error err, s1) => (⟨500, some err⟩, s1)
    | (.ok _, s1) => (⟨204, none⟩, s1)

end Handler

/-! ## `internal/cat/delivery/http/handler.go`: the routes with a path id -/

namespace CatHandler

open CatDomain

/-- The `UpdateSalaryRequest` request struct. -/
structure UpdateSalaryRequest where
  Salary : Float64
  deriving DecidableEq

/-- The `CatResponse` response struct. -/
structure CatResponse where
  ID : Int
  Name : String
  YearsOfExperience : Int
  Breed : String
  Salary : Float64
  deriving DecidableEq

/-- The function `toCatResponse`. -/
def toCatResponse (c : Cat) : CatResponse :=
  ⟨c.ID, c.Name, c.YearsOfExperience, c.Breed, c.Salary⟩

/-- `CatHandler.GetByID`. -/
def GetByID {σ : Type} (repo : CatDomain.Repository σ) (id : Except String Int) (s : σ) :
    Handler.Reply CatResponse × σ :=
  match id with
  | .error _ => (⟨400, some "invalid id", none⟩, s)
  | .ok id =>
    if id ≤ 0 then (⟨400, some "invalid id", none⟩, s)
    else
      match CatUsecase.GetByID repo id s with
      | (.error _, s1) => (⟨404, some "cat not found", none⟩, s1)
      | (.ok cat, s1) => (⟨200, none, some (toCatResponse cat)⟩, s1)

/-- `CatHandler.UpdateSalary`. -/
def UpdateSalary {σ : Type} (repo : CatDomain.Repository σ) (id : Except String Int)
    (body : Except String UpdateSalaryRequest) (s : σ) : Handler.Response × σ :=
  match id with
  | .error _ => (⟨400, some "invalid id"⟩, s)
  | .ok id =>
    if id ≤ 0 then (⟨400, some "invalid id"⟩, s)
    else
      match body with
      | .error err => (⟨400, some err⟩, s)
      | .ok req =>
        match CatUsecase.UpdateSalary repo id req.Salary s with
        | (.error err, s1) => (⟨400, some err⟩, s1)
        | (.ok _, s1) => (⟨204, none⟩, s1)

/-- `CatHandler.Delete`. -/
def Delete {σ : Type} (repo : CatDomain.Repository σ) (id : Except String Int) (s : σ) :
    Handler.Response × σ :=
  match id with
  | .error _ => (⟨400, some "invalid id"⟩, s)
  | .ok id =>
    if id ≤ 0 then (⟨400, some "invalid id"⟩, s)
    else
      match CatUsecase.Delete repo id s with
      | (.error err, s1) => (⟨400, some err⟩, s1)
      | (.ok _, s1) => (⟨204, none⟩, s1)

end CatHandler

/-! ## The second bind of `Handler.updateMission` -/

namespace Handler

/-- What gin's `ShouldBindJSON` gives when it is called a second time on the
same request, as `Handler.updateMission` does: its JSON decoder decodes what
the decoder of the first call left unread of the request body. `unread` is
`none` when nothing is left, as for a body of one JSON value: the decoder
returns `io.EOF`, whatever the mission it was to fill. Otherwise `unread` is
what decoding the rest onto a mission gives. -/
def secondBind (unread : Option (Mission → Except String Mission)) (m : Mission) :
    Except String Mission :=
  match unread with
  | none => .error "EOF"
  | some decode => decode m

end Handler

/-! ## What the statements do to the tables -/

theorem tables_eq_iff (a b : DB) :
    a.tables = b.tables ↔
      a.cats = b.cats ∧ a.missions = b.missions ∧ a.targets = b.targets ∧
      a.missions_id_seq = b.missions_id_seq ∧ a.targets_id_seq = b.targets_id_seq ∧
      a.cascade = b.cascade := by
  simp [DB.tables]

theorem roundTrip_tables (s : DB) : s.roundTrip.2.tables = s.tables := by
  unfold DB.roundTrip
  split <;> rfl

theorem roundTrip_tables_of_eq {s s1 : DB} {f : Bool} (h : s.roundTrip = (f, s1)) :
    s1.tables = s.tables := by
  have := roundTrip_tables s
  rw [h] at this
  exact this

theorem selectMission_tables (id : Int) (s : DB) : (selectMission id s).2.tables = s.tables := by
  have h := roundTrip_tables s
  unfold selectMission
  split
  · simp_all
  · split <;> simp_all

theorem selectMission_ok {id : Int} {s s1 : DB} {row : MissionRow}
    (h : selectMission id s = (.ok row, s1)) :
    s.missions.find? (fun r => r.id = id) = some row := by
  unfold selectMission at h
  split at h
  · simp at h
  · rename_i s2 hrt
    have ht := (tables_eq_iff _ _).1 (roundTrip_tables_of_eq hrt)
    split at h
    · simp at h
    · rename_i r hf
      simp at h
      rw [← ht.2.1, ← h.1]
      exact hf

theorem selectTargetsByMission_tables (id : Int) (s : DB) :
    (selectTargetsByMission id s).2.tables = s.tables := by
  have h := roundTrip_tables s
  unfold selectTargetsByMission
  split <;> simp_all

theorem selectTarget_tables (id : Int) (s : DB) : (selectTarget id s).2.tables = s.tables := by
  have h := roundTrip_tables s
  unfold selectTarget
  split
  · simp_all
  · split <;> simp_all

theorem selectTarget_ok {id : Int} {s s1 : DB} {row : TargetRow}
    (h : selectTarget id s = (.ok row, s1)) :
    s.targets.find? (fun r => r.id = id) = some row := by
  unfold selectTarget at h
  split at h
  · simp at h
  · rename_i s2 hrt
    have ht := (tables_eq_iff _ _).1 (roundTrip_tables_of_eq hrt)
    split at h
    · simp at h
    · rename_i r hf
      simp at h
      rw [← ht.2.2.1, ← h.1]
      exact hf

theorem listTargetsByMissionID_tables (id : Int) (s : DB) :
    (MissionPostgres.listTargetsByMissionID id s).2.tables = s.tables := by
  have h := selectTargetsByMission_tables id s
  unfold MissionPostgres.listTargetsByMissionID
  split <;> simp_all

/-- The load of a mission changes no table. -/
theorem GetMissionByID_tables (id : Int) (s : DB) :
    (MissionPostgres.GetMissionByID id s).2.tables = s.tables := by
  unfold MissionPostgres.GetMissionByID
  split
  · rename_i err s1 h
    have := selectMission_tables id s
    simp_all
  · rename_i row s1 h
    have h1 := selectMission_tables id s
    have h2 := listTargetsByMissionID_tables row.id s1
    split <;> simp_all

/-- A loaded mission is the first row of `missions` with that id. -/
theorem GetMissionByID_ok {id : Int} {s s1 : DB} {m : Mission}
    (h : MissionPostgres.GetMissionByID id s = (.ok m, s1)) :
    ∃ row, s.missions.find? (fun r => r.id = id) = some row ∧
      m.ID = row.id ∧ m.CatID = row.cat_id ∧ m.Completed = row.completed := by
  unfold MissionPostgres.GetMissionByID at h
  split at h
  · simp at h
  · rename_i row s2 hsel
    split at h
    · simp at h
    · simp at h
      refine ⟨row, selectMission_ok hsel, ?_⟩
      rw [← h.1]
      simp

/-- The load of a target changes no table. -/
theorem GetTargetByID_tables (id : Int) (s : DB) :
    (MissionPostgres.GetTargetByID id s).2.tables = s.tables := by
  have h := selectTarget_tables id s
  unfold MissionPostgres.GetTargetByID
  split <;> simp_all

/-- A loaded target is the first row of `targets` with that id. -/
theorem GetTargetByID_ok {id : Int} {s s1 : DB} {t : Target}
    (h : MissionPostgres.GetTargetByID id s = (.ok t, s1)) :
    ∃ row, s.targets.find? (fun r => r.id = id) = some row ∧ t = row.toTarget := by
  unfold MissionPostgres.GetTargetByID at h
  split at h
  · simp at h
  · rename_i row s2 hsel
    simp at h
    exact ⟨row, selectTarget_ok hsel, h.1.symm⟩

/-- A row found by id has that id and is in the table. -/
theorem find_mission_some {l : List MissionRow} {id : Int} {row : MissionRow}
    (h : l.find? (fun r => r.id = id) = some row) : row ∈ l ∧ row.id = id := by
  refine ⟨List.mem_of_find?_eq_some h, ?_⟩
  have := List.find?_some h
  simpa using this

/-- A row found by id has that id and is in the table. -/
theorem find_target_some {l : List TargetRow} {id : Int} {row : TargetRow}
    (h : l.find? (fun r => r.id = id) = some row) : row ∈ l ∧ row.id = id := by
  refine ⟨List.mem_of_find?_eq_some h, ?_⟩
  have := List.find?_some h
  simpa using this

/-- The effect of the mission `INSERT`: at most one row is appended, with the
id the sequence held, and the sequence does not go back. -/
theorem insertMission_effect (c : Option Int) (b : Bool) (s : DB) :
    (insertMission c b s).2.cats = s.cats ∧ (insertMission c b s).2.targets = s.targets ∧
    (insertMission c b s).2.targets_id_seq = s.targets_id_seq ∧
    (insertMission c b s).2.cascade = s.cascade ∧
    s.missions_id_seq ≤ (insertMission c b s).2.missions_id_seq ∧
    ((insertMission c b s).2.missions = s.missions ∨
      ((insertMission c b s).2.missions_id_seq = s.missions_id_seq + 1 ∧
        ∃ now, (insertMission c b s).2.missions
          = s.missions ++ [⟨s.missions_id_seq, c, b, now, now⟩])) := by
  unfold insertMission
  rcases hrt : s.roundTrip with ⟨f, s1⟩
  have ht := (tables_eq_iff _ _).1 (roundTrip_tables_of_eq hrt)
  obtain ⟨h1, h2, h3, h4, h5, h6⟩ := ht
  cases f
  · simp only []
    split_ifs
    · simp [h1, h2, h3, h4, h5, h6]
    · simp [h1, h2, h3, h4, h5, h6]
    · simp [h1, h2, h3, h4, h5, h6]
  · simp [h1, h2, h3, h4, h5, h6]

/-- The effect of the mission `UPDATE`: only `missions` can change, and only by
rewriting `cat_id`, `completed` and `updated_at` of the rows with that id. -/
theorem updateMission_effect (c : Option Int) (b : Bool) (id : Int) (s : DB) :
    (updateMission c b id s).2.cats = s.cats ∧ (updateMission c b id s).2.targets = s.targets ∧
    (updateMission c b id s).2.targets_id_seq = s.targets_id_seq ∧
    (updateMission c b id s).2.cascade = s.cascade ∧
    (updateMission c b id s).2.missions_id_seq = s.missions_id_seq ∧
    ((updateMission c b id s).2.missions = s.missions ∨
      ∃ now, (updateMission c b id s).2.missions = s.missions.map (fun r =>
        if r.id = id then { r with cat_id := c, completed := b, updated_at := now } else r)) := by
  unfold updateMission
  rcases hrt : s.roundTrip with ⟨f, s1⟩
  have ht := (tables_eq_iff _ _).1 (roundTrip_tables_of_eq hrt)
  obtain ⟨h1, h2, h3, h4, h5, h6⟩ := ht
  cases f
  · simp only []
    split_ifs
    · simp [h1, h2, h3, h4, h5, h6]
    · simp only [h1, h2, h3, h4, h5, h6, true_and]
      exact Or.inr ⟨s1.now, rfl⟩
    · simp [h1, h2, h3, h4, h5, h6]
  · simp [h1, h2, h3, h4, h5, h6]

/-- The effect of the mission `DELETE`: rows may go, none comes or changes. -/
theorem deleteMission_effect (id : Int) (s : DB) :
    (deleteMission id s).2.cats = s.cats ∧
    (deleteMission id s).2.targets_id_seq = s.targets_id_seq ∧
    (deleteMission id s).2.cascade = s.cascade ∧
    (deleteMission id s).2.missions_id_seq = s.missions_id_seq ∧
    ((deleteMission id s).2.missions = s.missions ∨
      (deleteMission id s).2.missions = s.missions.filter (fun r => r.id ≠ id)) ∧
    ((deleteMission id s).2.targets = s.targets ∨
      (deleteMission id s).2.targets = s.targets.filter (fun r => r.mission_id ≠ id)) := by
  unfold deleteMission
  rcases hrt : s.roundTrip with ⟨f, s1⟩
  have ht := (tables_eq_iff _ _).1 (roundTrip_tables_of_eq hrt)
  obtain ⟨h1, h2, h3, h4, h5, h6⟩ := ht
  cases f
  · simp only []
    split_ifs <;> simp [h1, h2, h3, h4, h5, h6]
  · simp [h1, h2, h3, h4, h5, h6]

/-- The effect of the target `INSERT`: at most one row is appended, carrying
the values it was given and the id the sequence held. -/
theorem insertTarget_effect (mid : Int) (name country notes : String) (b : Bool) (s : DB) :
    (insertTarget mid name country notes b s).2.cats = s.cats ∧
    (insertTarget mid name country notes b s).2.missions = s.missions ∧
    (insertTarget mid name country notes b s).2.missions_id_seq = s.missions_id_seq ∧
    (insertTarget mid name country notes b s).2.cascade = s.cascade ∧
    s.targets_id_seq ≤ (insertTarget mid name country notes b s).2.targets_id_seq ∧
    (((insertTarget mid name country notes b s).1 ≠ .ok () ∧
        (insertTarget mid name country notes b s).2.targets = s.targets) ∨
      ((insertTarget mid name country notes b s).1 = .ok () ∧
        (insertTarget mid name country notes b s).2.targets_id_seq = s.targets_id_seq + 1 ∧
        ∃ now, (insertTarget mid name country notes b s).2.targets
          = s.targets ++ [⟨s.targets_id_seq, mid, name, country, notes, b, now, now⟩])) := by
  unfold insertTarget
  rcases hrt : s.roundTrip with ⟨f, s1⟩
  have ht := (tables_eq_iff _ _).1 (roundTrip_tables_of_eq hrt)
  obtain ⟨h1, h2, h3, h4, h5, h6⟩ := ht
  cases f
  · simp only []
    split_ifs <;> simp [h1, h2, h3, h4, h5, h6]
  · simp [h1, h2, h3, h4, h5, h6]

/-- The effect of the target `UPDATE`: only `targets` can change, and only by
rewriting `notes`, `completed` and `updated_at` of the rows with that id. -/
theorem updateTarget_effect (notes : String) (b : Bool) (id : Int) (s : DB) :
    (updateTarget notes b id s).2.cats = s.cats ∧
    (updateTarget notes b id s).2.missions = s.missions ∧
    (updateTarget notes b id s).2.missions_id_seq = s.missions_id_seq ∧
    (updateTarget notes b id s).2.targets_id_seq = s.targets_id_seq ∧
    (updateTarget notes b id s).2.cascade = s.cascade ∧
    (((updateTarget notes b id s).1 = .error errDriver ∧
        (updateTarget notes b id s).2.targets = s.targets) ∨
      ((updateTarget notes b id s).1 = .ok (s.targets.countP (fun r => r.id = id)) ∧
        ∃ now, (updateTarget notes b id s).2.targets = s.targets.map (fun r =>
          if r.id = id then { r with notes := notes, completed := b, updated_at := now }
          else r))) := by
  unfold updateTarget
  rcases hrt : s.roundTrip with ⟨f, s1⟩
  have ht := (tables_eq_iff _ _).1 (roundTrip_tables_of_eq hrt)
  obtain ⟨h1, h2, h3, h4, h5, h6⟩ := ht
  cases f
  · simp only [h1, h2, h3, h4, h5, h6, true_and]
    exact Or.inr ⟨s1.now, rfl⟩
  · simp [h1, h2, h3, h4, h5, h6]

/-- The effect of the target `DELETE`: rows of `targets` may go, nothing else
changes. -/
theorem deleteTarget_effect (id : Int) (s : DB) :
    (deleteTarget id s).2.cats = s.cats ∧
    (deleteTarget id s).2.missions = s.missions ∧
    (deleteTarget id s).2.missions_id_seq = s.missions_id_seq ∧
    (deleteTarget id s).2.targets_id_seq = s.targets_id_seq ∧
    (deleteTarget id s).2.cascade = s.cascade ∧
    ((deleteTarget id s).2.targets = s.targets ∨
      (deleteTarget id s).2.targets = s.targets.filter (fun r => r.id ≠ id)) := by
  unfold deleteTarget
  rcases hrt : s.roundTrip with ⟨f, s1⟩
  have ht := (tables_eq_iff _ _).1 (roundTrip_tables_of_eq hrt)
  obtain ⟨h1, h2, h3, h4, h5, h6⟩ := ht
  cases f <;> simp [h1, h2, h3, h4, h5, h6]

/-! ## The repository methods, by the statement that does their work -/

theorem CreateMission_state (m : Mission) (s : DB) :
    (MissionPostgres.CreateMission m s).2 = (insertMission m.CatID m.Completed s).2 := by
  unfold MissionPostgres.CreateMission
  split <;> simp_all

theorem UpdateMission_state (m : Mission) (s : DB) :
    (MissionPostgres.UpdateMission m s).2 = (updateMission m.CatID m.Completed m.ID s).2 := by
  unfold MissionPostgres.UpdateMission
  split
  · simp_all
  · split <;> simp_all

theorem UpdateTarget_state (t : Target) (s : DB) :
    (MissionPostgres.UpdateTarget t s).2 = (updateTarget t.Notes t.Completed t.ID s).2 := by
  unfold MissionPostgres.UpdateTarget
  split
  · simp_all
  · split <;> simp_all

theorem selectMissionCatID_tables (id : Int) (s : DB) :
    (selectMissionCatID id s).2.tables = s.tables := by
  have h := roundTrip_tables s
  unfold selectMissionCatID
  split
  · simp_all
  · split <;> simp_all

/-- The store's `DeleteMission` either leaves the tables alone or leaves what
the `DELETE` leaves, run on the same tables. -/
theorem DeleteMission_state (id : Int) (s : DB) :
    (MissionPostgres.DeleteMission id s).2.tables = s.tables ∨
    ∃ s1, s1.tables = s.tables ∧ (MissionPostgres.DeleteMission id s).2 = (deleteMission id s1).2 := by
  have h := selectMissionCatID_tables id s
  unfold MissionPostgres.DeleteMission
  split
  · left; simp_all
  · left; simp_all
  · rename_i catID s1 hsel
    rw [hsel] at h
    split_ifs
    · left; exact h
    · right
      refine ⟨s1, h, ?_⟩
      split
      · simp_all
      · split <;> simp_all

theorem selectTargetCompleted_tables (id : Int) (s : DB) :
    (selectTargetCompleted id s).2.tables = s.tables := by
  have h := roundTrip_tables s
  unfold selectTargetCompleted
  split
  · simp_all
  · split <;> simp_all

/-- The store's `DeleteTarget` either leaves the tables alone or leaves what
the `DELETE` leaves, run on the same tables. -/
theorem DeleteTarget_state (id : Int) (s : DB) :
    (MissionPostgres.DeleteTarget id s).2.tables = s.tables ∨
    ∃ s1, s1.tables = s.tables ∧ (MissionPostgres.DeleteTarget id s).2 = (deleteTarget id s1).2 := by
  have h := selectTargetCompleted_tables id s
  unfold MissionPostgres.DeleteTarget
  split
  · left; simp_all
  · rename_i row s1 hsel
    rw [hsel] at h
    split_ifs
    · left; exact h
    · right
      refine ⟨s1, h, ?_⟩
      split
      · simp_all
      · split <;> simp_all

/-- The store's `AddTargets` touches `targets` and its sequence only. -/
theorem AddTargets_others (targets : List Target) (s : DB) :
    (MissionPostgres.AddTargets targets s).2.cats = s.cats ∧
    (MissionPostgres.AddTargets targets s).2.missions = s.missions ∧
    (MissionPostgres.AddTargets targets s).2.missions_id_seq = s.missions_id_seq ∧
    (MissionPostgres.AddTargets targets s).2.cascade = s.cascade := by
  induction targets generalizing s with
  | nil => simp [MissionPostgres.AddTargets]
  | cons t ts ih =>
    unfold MissionPostgres.AddTargets
    split_ifs
    · simp
    · have he := insertTarget_effect t.MissionID t.Name t.Country t.Notes t.Completed s
      split
      · rename_i err s1 h
        rw [h] at he
        simp_all
      · rename_i u s1 h
        rw [h] at he
        have := ih s1
        simp_all

/-- The loop of `ListMissions` changes no table. -/
theorem listMissionsLoop_tables (rows : List MissionRow) (acc : List Mission) (s : DB) :
    (MissionPostgres.listMissionsLoop rows acc s).2.tables = s.tables := by
  induction rows generalizing acc s with
  | nil => simp [MissionPostgres.listMissionsLoop]
  | cons row rows ih =>
    unfold MissionPostgres.listMissionsLoop
    have h := listTargetsByMissionID_tables row.id s
    split
    · simp_all
    · rename_i targets s1 hl
      rw [hl] at h
      rw [ih]
      exact h

/-- `ListMissions` changes no table. -/
theorem ListMissions_tables (s : DB) : (MissionPostgres.ListMissions s).2.tables = s.tables := by
  unfold MissionPostgres.ListMissions selectMissions
  rcases hrt : s.roundTrip with ⟨f, s1⟩
  have ht := roundTrip_tables_of_eq hrt
  cases f
  · simp only []
    rw [listMissionsLoop_tables]
    exact ht
  · exact ht

/-! ## The use cases over the PostgreSQL adapter, by what they leave -/

/-- `UpdateMission` either leaves the tables alone, or found the mission open
and leaves what the `UPDATE` leaves. -/
theorem UpdateMission_cases (m : Mission) (s : DB) :
    (MissionUsecase.UpdateMission NewMissionPostgres m s).2.tables = s.tables ∨
    ∃ s1 row, s1.tables = s.tables ∧ s.missions.find? (fun r => r.id = m.ID) = some row ∧
      row.completed = false ∧
      (MissionUsecase.UpdateMission NewMissionPostgres m s).2
        = (updateMission m.CatID m.Completed m.ID s1).2 := by
  have ht := GetMissionByID_tables m.ID s
  simp only [MissionUsecase.UpdateMission, NewMissionPostgres]
  split
  · rename_i err s1 h
    rw [h] at ht
    exact Or.inl ht
  · rename_i existing s1 h
    rw [h] at ht
    obtain ⟨row, hfind, _, _, hcomp⟩ := GetMissionByID_ok h
    split_ifs with hc
    · exact Or.inl ht
    · right
      refine ⟨s1, row, ht, hfind, ?_, UpdateMission_state m s1⟩
      rw [← hcomp]
      simpa using hc

/-- `AssignCatToMission` either leaves the tables alone, or found the mission
without a cat and leaves what the `UPDATE` leaves, which writes the loaded
`completed` back. -/
theorem AssignCatToMission_cases (missionID catID : Int) (s : DB) :
    (MissionUsecase.AssignCatToMission NewMissionPostgres missionID catID s).2.tables = s.tables ∨
    ∃ s1 row, s1.tables = s.tables ∧
      s.missions.find? (fun r => r.id = missionID) = some row ∧
      (row.cat_id = none ∨ row.cat_id = some 0) ∧
      (MissionUsecase.AssignCatToMission NewMissionPostgres missionID catID s).2
        = (updateMission (some catID) row.completed missionID s1).2 := by
  have ht := GetMissionByID_tables missionID s
  simp only [MissionUsecase.AssignCatToMission, NewMissionPostgres]
  split
  · rename_i err s1 h
    rw [h] at ht
    exact Or.inl ht
  · rename_i mission s1 h
    rw [h] at ht
    obtain ⟨row, hfind, hid, hcat, hcomp⟩ := GetMissionByID_ok h
    obtain ⟨_, hrid⟩ := find_mission_some hfind
    split_ifs with hc
    · exact Or.inl ht
    · right
      refine ⟨s1, row, ht, hfind, ?_, ?_⟩
      · rw [← hcat]
        by_cases hn : mission.CatID = none
        · exact Or.inl hn
        · right
          by_contra h0
          exact hc ⟨hn, h0⟩
      · rw [UpdateMission_state]
        simp only
        rw [hid, hcomp, hrid]

/-- `DeleteMission` either leaves the tables alone, or found the mission
without a cat and leaves what the store's `DeleteMission` leaves. -/
theorem DeleteMission_cases (id : Int) (s : DB) :
    (MissionUsecase.DeleteMission NewMissionPostgres id s).2.tables = s.tables ∨
    ∃ s1 row, s1.tables = s.tables ∧ s.missions.find? (fun r => r.id = id) = some row ∧
      (row.cat_id = none ∨ row.cat_id = some 0) ∧
      (MissionUsecase.DeleteMission NewMissionPostgres id s).2 = (deleteMission id s1).2 := by
  have ht := GetMissionByID_tables id s
  simp only [MissionUsecase.DeleteMission, NewMissionPostgres]
  split
  · rename_i err s1 h
    rw [h] at ht
    exact Or.inl ht
  · rename_i mission s1 h
    rw [h] at ht
    obtain ⟨row, hfind, hid, hcat, hcomp⟩ := GetMissionByID_ok h
    split_ifs with hc
    · exact Or.inl ht
    · rcases DeleteMission_state id s1 with hd | ⟨s2, hs2, hd⟩
      · exact Or.inl (hd.trans ht)
      · right
        refine ⟨s2, row, hs2.trans ht, hfind, ?_, hd⟩
        rw [← hcat]
        by_cases hn : mission.CatID = none
        · exact Or.inl hn
        · right
          by_contra h0
          exact hc ⟨hn, h0⟩

/-- `AddTargets` either leaves the tables alone, or found the mission open and
leaves what the store's `AddTargets` leaves. -/
theorem AddTargets_cases (missionID : Int) (targets : List Target) (s : DB) :
    (MissionUsecase.AddTargets NewMissionPostgres missionID targets s).2.tables = s.tables ∨
    ∃ s1 row, s1.tables = s.tables ∧
      s.missions.find? (fun r => r.id = missionID) = some row ∧ row.completed = false ∧
      (MissionUsecase.AddTargets NewMissionPostgres missionID targets s).2
        = (MissionPostgres.AddTargets targets s1).2 := by
  have ht := GetMissionByID_tables missionID s
  simp only [MissionUsecase.AddTargets, NewMissionPostgres]
  split
  · rename_i err s1 h
    rw [h] at ht
    exact Or.inl ht
  · rename_i mission s1 h
    rw [h] at ht
    obtain ⟨row, hfind, _, _, hcomp⟩ := GetMissionByID_ok h
    split_ifs with hc
    · exact Or.inl ht
    · right
      refine ⟨s1, row, ht, hfind, ?_, rfl⟩
      rw [← hcomp]
      simpa using hc

/-- `UpdateTarget` either leaves the tables alone, or found the target and the
mission the request names, passed rule UT1 on them, and leaves what the
`UPDATE` leaves. -/
theorem UpdateTarget_cases (t : Target) (s : DB) :
    (MissionUsecase.UpdateTarget NewMissionPostgres t s).2.tables = s.tables ∨
    ∃ s2 row mrow, s2.tables = s.tables ∧
      s.targets.find? (fun r => r.id = t.ID) = some row ∧
      s.missions.find? (fun r => r.id = t.MissionID) = some mrow ∧
      ¬ ((row.completed = true ∨ mrow.completed = true) ∧ t.Notes ≠ row.notes) ∧
      (MissionUsecase.UpdateTarget NewMissionPostgres t s).2
        = (updateTarget t.Notes t.Completed t.ID s2).2 := by
  have ht := GetTargetByID_tables t.ID s
  simp only [MissionUsecase.UpdateTarget, NewMissionPostgres]
  split
  · rename_i err s1 h
    rw [h] at ht
    exact Or.inl ht
  · rename_i existing s1 h
    rw [h] at ht
    obtain ⟨row, hfind, hrow⟩ := GetTargetByID_ok h
    have ht2 := GetMissionByID_tables t.MissionID s1
    split
    · rename_i err s2 h2
      rw [h2] at ht2
      exact Or.inl (ht2.trans ht)
    · rename_i mission s2 h2
      rw [h2] at ht2
      obtain ⟨mrow, hmfind, _, _, hcomp⟩ := GetMissionByID_ok h2
      rw [((tables_eq_iff _ _).1 ht).2.1] at hmfind
      split_ifs with hc
      · exact Or.inl (ht2.trans ht)
      · right
        refine ⟨s2, row, mrow, ht2.trans ht, hfind, hmfind, ?_, UpdateTarget_state t s2⟩
        rw [hrow, hcomp] at hc
        simpa [TargetRow.toTarget] using hc

/-- `DeleteTarget` either leaves the tables alone, or found the target open and
leaves what the `DELETE` leaves. -/
theorem DeleteTarget_cases (id : Int) (s : DB) :
    (MissionUsecase.DeleteTarget NewMissionPostgres id s).2.tables = s.tables ∨
    ∃ s1 row, s1.tables = s.tables ∧ s.targets.find? (fun r => r.id = id) = some row ∧
      row.completed = false ∧
      (MissionUsecase.DeleteTarget NewMissionPostgres id s).2 = (deleteTarget id s1).2 := by
  have ht := GetTargetByID_tables id s
  simp only [MissionUsecase.DeleteTarget, NewMissionPostgres]
  split
  · rename_i err s1 h
    rw [h] at ht
    exact Or.inl ht
  · rename_i existing s1 h
    rw [h] at ht
    obtain ⟨row, hfind, hrow⟩ := GetTargetByID_ok h
    split_ifs with hc
    · exact Or.inl ht
    · rcases DeleteTarget_state id s1 with hd | ⟨s2, hs2, hd⟩
      · exact Or.inl (hd.trans ht)
      · right
        refine ⟨s2, row, hs2.trans ht, hfind, ?_, hd⟩
        rw [hrow] at hc
        simpa [TargetRow.toTarget] using hc

/-! ## Which targets `AddTargets` persists -/

/-- The store's `AddTargets` appends rows to `targets`, one per input target of
an initial segment of the input, each with the `mission_id` its input target
carries and a fresh id. -/
theorem AddTargets_appends (targets : List Target) (s : DB) :
    ∃ news : List TargetRow,
      (MissionPostgres.AddTargets targets s).2.targets = s.targets ++ news ∧
      s.targets_id_seq ≤ (MissionPostgres.AddTargets targets s).2.targets_id_seq ∧
      (∀ r ∈ news, s.targets_id_seq ≤ r.id ∧
        r.id < (MissionPostgres.AddTargets targets s).2.targets_id_seq) ∧
      news.map (fun r => (r.mission_id, r.name, r.country, r.notes, r.completed))
        = (targets.take news.length).map
            (fun t => (t.MissionID, t.Name, t.Country, t.Notes, t.Completed)) := by
  induction targets generalizing s with
  | nil => exact ⟨[], by simp [MissionPostgres.AddTargets]⟩
  | cons t ts ih =>
    unfold MissionPostgres.AddTargets
    split_ifs with h0
    · exact ⟨[], by simp⟩
    · obtain ⟨_, _, _, _, hseq, he⟩ :=
        insertTarget_effect t.MissionID t.Name t.Country t.Notes t.Completed s
      split
      · rename_i err s1 h
        rw [h] at he hseq
        rcases he with ⟨_, he⟩ | ⟨he, _⟩
        · exact ⟨[], by simpa using ⟨he, hseq⟩⟩
        · simp at he
      · rename_i u s1 h
        rw [h] at he hseq
        rcases he with ⟨he, _⟩ | ⟨_, hnext, now, he⟩
        · simp at he
        · obtain ⟨news, h1, h2, h3, h4⟩ := ih s1
          simp only at he hseq hnext
          refine ⟨⟨s.targets_id_seq, t.MissionID, t.Name, t.Country, t.Notes, t.Completed, now,
            now⟩ :: news, ?_, le_trans hseq h2, ?_, ?_⟩
          · rw [h1, he]
            simp
          · intro r hr
            rcases List.mem_cons.1 hr with hr | hr
            · rw [hr]
              simp only
              omega
            · exact ⟨le_trans hseq (h3 r hr).1, (h3 r hr).2⟩
          · simp [h4]

/-! ## Mission completion is kept by every use case -/

theorem MissionFrozen_of_tables {id : Int} {s s1 : DB} (h : s1.tables = s.tables)
    (hI : MissionFrozen id s) : MissionFrozen id s1 := by
  have ht := (tables_eq_iff _ _).1 h
  unfold MissionFrozen at *
  rw [ht.2.1, ht.2.2.2.1]
  exact hI

theorem MissionFrozen_of_missions {id : Int} {s s1 : DB} (h : s1.missions = s.missions)
    (hseq : s1.missions_id_seq = s.missions_id_seq)
    (hI : MissionFrozen id s) : MissionFrozen id s1 := by
  unfold MissionFrozen at *
  rw [h, hseq]
  exact hI

theorem MissionFrozen_insertMission (id : Int) (c : Option Int) (b : Bool) (s : DB)
    (hI : MissionFrozen id s) : MissionFrozen id (insertMission c b s).2 := by
  obtain ⟨_, _, _, _, hseq, hm⟩ := insertMission_effect c b s
  obtain ⟨h1, h2⟩ := hI
  refine ⟨lt_of_lt_of_le h1 hseq, ?_⟩
  rcases hm with hm | ⟨_, now, hm⟩
  · rw [hm]; exact h2
  · rw [hm]
    intro r hr hid
    rcases List.mem_append.1 hr with hr | hr
    · exact h2 r hr hid
    · simp at hr
      subst hr
      simp at hid
      omega

/-- An `UPDATE` that writes `completed = true` on the rows of mission `id`, or
does not touch them, keeps the mission frozen. -/
theorem MissionFrozen_updateMission (id : Int) (c : Option Int) (b : Bool) (mid : Int) (s : DB)
    (hb : mid = id → b = true)
    (hI : MissionFrozen id s) : MissionFrozen id (updateMission c b mid s).2 := by
  obtain ⟨_, _, _, _, hseq, hm⟩ := updateMission_effect c b mid s
  obtain ⟨h1, h2⟩ := hI
  refine ⟨by rw [hseq]; exact h1, ?_⟩
  rcases hm with hm | ⟨now, hm⟩
  · rw [hm]; exact h2
  · rw [hm]
    intro r hr hid
    obtain ⟨r0, hr0, hEq⟩ := List.mem_map.1 hr
    by_cases hc : r0.id = mid
    · rw [if_pos hc] at hEq
      subst hEq
      simp at hid
      simp
      exact hb (hc ▸ hid)
    · rw [if_neg hc] at hEq
      subst hEq
      exact h2 r0 hr0 hid

theorem MissionFrozen_deleteMission (id mid : Int) (s : DB)
    (hI : MissionFrozen id s) : MissionFrozen id (deleteMission mid s).2 := by
  obtain ⟨_, _, _, hseq, hm, _⟩ := deleteMission_effect mid s
  obtain ⟨h1, h2⟩ := hI
  refine ⟨by rw [hseq]; exact h1, ?_⟩
  rcases hm with hm | hm
  · rw [hm]; exact h2
  · rw [hm]
    intro r hr hid
    exact h2 r (List.mem_filter.1 hr).1 hid

/-- Every use-case call keeps a frozen mission frozen. -/
theorem MissionFrozen_run (id : Int) (op : Op) (s : DB) (hI : MissionFrozen id s) :
    MissionFrozen id (op.run s) := by
  cases op with
  | CreateMission m =>
    simp only [Op.run, MissionUsecase.CreateMission, NewMissionPostgres]
    rw [CreateMission_state]
    exact MissionFrozen_insertMission id _ _ s hI
  | GetMissionByID mid => exact MissionFrozen_of_tables (GetMissionByID_tables mid s) hI
  | ListMissions => exact MissionFrozen_of_tables (ListMissions_tables s) hI
  | UpdateMission m =>
    rcases UpdateMission_cases m s with h | ⟨s1, row, hs1, hfind, hopen, h⟩
    · exact MissionFrozen_of_tables h hI
    · simp only [Op.run]
      rw [h]
      apply MissionFrozen_updateMission _ _ _ _ _ _ (MissionFrozen_of_tables hs1 hI)
      intro hid
      obtain ⟨hmem, hrid⟩ := find_mission_some hfind
      have := hI.2 row hmem (hrid.trans hid)
      rw [this] at hopen
      exact absurd hopen (by simp)
  | DeleteMission mid =>
    rcases DeleteMission_cases mid s with h | ⟨s1, row, hs1, _, _, h⟩
    · exact MissionFrozen_of_tables h hI
    · simp only [Op.run]
      rw [h]
      exact MissionFrozen_deleteMission id mid s1 (MissionFrozen_of_tables hs1 hI)
  | AddTargets mid targets =>
    rcases AddTargets_cases mid targets s with h | ⟨s1, row, hs1, _, _, h⟩
    · exact MissionFrozen_of_tables h hI
    · simp only [Op.run]
      rw [h]
      obtain ⟨_, hm, hseq, _⟩ := AddTargets_others targets s1
      exact MissionFrozen_of_missions hm hseq (MissionFrozen_of_tables hs1 hI)
  | UpdateTarget t =>
    rcases UpdateTarget_cases t s with h | ⟨s1, row, mrow, hs1, _, _, _, h⟩
    · exact MissionFrozen_of_tables h hI
    · simp only [Op.run]
      rw [h]
      obtain ⟨_, hm, hseq, _⟩ := updateTarget_effect t.Notes t.Completed t.ID s1
      exact MissionFrozen_of_missions hm hseq (MissionFrozen_of_tables hs1 hI)
  | DeleteTarget tid =>
    rcases DeleteTarget_cases tid s with h | ⟨s1, row, hs1, _, _, h⟩
    · exact MissionFrozen_of_tables h hI
    · simp only [Op.run]
      rw [h]
      obtain ⟨_, hm, hseq, _⟩ := deleteTarget_effect tid s1
      exact MissionFrozen_of_missions hm hseq (MissionFrozen_of_tables hs1 hI)
  | AssignCatToMission mid catID =>
    rcases AssignCatToMission_cases mid catID s with h | ⟨s1, row, hs1, hfind, _, h⟩
    · exact MissionFrozen_of_tables h hI
    · simp only [Op.run]
      rw [h]
      apply MissionFrozen_updateMission _ _ _ _ _ _ (MissionFrozen_of_tables hs1 hI)
      intro hid
      obtain ⟨hmem, hrid⟩ := find_mission_some hfind
      exact hI.2 row hmem (hrid.trans hid)

theorem MissionFrozen_runOps (id : Int) (ops : List Op) (s : DB) (hI : MissionFrozen id s) :
    MissionFrozen id (runOps ops s) := by
  induction ops generalizing s with
  | nil => exact hI
  | cons op ops ih => exact ih (op.run s) (MissionFrozen_run id op s hI)

/-! ## Target completion under the use cases -/

theorem TargetFrozen_of_tables {id : Int} {s s1 : DB} (h : s1.tables = s.tables)
    (hI : TargetFrozen id s) : TargetFrozen id s1 := by
  have ht := (tables_eq_iff _ _).1 h
  unfold TargetFrozen at *
  rw [ht.2.2.1, ht.2.2.2.2.1]
  exact hI

theorem TargetFrozen_of_targets {id : Int} {s s1 : DB} (h : s1.targets = s.targets)
    (hseq : s1.targets_id_seq = s.targets_id_seq)
    (hI : TargetFrozen id s) : TargetFrozen id s1 := by
  unfold TargetFrozen at *
  rw [h, hseq]
  exact hI

/-- Rows that go do not thaw a target. -/
theorem TargetFrozen_of_filter {id : Int} {s s1 : DB} (p : TargetRow → Bool)
    (h : s1.targets = s.targets ∨ s1.targets = s.targets.filter p)
    (hseq : s1.targets_id_seq = s.targets_id_seq)
    (hI : TargetFrozen id s) : TargetFrozen id s1 := by
  rcases h with h | h
  · exact TargetFrozen_of_targets h hseq hI
  · refine ⟨by rw [hseq]; exact hI.1, ?_⟩
    rw [h]
    intro r hr hid
    exact hI.2 r (List.mem_filter.1 hr).1 hid

/-- An `UPDATE` that writes `completed = true` on the rows of target `id`, or
does not touch them, keeps the target frozen. -/
theorem TargetFrozen_updateTarget (id : Int) (notes : String) (b : Bool) (tid : Int) (s : DB)
    (hb : tid = id → b = true)
    (hI : TargetFrozen id s) : TargetFrozen id (updateTarget notes b tid s).2 := by
  obtain ⟨_, _, _, hseq, _, hm⟩ := updateTarget_effect notes b tid s
  obtain ⟨h1, h2⟩ := hI
  refine ⟨by rw [hseq]; exact h1, ?_⟩
  rcases hm with ⟨_, hm⟩ | ⟨_, now, hm⟩
  · rw [hm]; exact h2
  · rw [hm]
    intro r hr hid
    obtain ⟨r0, hr0, hEq⟩ := List.mem_map.1 hr
    by_cases hc : r0.id = tid
    · rw [if_pos hc] at hEq
      subst hEq
      simp at hid
      simp
      exact hb (hc ▸ hid)
    · rw [if_neg hc] at hEq
      subst hEq
      exact h2 r0 hr0 hid

theorem TargetFrozen_AddTargets (id : Int) (targets : List Target) (s : DB)
    (hI : TargetFrozen id s) : TargetFrozen id (MissionPostgres.AddTargets targets s).2 := by
  obtain ⟨news, h1, h2, h3, _⟩ := AddTargets_appends targets s
  refine ⟨lt_of_lt_of_le hI.1 h2, ?_⟩
  rw [h1]
  intro r hr hid
  rcases List.mem_append.1 hr with hr | hr
  · exact hI.2 r hr hid
  · have := (h3 r hr).1
    have := hI.1
    omega

/-- One `UpdateTarget` request keeps target `id` frozen when, if it addresses
that target, it carries `completed = true` or notes other than the persisted
ones. -/
theorem TargetFrozen_UpdateTarget (id : Int) (t : Target) (s : DB)
    (hreq : t.ID = id → t.Completed = true ∨ ∀ r ∈ s.targets, r.id = id → r.notes ≠ t.Notes)
    (hI : TargetFrozen id s) :
    TargetFrozen id (MissionUsecase.UpdateTarget NewMissionPostgres t s).2 := by
  rcases UpdateTarget_cases t s with h | ⟨s1, row, mrow, hs1, hfind, _, hut, h⟩
  · exact TargetFrozen_of_tables h hI
  · rw [h]
    apply TargetFrozen_updateTarget _ _ _ _ _ _ (TargetFrozen_of_tables hs1 hI)
    intro hid
    obtain ⟨hmem, hrid⟩ := find_target_some hfind
    have hdone := hI.2 row hmem (hrid.trans hid)
    rcases hreq hid with hb | hn
    · exact hb
    · exfalso
      apply hut
      exact ⟨Or.inl hdone, fun hEq => hn row hmem (hrid.trans hid) hEq.symm⟩

/-- Every use-case call other than an `UpdateTarget` request for target `id`
that carries the persisted notes and `completed = false` keeps the target
frozen. -/
theorem TargetFrozen_run (id : Int) (op : Op) (s : DB) (hop : op.sparesTarget id s)
    (hI : TargetFrozen id s) : TargetFrozen id (op.run s) := by
  cases op with
  | CreateMission m =>
    simp only [Op.run, MissionUsecase.CreateMission, NewMissionPostgres]
    rw [CreateMission_state]
    obtain ⟨_, ht, hseq, _⟩ := insertMission_effect m.CatID m.Completed s
    exact TargetFrozen_of_targets ht hseq hI
  | GetMissionByID mid => exact TargetFrozen_of_tables (GetMissionByID_tables mid s) hI
  | ListMissions => exact TargetFrozen_of_tables (ListMissions_tables s) hI
  | UpdateMission m =>
    rcases UpdateMission_cases m s with h | ⟨s1, row, hs1, _, _, h⟩
    · exact TargetFrozen_of_tables h hI
    · simp only [Op.run]
      rw [h]
      obtain ⟨_, ht, hseq, _⟩ := updateMission_effect m.CatID m.Completed m.ID s1
      exact TargetFrozen_of_targets ht hseq (TargetFrozen_of_tables hs1 hI)
  | DeleteMission mid =>
    rcases DeleteMission_cases mid s with h | ⟨s1, row, hs1, _, _, h⟩
    · exact TargetFrozen_of_tables h hI
    · simp only [Op.run]
      rw [h]
      obtain ⟨_, hseq, _, _, _, ht⟩ := deleteMission_effect mid s1
      exact TargetFrozen_of_filter _ ht hseq (TargetFrozen_of_tables hs1 hI)
  | AddTargets mid targets =>
    rcases AddTargets_cases mid targets s with h | ⟨s1, row, hs1, _, _, h⟩
    · exact TargetFrozen_of_tables h hI
    · simp only [Op.run]
      rw [h]
      exact TargetFrozen_AddTargets id targets s1 (TargetFrozen_of_tables hs1 hI)
  | UpdateTarget t =>
    exact TargetFrozen_UpdateTarget id t s hop hI
  | DeleteTarget tid =>
    rcases DeleteTarget_cases tid s with h | ⟨s1, row, hs1, _, _, h⟩
    · exact TargetFrozen_of_tables h hI
    · simp only [Op.run]
      rw [h]
      obtain ⟨_, _, _, hseq, _, ht⟩ := deleteTarget_effect tid s1
      exact TargetFrozen_of_filter _ ht hseq (TargetFrozen_of_tables hs1 hI)
  | AssignCatToMission mid catID =>
    rcases AssignCatToMission_cases mid catID s with h | ⟨s1, row, hs1, _, _, h⟩
    · exact TargetFrozen_of_tables h hI
    · simp only [Op.run]
      rw [h]
      obtain ⟨_, ht, hseq, _⟩ := updateMission_effect (some catID) row.completed mid s1
      exact TargetFrozen_of_targets ht hseq (TargetFrozen_of_tables hs1 hI)

theorem TargetFrozen_runOps (id : Int) (ops : List Op) (s : DB)
    (hops : sparesTargetAlong id ops s) (hI : TargetFrozen id s) :
    TargetFrozen id (runOps ops s) := by
  induction ops generalizing s with
  | nil => exact hI
  | cons op ops ih => exact ih (op.run s) hops.2 (TargetFrozen_run id op s hops.1 hI)

/-! ## The sequences stay ahead of the ids

The monotonicity theorems ask that the id they follow is below its sequence.
Every store the use cases can reach from a fresh database is such a store. -/

theorem SeqAhead_of_tables {s s1 : DB} (h : s1.tables = s.tables) (hI : SeqAhead s) :
    SeqAhead s1 := by
  have ht := (tables_eq_iff _ _).1 h
  unfold SeqAhead at *
  rw [ht.2.1, ht.2.2.1, ht.2.2.2.1, ht.2.2.2.2.1]
  exact hI

theorem SeqAhead_insertMission (c : Option Int) (b : Bool) (s : DB) (hI : SeqAhead s) :
    SeqAhead (insertMission c b s).2 := by
  obtain ⟨_, ht, htseq, _, hseq, hm⟩ := insertMission_effect c b s
  refine ⟨?_, by rw [ht, htseq]; exact hI.2⟩
  rcases hm with hm | ⟨hnext, now, hm⟩
  · rw [hm]
    exact fun r hr => lt_of_lt_of_le (hI.1 r hr) hseq
  · rw [hm, hnext]
    intro r hr
    rcases List.mem_append.1 hr with hr | hr
    · have := hI.1 r hr
      omega
    · simp at hr
      subst hr
      simp

theorem SeqAhead_updateMission (c : Option Int) (b : Bool) (id : Int) (s : DB)
    (hI : SeqAhead s) : SeqAhead (updateMission c b id s).2 := by
  obtain ⟨_, ht, htseq, _, hseq, hm⟩ := updateMission_effect c b id s
  refine ⟨?_, by rw [ht, htseq]; exact hI.2⟩
  rw [hseq]
  rcases hm with hm | ⟨now, hm⟩
  · rw [hm]; exact hI.1
  · rw [hm]
    intro r hr
    obtain ⟨r0, hr0, hEq⟩ := List.mem_map.1 hr
    have := hI.1 r0 hr0
    split_ifs at hEq <;> (subst hEq; simpa using this)

theorem SeqAhead_deleteMission (id : Int) (s : DB) (hI : SeqAhead s) :
    SeqAhead (deleteMission id s).2 := by
  obtain ⟨_, htseq, _, hseq, hm, ht⟩ := deleteMission_effect id s
  refine ⟨?_, ?_⟩
  · rw [hseq]
    rcases hm with hm | hm <;> rw [hm]
    · exact hI.1
    · exact fun r hr => hI.1 r (List.mem_filter.1 hr).1
  · rw [htseq]
    rcases ht with ht | ht <;> rw [ht]
    · exact hI.2
    · exact fun r hr => hI.2 r (List.mem_filter.1 hr).1

theorem SeqAhead_AddTargets (targets : List Target) (s : DB) (hI : SeqAhead s) :
    SeqAhead (MissionPostgres.AddTargets targets s).2 := by
  obtain ⟨_, hm, hseq, _⟩ := AddTargets_others targets s
  obtain ⟨news, h1, h2, h3, _⟩ := AddTargets_appends targets s
  refine ⟨by rw [hm, hseq]; exact hI.1, ?_⟩
  rw [h1]
  intro r hr
  rcases List.mem_append.1 hr with hr | hr
  · exact lt_of_lt_of_le (hI.2 r hr) h2
  · exact (h3 r hr).2

theorem SeqAhead_updateTarget (notes : String) (b : Bool) (id : Int) (s : DB)
    (hI : SeqAhead s) : SeqAhead (updateTarget notes b id s).2 := by
  obtain ⟨_, hm, hseq, htseq, _, ht⟩ := updateTarget_effect notes b id s
  refine ⟨by rw [hm, hseq]; exact hI.1, ?_⟩
  rw [htseq]
  rcases ht with ⟨_, ht⟩ | ⟨_, now, ht⟩
  · rw [ht]; exact hI.2
  · rw [ht]
    intro r hr
    obtain ⟨r0, hr0, hEq⟩ := List.mem_map.1 hr
    have := hI.2 r0 hr0
    split_ifs at hEq <;> (subst hEq; simpa using this)

theorem SeqAhead_deleteTarget (id : Int) (s : DB) (hI : SeqAhead s) :
    SeqAhead (deleteTarget id s).2 := by
  obtain ⟨_, hm, hseq, htseq, _, ht⟩ := deleteTarget_effect id s
  refine ⟨by rw [hm, hseq]; exact hI.1, ?_⟩
  rw [htseq]
  rcases ht with ht | ht <;> rw [ht]
  · exact hI.2
  · exact fun r hr => hI.2 r (List.mem_filter.1 hr).1

/-- Every use-case call keeps the sequences ahead of the ids. -/
theorem SeqAhead_run (op : Op) (s : DB) (hI : SeqAhead s) : SeqAhead (op.run s) := by
  cases op with
  | CreateMission m =>
    simp only [Op.run, MissionUsecase.CreateMission, NewMissionPostgres]
    rw [CreateMission_state]
    exact SeqAhead_insertMission _ _ s hI
  | GetMissionByID mid => exact SeqAhead_of_tables (GetMissionByID_tables mid s) hI
  | ListMissions => exact SeqAhead_of_tables (ListMissions_tables s) hI
  | UpdateMission m =>
    rcases UpdateMission_cases m s with h | ⟨s1, _, hs1, _, _, h⟩
    · exact SeqAhead_of_tables h hI
    · simp only [Op.run]
      rw [h]
      exact SeqAhead_updateMission _ _ _ s1 (SeqAhead_of_tables hs1 hI)
  | DeleteMission mid =>
    rcases DeleteMission_cases mid s with h | ⟨s1, _, hs1, _, _, h⟩
    · exact SeqAhead_of_tables h hI
    · simp only [Op.run]
      rw [h]
      exact SeqAhead_deleteMission mid s1 (SeqAhead_of_tables hs1 hI)
  | AddTargets mid targets =>
    rcases AddTargets_cases mid targets s with h | ⟨s1, _, hs1, _, _, h⟩
    · exact SeqAhead_of_tables h hI
    · simp only [Op.run]
      rw [h]
      exact SeqAhead_AddTargets targets s1 (SeqAhead_of_tables hs1 hI)
  | UpdateTarget t =>
    rcases UpdateTarget_cases t s with h | ⟨s1, _, _, hs1, _, _, _, h⟩
    · exact SeqAhead_of_tables h hI
    · simp only [Op.run]
      rw [h]
      exact SeqAhead_updateTarget _ _ _ s1 (SeqAhead_of_tables hs1 hI)
  | DeleteTarget tid =>
    rcases DeleteTarget_cases tid s with h | ⟨s1, _, hs1, _, _, h⟩
    · exact SeqAhead_of_tables h hI
    · simp only [Op.run]
      rw [h]
      exact SeqAhead_deleteTarget tid s1 (SeqAhead_of_tables hs1 hI)
  | AssignCatToMission mid catID =>
    rcases AssignCatToMission_cases mid catID s with h | ⟨s1, _, hs1, _, _, h⟩
    · exact SeqAhead_of_tables h hI
    · simp only [Op.run]
      rw [h]
      exact SeqAhead_updateMission _ _ _ s1 (SeqAhead_of_tables hs1 hI)

/-- In every store reached from a fresh database by use-case calls, every
mission id and every target id is below its sequence. -/
theorem SeqAhead_reachable (cats : List Int) (cascade : Bool) (faults : List Bool)
    (ops : List Op) : SeqAhead (runOps ops (freshDB cats cascade faults)) := by
  have base : SeqAhead (freshDB cats cascade faults) := by
    constructor <;> intro r hr <;> simp [freshDB] at hr
  generalize freshDB cats cascade faults = s at base
  induction ops generalizing s with
  | nil => exact base
  | cons op ops ih => exact ih (op.run s) (SeqAhead_run op s base)

/-! # The claims -/

/-! ## Rule U1: completed missions are not updated -/

/-- C1: when the load of `m.ID` gives a completed mission, `UpdateMission` returns
"cannot update a completed mission", leaves the store as the load left it and
the load is its only repository call; when the load gives an open mission the
result is exactly the store's `UpdateMission m`, called right after the load.
Over the PostgreSQL adapter, `UpdateMission` on a mission persisted as
completed changes no table. -/
theorem UpdateMission_rule_U1 {σ : Type} (repo : Repository σ) (m existing : Mission) (s s1 : σ)
    (hload : repo.GetMissionByID m.ID s = (.ok existing, s1)) :
    (existing.Completed = true →
      MissionUsecase.UpdateMission repo m s = (.error "cannot update a completed mission", s1) ∧
      (MissionUsecase.UpdateMission repo.recording m (s, [])).2.2 = [Call.GetMissionByID m.ID]) ∧
    (existing.Completed = false →
      MissionUsecase.UpdateMission repo m s = repo.UpdateMission m s1 ∧
      (MissionUsecase.UpdateMission repo.recording m (s, [])).2.2
        = [Call.GetMissionByID m.ID, Call.UpdateMission m]) ∧
    (∀ db : DB, (∀ r ∈ db.missions, r.id = m.ID → r.completed = true) →
      (MissionUsecase.UpdateMission NewMissionPostgres m db).2.tables = db.tables) := by
  refine ⟨?_, ?_, ?_⟩
  · intro hc
    simp [MissionUsecase.UpdateMission, Repository.recording, logged, hload, hc]
  · intro hc
    simp [MissionUsecase.UpdateMission, Repository.recording, logged, hload, hc]
  · intro db hdone
    rcases UpdateMission_cases m db with h | ⟨s1, row, _, hfind, hopen, _⟩
    · exact h
    · obtain ⟨hmem, hrid⟩ := find_mission_some hfind
      rw [hdone row hmem hrid] at hopen
      exact absurd hopen (by simp)

/-- C1 at the demo store: mission 1 is completed, the update is refused. -/
theorem UpdateMission_rule_U1_witness :
    NewMissionPostgres.GetMissionByID 1 demoDB
      = (.ok ⟨1, none, true, 0, 0, [⟨1, 1, "vault", "CH", "old", false, 0, 0⟩]⟩,
          { demoDB with now := 2 }) ∧
    MissionUsecase.UpdateMission NewMissionPostgres ⟨1, some 7, false, 0, 0, []⟩ demoDB
      = (.error "cannot update a completed mission", { demoDB with now := 2 }) :=
  ⟨rfl, ((UpdateMission_rule_U1 NewMissionPostgres ⟨1, some 7, false, 0, 0, []⟩ _ demoDB _
    rfl).1 rfl).1⟩

/-! ## Assignment and completed missions -/

/-- C2 fails on the code: on the demo store, mission 1 is completed and has no
cat; `UpdateMission` refuses to touch it, yet `AssignCatToMission 1 42`
succeeds and persists `cat_id = 42`. -/
theorem AssignCatToMission_on_completed_mission :
    demoDB.missions = [⟨1, none, true, 0, 0⟩, ⟨2, none, false, 0, 0⟩] ∧
    (MissionUsecase.UpdateMission NewMissionPostgres ⟨1, some 42, true, 0, 0, []⟩ demoDB).1
      = .error "cannot update a completed mission" ∧
    (MissionUsecase.AssignCatToMission NewMissionPostgres 1 42 demoDB).1 = .ok () ∧
    (MissionUsecase.AssignCatToMission NewMissionPostgres 1 42 demoDB).2.missions
      = [⟨1, some 42, true, 0, 3⟩, ⟨2, none, false, 0, 0⟩] :=
  ⟨rfl, rfl, rfl, rfl⟩

/-! ## Rule A1: a mission is assigned once -/

/-- C3: when the loaded mission has a cat (`CatID` neither nil nor 0),
`AssignCatToMission` returns "mission already assigned to a cat", leaves the
store as the load left it and the load is its only repository call; when the
loaded mission has no cat, the store's `UpdateMission` is called once, right
after the load, with the loaded mission carrying `CatID = catID` (same id), and
its result is returned. Over the PostgreSQL adapter, `AssignCatToMission` on a
mission persisted with a cat changes no table. -/
theorem AssignCatToMission_rule_A1 {σ : Type} (repo : Repository σ) (missionID catID : Int)
    (mission : Mission) (s s1 : σ)
    (hload : repo.GetMissionByID missionID s = (.ok mission, s1)) :
    ((mission.CatID ≠ none ∧ mission.CatID ≠ some 0) →
      MissionUsecase.AssignCatToMission repo missionID catID s
        = (.error "mission already assigned to a cat", s1) ∧
      (MissionUsecase.AssignCatToMission repo.recording missionID catID (s, [])).2.2
        = [Call.GetMissionByID missionID]) ∧
    ((mission.CatID = none ∨ mission.CatID = some 0) →
      MissionUsecase.AssignCatToMission repo missionID catID s
        = repo.UpdateMission { mission with CatID := some catID } s1 ∧
      (MissionUsecase.AssignCatToMission repo.recording missionID catID (s, [])).2.2
        = [Call.GetMissionByID missionID,
            Call.UpdateMission ⟨mission.ID, some catID, mission.Completed, mission.CreatedAt,
              mission.UpdatedAt, mission.Targets⟩]) ∧
    (∀ db : DB, (∀ r ∈ db.missions, r.id = missionID → r.cat_id ≠ none ∧ r.cat_id ≠ some 0) →
      (MissionUsecase.AssignCatToMission NewMissionPostgres missionID catID db).2.tables
        = db.tables) := by
  refine ⟨?_, ?_, ?_⟩
  · intro hc
    simp [MissionUsecase.AssignCatToMission, Repository.recording, logged, hload, hc]
  · intro hc
    have hn : ¬ (mission.CatID ≠ none ∧ mission.CatID ≠ some 0) := by
      rcases hc with h | h <;> simp [h]
    simp only [MissionUsecase.AssignCatToMission, Repository.recording, logged, hload, hn]
    simp
  · intro db hcat
    rcases AssignCatToMission_cases missionID catID db with h | ⟨s1, row, _, hfind, hno, _⟩
    · exact h
    · obtain ⟨hmem, hrid⟩ := find_mission_some hfind
      have := hcat row hmem hrid
      rcases hno with h | h
      · exact absurd h this.1
      · exact absurd h this.2

/-- C3 at the demo store: mission 1 has no cat, so the loaded mission goes to
the store's `UpdateMission` with `CatID = 42`. -/
theorem AssignCatToMission_rule_A1_witness :
    NewMissionPostgres.GetMissionByID 1 demoDB
      = (.ok ⟨1, none, true, 0, 0, [⟨1, 1, "vault", "CH", "old", false, 0, 0⟩]⟩,
          { demoDB with now := 2 }) ∧
    (MissionUsecase.AssignCatToMission NewMissionPostgres.recording 1 42 (demoDB, [])).2.2
      = [Call.GetMissionByID 1,
          Call.UpdateMission ⟨1, some 42, true, 0, 0, [⟨1, 1, "vault", "CH", "old", false, 0, 0⟩]⟩] :=
  ⟨rfl, ((AssignCatToMission_rule_A1 NewMissionPostgres 1 42 _ demoDB _ rfl).2.1
    (Or.inl rfl)).2⟩

/-! ## Rule D1: assigned missions are not deleted -/

/-- C4: after a successful load, `DeleteMission` answers "mission cannot be
deleted because it is assigned to a cat" without a call of the store's
`DeleteMission` exactly when the loaded mission has a cat (`CatID` neither nil
nor 0); in that case the store is as the load left it, and in the other case
the result is exactly the store's `DeleteMission id`. -/
theorem DeleteMission_rule_D1 {σ : Type} (repo : Repository σ) (id : Int) (m : Mission)
    (s s1 : σ) (hload : repo.GetMissionByID id s = (.ok m, s1)) :
    (((MissionUsecase.DeleteMission repo.recording id (s, [])).1
          = .error "mission cannot be deleted because it is assigned to a cat" ∧
        (MissionUsecase.DeleteMission repo.recording id (s, [])).2.2.all
          (fun c => !c.isDeleteMission) = true)
      ↔ (m.CatID ≠ none ∧ m.CatID ≠ some 0)) ∧
    ((m.CatID ≠ none ∧ m.CatID ≠ some 0) →
      MissionUsecase.DeleteMission repo id s
        = (.error "mission cannot be deleted because it is assigned to a cat", s1)) ∧
    (¬ (m.CatID ≠ none ∧ m.CatID ≠ some 0) →
      MissionUsecase.DeleteMission repo id s = repo.DeleteMission id s1) := by
  by_cases hc : m.CatID ≠ none ∧ m.CatID ≠ some 0
  · simp [MissionUsecase.DeleteMission, Repository.recording, logged, hload, hc,
      Call.isDeleteMission]
  · simp only [MissionUsecase.DeleteMission, Repository.recording, logged, hload, hc]
    simp [Call.isDeleteMission]

/-- C4 at the demo store: mission 2 has no cat, so `DeleteMission 2` is the
store's `DeleteMission 2` run after the load. -/
theorem DeleteMission_rule_D1_witness :
    NewMissionPostgres.GetMissionByID 2 demoDB
      = (.ok ⟨2, none, false, 0, 0, []⟩, { demoDB with now := 2 }) ∧
    MissionUsecase.DeleteMission NewMissionPostgres 2 demoDB
      = NewMissionPostgres.DeleteMission 2 { demoDB with now := 2 } :=
  ⟨rfl, (DeleteMission_rule_D1 NewMissionPostgres 2 _ demoDB _ rfl).2.2 (by decide)⟩

/-! ## Rule T1: no targets for completed missions -/

/-- C5: when the loaded mission is completed, `AddTargets` returns "cannot add
targets to a completed mission", leaves the store as the load left it and the
load is its only repository call; when it is open the result is exactly the
store's `AddTargets`, called right after the load. Over the PostgreSQL adapter,
`AddTargets` for a mission persisted as completed changes no table. -/
theorem AddTargets_rule_T1 {σ : Type} (repo : Repository σ) (missionID : Int)
    (targets : List Target) (mission : Mission) (s s1 : σ)
    (hload : repo.GetMissionByID missionID s = (.ok mission, s1)) :
    (mission.Completed = true →
      MissionUsecase.AddTargets repo missionID targets s
        = (.error "cannot add targets to a completed mission", s1) ∧
      (MissionUsecase.AddTargets repo.recording missionID targets (s, [])).2.2
        = [Call.GetMissionByID missionID]) ∧
    (mission.Completed = false →
      MissionUsecase.AddTargets repo missionID targets s = repo.AddTargets targets s1 ∧
      (MissionUsecase.AddTargets repo.recording missionID targets (s, [])).2.2
        = [Call.GetMissionByID missionID, Call.AddTargets targets]) ∧
    (∀ db : DB, (∀ r ∈ db.missions, r.id = missionID → r.completed = true) →
      (MissionUsecase.AddTargets NewMissionPostgres missionID targets db).2.tables
        = db.tables) := by
  refine ⟨?_, ?_, ?_⟩
  · intro hc
    simp [MissionUsecase.AddTargets, Repository.recording, logged, hload, hc]
  · intro hc
    simp [MissionUsecase.AddTargets, Repository.recording, logged, hload, hc]
  · intro db hdone
    rcases AddTargets_cases missionID targets db with h | ⟨s1, row, _, hfind, hopen, _⟩
    · exact h
    · obtain ⟨hmem, hrid⟩ := find_mission_some hfind
      rw [hdone row hmem hrid] at hopen
      exact absurd hopen (by simp)

/-- C5 at the demo store: mission 1 is completed, no target is added. -/
theorem AddTargets_rule_T1_witness :
    NewMissionPostgres.GetMissionByID 1 demoDB
      = (.ok ⟨1, none, true, 0, 0, [⟨1, 1, "vault", "CH", "old", false, 0, 0⟩]⟩,
          { demoDB with now := 2 }) ∧
    MissionUsecase.AddTargets NewMissionPostgres 1 [⟨0, 1, "safe", "FR", "", false, 0, 0⟩] demoDB
      = (.error "cannot add targets to a completed mission", { demoDB with now := 2 }) :=
  ⟨rfl, ((AddTargets_rule_T1 NewMissionPostgres 1 _ _ demoDB _ rfl).1 rfl).1⟩

/-! ## The mission id of added targets -/

/-- C6, as the code has it: the targets that the use case `AddTargets` persists
are appended to `targets` with the `mission_id` their input target carries (an
initial segment of the input, nothing is stamped); through the handler, which
builds every input target with the mission id of the path, every persisted
target has `mission_id = missionID`. -/
theorem AddTargets_persists_carried_mission_id (s : DB) (missionID : Int) :
    (∀ targets : List Target, ∃ news : List TargetRow,
      (MissionUsecase.AddTargets NewMissionPostgres missionID targets s).2.targets
        = s.targets ++ news ∧
      news.map (fun r => r.mission_id)
        = (targets.take news.length).map (fun t => t.MissionID)) ∧
    (∀ targetsDTO : List Handler.TargetDTO, ∃ news : List TargetRow,
      (Handler.addTargets NewMissionPostgres (.ok missionID) (.ok targetsDTO) s).2.targets
        = s.targets ++ news ∧
      ∀ r ∈ news, r.mission_id = missionID) := by
  have key : ∀ targets : List Target, ∃ news : List TargetRow,
      (MissionUsecase.AddTargets NewMissionPostgres missionID targets s).2.targets
        = s.targets ++ news ∧
      news.map (fun r => r.mission_id)
        = (targets.take news.length).map (fun t => t.MissionID) := by
    intro targets
    rcases AddTargets_cases missionID targets s with h | ⟨s1, row, hs1, _, _, h⟩
    · exact ⟨[], by simpa using ((tables_eq_iff _ _).1 h).2.2.1⟩
    · obtain ⟨news, h1, _, _, h4⟩ := AddTargets_appends targets s1
      refine ⟨news, ?_, ?_⟩
      · rw [h, h1, ((tables_eq_iff _ _).1 hs1).2.2.1]
      · have := congrArg (List.map Prod.fst) h4
        simpa [List.map_map, Function.comp_def] using this
  refine ⟨key, ?_⟩
  intro targetsDTO
  obtain ⟨news, h1, h2⟩ := key (Handler.domainTargets missionID targetsDTO)
  refine ⟨news, ?_, ?_⟩
  · rw [← h1]
    simp only [Handler.addTargets]
    split <;> simp_all
  · intro r hr
    have hmem : r.mission_id ∈ news.map (fun r => r.mission_id) := List.mem_map.2 ⟨r, hr, rfl⟩
    rw [h2] at hmem
    obtain ⟨t, ht, hEq⟩ := List.mem_map.1 hmem
    have ht2 := List.mem_of_mem_take ht
    simp only [Handler.domainTargets, List.mem_map] at ht2
    obtain ⟨d, _, hd⟩ := ht2
    rw [← hEq, ← hd]

/-- C6 fails as stated: on the demo store the use case `AddTargets` for the
open mission 2, given a target that carries `MissionID = 1`, succeeds and
persists the target under mission 1. -/
theorem AddTargets_does_not_stamp :
    (MissionUsecase.AddTargets NewMissionPostgres 2 [⟨0, 1, "safe", "FR", "", false, 0, 0⟩]
        demoDB).1 = .ok () ∧
    ¬ (∀ r ∈ (MissionUsecase.AddTargets NewMissionPostgres 2
          [⟨0, 1, "safe", "FR", "", false, 0, 0⟩] demoDB).2.targets,
        r ∉ demoDB.targets → r.mission_id = 2) :=
  ⟨rfl, by decide⟩

/-! ## Rule UT1: frozen notes -/

/-- C7: after both loads succeed, `UpdateTarget` answers "cannot update notes
because target or mission is completed" without a call of the store's
`UpdateTarget` exactly when the loaded target or the loaded mission is
completed and the request's notes differ from the loaded target's; then the
store is as the loads left it, and in every other case the result is exactly
the store's `UpdateTarget t`. -/
theorem UpdateTarget_rule_UT1 {σ : Type} (repo : Repository σ) (t existingTarget : Target)
    (mission : Mission) (s s1 s2 : σ)
    (hTarget : repo.GetTargetByID t.ID s = (.ok existingTarget, s1))
    (hMission : repo.GetMissionByID t.MissionID s1 = (.ok mission, s2)) :
    (((MissionUsecase.UpdateTarget repo.recording t (s, [])).1
          = .error "cannot update notes because target or mission is completed" ∧
        (MissionUsecase.UpdateTarget repo.recording t (s, [])).2.2.all
          (fun c => !c.isUpdateTarget) = true)
      ↔ ((existingTarget.Completed = true ∨ mission.Completed = true) ∧
          t.Notes ≠ existingTarget.Notes)) ∧
    (((existingTarget.Completed = true ∨ mission.Completed = true) ∧
        t.Notes ≠ existingTarget.Notes) →
      MissionUsecase.UpdateTarget repo t s
        = (.error "cannot update notes because target or mission is completed", s2)) ∧
    (¬ ((existingTarget.Completed = true ∨ mission.Completed = true) ∧
        t.Notes ≠ existingTarget.Notes) →
      MissionUsecase.UpdateTarget repo t s = repo.UpdateTarget t s2) := by
  by_cases hc : (existingTarget.Completed = true ∨ mission.Completed = true) ∧
      t.Notes ≠ existingTarget.Notes
  · have hc2 := hc
    simp only [← Bool.or_eq_true] at hc2
    simp [MissionUsecase.UpdateTarget, Repository.recording, logged, hTarget, hMission, hc, hc2,
      Call.isUpdateTarget]
  · have hc2 := hc
    simp only [← Bool.or_eq_true] at hc2
    simp only [MissionUsecase.UpdateTarget, Repository.recording, logged, hTarget, hMission, hc2]
    simp [Call.isUpdateTarget, hc]

/-- C7 at the demo store: target 1 is open, mission 1 is completed and the
notes differ, so the update is refused. -/
theorem UpdateTarget_rule_UT1_witness :
    NewMissionPostgres.GetTargetByID 1 demoDB
      = (.ok ⟨1, 1, "vault", "CH", "old", false, 0, 0⟩, { demoDB with now := 1 }) ∧
    NewMissionPostgres.GetMissionByID 1 { demoDB with now := 1 }
      = (.ok ⟨1, none, true, 0, 0, [⟨1, 1, "vault", "CH", "old", false, 0, 0⟩]⟩,
          { demoDB with now := 3 }) ∧
    MissionUsecase.UpdateTarget NewMissionPostgres ⟨1, 1, "", "", "new", false, 0, 0⟩ demoDB
      = (.error "cannot update notes because target or mission is completed",
          { demoDB with now := 3 }) :=
  ⟨rfl, rfl,
    (UpdateTarget_rule_UT1 NewMissionPostgres ⟨1, 1, "", "", "new", false, 0, 0⟩ _ _ demoDB _ _
      rfl rfl).2.1 ⟨Or.inr rfl, by decide⟩⟩

/-! ## Notes and the owning mission -/

/-- C8 fails on the code: on the demo store, target 1 belongs to the completed
mission 1. A request that names mission 1 is refused, but the same request
naming the open mission 2 succeeds and rewrites the notes of target 1. -/
theorem UpdateTarget_checks_the_requested_mission :
    demoDB.missions = [⟨1, none, true, 0, 0⟩, ⟨2, none, false, 0, 0⟩] ∧
    demoDB.targets = [⟨1, 1, "vault", "CH", "old", false, 0, 0⟩] ∧
    (MissionUsecase.UpdateTarget NewMissionPostgres ⟨1, 1, "", "", "new", false, 0, 0⟩ demoDB).1
      = .error "cannot update notes because target or mission is completed" ∧
    (MissionUsecase.UpdateTarget NewMissionPostgres ⟨1, 2, "", "", "new", false, 0, 0⟩ demoDB).1
      = .ok () ∧
    (MissionUsecase.UpdateTarget NewMissionPostgres ⟨1, 2, "", "", "new", false, 0, 0⟩
        demoDB).2.targets
      = [⟨1, 1, "vault", "CH", "new", false, 0, 4⟩] :=
  ⟨rfl, rfl, rfl, rfl, rfl⟩

/-! ## Target completion -/

/-- C9 fails as stated: on a store whose target 1 is completed, an
`UpdateTarget` request with the persisted notes and `completed = false`
succeeds and leaves target 1 not completed. -/
theorem UpdateTarget_clears_completed :
    doneDB.targets = [⟨1, 1, "vault", "CH", "old", true, 0, 0⟩] ∧
    (MissionUsecase.UpdateTarget NewMissionPostgres ⟨1, 1, "", "", "old", false, 0, 0⟩ doneDB).1
      = .ok () ∧
    (MissionUsecase.UpdateTarget NewMissionPostgres ⟨1, 1, "", "", "old", false, 0, 0⟩
        doneDB).2.targets
      = [⟨1, 1, "vault", "CH", "old", false, 0, 4⟩] :=
  ⟨rfl, rfl, rfl⟩

/-- C9, as the code has it: a persisted completed target (its id handed out by
the sequence) is still completed after `UpdateTarget` returns, successfully
or not, for every request that carries `completed = true` or notes other than
the persisted ones; and it is still completed after every sequence of use-case
calls in which every `UpdateTarget` request for it carries, on the store it is
run on, `completed = true` or notes other than the persisted ones. -/
theorem target_completion_kept (s : DB) (id : Int) (hseq : id < s.targets_id_seq)
    (hc : ∀ r ∈ s.targets, r.id = id → r.completed = true) :
    (∀ t : Target,
      (t.ID = id → t.Completed = true ∨ ∀ r ∈ s.targets, r.id = id → r.notes ≠ t.Notes) →
      ∀ r ∈ (MissionUsecase.UpdateTarget NewMissionPostgres t s).2.targets,
        r.id = id → r.completed = true) ∧
    (∀ ops : List Op, sparesTargetAlong id ops s →
      ∀ r ∈ (runOps ops s).targets, r.id = id → r.completed = true) :=
  ⟨fun t hreq => (TargetFrozen_UpdateTarget id t s hreq ⟨hseq, hc⟩).2,
    fun ops hops => (TargetFrozen_runOps id ops s hops ⟨hseq, hc⟩).2⟩

/-- C9 at the store with the completed target 1: requests for it with new notes
and `completed = false`, refused, then with the persisted notes and
`completed = true`, accepted, then again with new notes and `completed =
false`, and a delete, leave it completed with its notes. -/
theorem target_completion_kept_witness :
    (1 : Int) < doneDB.targets_id_seq ∧
    (∀ r ∈ doneDB.targets, r.id = 1 → r.completed = true) ∧
    (runOps [Op.UpdateTarget ⟨1, 1, "", "", "new", false, 0, 0⟩,
        Op.UpdateTarget ⟨1, 1, "", "", "old", true, 0, 0⟩,
        Op.UpdateTarget ⟨1, 1, "", "", "newer", false, 0, 0⟩, Op.DeleteTarget 1] doneDB).targets
      = [⟨1, 1, "vault", "CH", "old", true, 0, 7⟩] ∧
    ∀ r ∈ (runOps [Op.UpdateTarget ⟨1, 1, "", "", "new", false, 0, 0⟩,
        Op.UpdateTarget ⟨1, 1, "", "", "old", true, 0, 0⟩,
        Op.UpdateTarget ⟨1, 1, "", "", "newer", false, 0, 0⟩, Op.DeleteTarget 1] doneDB).targets,
      r.id = 1 → r.completed = true :=
  ⟨by decide, by decide, rfl,
    (target_completion_kept doneDB 1 (by decide) (by decide)).2 _ (by decide)⟩

/-! ## Mission completion -/

/-- C10: over any sequence of use-case calls on the PostgreSQL adapter, a
mission whose id the sequence has handed out and whose persisted `completed` is
true has `completed = true` in every later state in which a row with its id
exists. -/
theorem mission_completion_monotonic (s : DB) (ops : List Op) (id : Int)
    (hseq : id < s.missions_id_seq)
    (hc : ∀ r ∈ s.missions, r.id = id → r.completed = true) :
    ∀ r ∈ (runOps ops s).missions, r.id = id → r.completed = true :=
  (MissionFrozen_runOps id ops s ⟨hseq, hc⟩).2

/-- C10 at the demo store: mission 1 stays completed through an update, an
assignment, a creation and a delete attempt. -/
theorem mission_completion_monotonic_witness :
    (1 : Int) < demoDB.missions_id_seq ∧
    (∀ r ∈ demoDB.missions, r.id = 1 → r.completed = true) ∧
    ∀ r ∈ (runOps [Op.UpdateMission ⟨1, some 7, false, 0, 0, []⟩, Op.AssignCatToMission 1 42,
        Op.CreateMission ⟨0, none, false, 0, 0, []⟩, Op.DeleteMission 1] demoDB).missions,
      r.id = 1 → r.completed = true :=
  ⟨by decide, by decide,
    mission_completion_monotonic demoDB _ 1 (by decide) (by decide)⟩

/-! ## Deleting targets -/

/-- C11: when the loaded target is completed, `DeleteTarget` returns "cannot
delete a completed target", leaves the store as the load left it and the load
is its only repository call; when it is open the result is exactly the store's
`DeleteTarget id`, called right after the load. Over the PostgreSQL adapter,
`DeleteTarget` of a target persisted as completed changes no table. -/
theorem DeleteTarget_rule {σ : Type} (repo : Repository σ) (id : Int) (t : Target) (s s1 : σ)
    (hload : repo.GetTargetByID id s = (.ok t, s1)) :
    (t.Completed = true →
      MissionUsecase.DeleteTarget repo id s = (.error "cannot delete a completed target", s1) ∧
      (MissionUsecase.DeleteTarget repo.recording id (s, [])).2.2 = [Call.GetTargetByID id]) ∧
    (t.Completed = false →
      MissionUsecase.DeleteTarget repo id s = repo.DeleteTarget id s1 ∧
      (MissionUsecase.DeleteTarget repo.recording id (s, [])).2.2
        = [Call.GetTargetByID id, Call.DeleteTarget id]) ∧
    (∀ db : DB, (∀ r ∈ db.targets, r.id = id → r.completed = true) →
      (MissionUsecase.DeleteTarget NewMissionPostgres id db).2.tables = db.tables) := by
  refine ⟨?_, ?_, ?_⟩
  · intro hc
    simp [MissionUsecase.DeleteTarget, Repository.recording, logged, hload, hc]
  · intro hc
    simp [MissionUsecase.DeleteTarget, Repository.recording, logged, hload, hc]
  · intro db hdone
    rcases DeleteTarget_cases id db with h | ⟨s1, row, _, hfind, hopen, _⟩
    · exact h
    · obtain ⟨hmem, hrid⟩ := find_target_some hfind
      rw [hdone row hmem hrid] at hopen
      exact absurd hopen (by simp)

/-- C11 at the store with the completed target 1: the delete is refused and the
store is what the load left. -/
theorem DeleteTarget_rule_witness :
    NewMissionPostgres.GetTargetByID 1 doneDB
      = (.ok ⟨1, 1, "vault", "CH", "old", true, 0, 0⟩, { doneDB with now := 1 }) ∧
    MissionUsecase.DeleteTarget NewMissionPostgres 1 doneDB
      = (.error "cannot delete a completed target", { doneDB with now := 1 }) :=
  ⟨rfl, ((DeleteTarget_rule NewMissionPostgres 1 _ doneDB _ rfl).1 rfl).1⟩

/-! ## The assignment of a mission under the use cases -/

theorem CatFixed_of_tables {id c : Int} {s s1 : DB} (h : s1.tables = s.tables)
    (hI : CatFixed id c s) : CatFixed id c s1 := by
  have ht := (tables_eq_iff _ _).1 h
  unfold CatFixed at *
  rw [ht.2.1, ht.2.2.2.1]
  exact hI

theorem CatFixed_of_missions {id c : Int} {s s1 : DB} (h : s1.missions = s.missions)
    (hseq : s1.missions_id_seq = s.missions_id_seq)
    (hI : CatFixed id c s) : CatFixed id c s1 := by
  unfold CatFixed at *
  rw [h, hseq]
  exact hI

theorem CatFixed_insertMission (id c : Int) (c1 : Option Int) (b : Bool) (s : DB)
    (hI : CatFixed id c s) : CatFixed id c (insertMission c1 b s).2 := by
  obtain ⟨_, _, _, _, hseq, hm⟩ := insertMission_effect c1 b s
  obtain ⟨h1, h2⟩ := hI
  refine ⟨lt_of_lt_of_le h1 hseq, ?_⟩
  rcases hm with hm | ⟨_, now, hm⟩
  · rw [hm]; exact h2
  · rw [hm]
    intro r hr hid
    rcases List.mem_append.1 hr with hr | hr
    · exact h2 r hr hid
    · simp at hr
      subst hr
      simp at hid
      omega

/-- An `UPDATE` that writes `cat_id = c` on the rows of mission `id`, or does
not touch them, keeps the assignment. -/
theorem CatFixed_updateMission (id c : Int) (c1 : Option Int) (b : Bool) (mid : Int) (s : DB)
    (hb : mid = id → c1 = some c)
    (hI : CatFixed id c s) : CatFixed id c (updateMission c1 b mid s).2 := by
  obtain ⟨_, _, _, _, hseq, hm⟩ := updateMission_effect c1 b mid s
  obtain ⟨h1, h2⟩ := hI
  refine ⟨by rw [hseq]; exact h1, ?_⟩
  rcases hm with hm | ⟨now, hm⟩
  · rw [hm]; exact h2
  · rw [hm]
    intro r hr hid
    obtain ⟨r0, hr0, hEq⟩ := List.mem_map.1 hr
    by_cases hc : r0.id = mid
    · rw [if_pos hc] at hEq
      subst hEq
      simp at hid
      simp
      exact hb (hc ▸ hid)
    · rw [if_neg hc] at hEq
      subst hEq
      exact h2 r0 hr0 hid

theorem CatFixed_deleteMission (id c mid : Int) (s : DB)
    (hI : CatFixed id c s) : CatFixed id c (deleteMission mid s).2 := by
  obtain ⟨_, _, _, hseq, hm, _⟩ := deleteMission_effect mid s
  obtain ⟨h1, h2⟩ := hI
  refine ⟨by rw [hseq]; exact h1, ?_⟩
  rcases hm with hm | hm
  · rw [hm]; exact h2
  · rw [hm]
    intro r hr hid
    exact h2 r (List.mem_filter.1 hr).1 hid

/-- Every use-case call other than an `UpdateMission` request carrying another
`cat_id` keeps the assignment of mission `id` to the cat `c`. -/
theorem CatFixed_run (id c : Int) (hc0 : c ≠ 0) (op : Op) (s : DB) (hop : op.keepsCat id c)
    (hI : CatFixed id c s) : CatFixed id c (op.run s) := by
  cases op with
  | CreateMission m =>
    simp only [Op.run, MissionUsecase.CreateMission, NewMissionPostgres]
    rw [CreateMission_state]
    exact CatFixed_insertMission id c _ _ s hI
  | GetMissionByID mid => exact CatFixed_of_tables (GetMissionByID_tables mid s) hI
  | ListMissions => exact CatFixed_of_tables (ListMissions_tables s) hI
  | UpdateMission m =>
    rcases UpdateMission_cases m s with h | ⟨s1, row, hs1, _, _, h⟩
    · exact CatFixed_of_tables h hI
    · simp only [Op.run]
      rw [h]
      exact CatFixed_updateMission id c _ _ _ s1 hop (CatFixed_of_tables hs1 hI)
  | DeleteMission mid =>
    rcases DeleteMission_cases mid s with h | ⟨s1, row, hs1, _, _, h⟩
    · exact CatFixed_of_tables h hI
    · simp only [Op.run]
      rw [h]
      exact CatFixed_deleteMission id c mid s1 (CatFixed_of_tables hs1 hI)
  | AddTargets mid targets =>
    rcases AddTargets_cases mid targets s with h | ⟨s1, row, hs1, _, _, h⟩
    · exact CatFixed_of_tables h hI
    · simp only [Op.run]
      rw [h]
      obtain ⟨_, hm, hseq, _⟩ := AddTargets_others targets s1
      exact CatFixed_of_missions hm hseq (CatFixed_of_tables hs1 hI)
  | UpdateTarget t =>
    rcases UpdateTarget_cases t s with h | ⟨s1, row, mrow, hs1, _, _, _, h⟩
    · exact CatFixed_of_tables h hI
    · simp only [Op.run]
      rw [h]
      obtain ⟨_, hm, hseq, _⟩ := updateTarget_effect t.Notes t.Completed t.ID s1
      exact CatFixed_of_missions hm hseq (CatFixed_of_tables hs1 hI)
  | DeleteTarget tid =>
    rcases DeleteTarget_cases tid s with h | ⟨s1, row, hs1, _, _, h⟩
    · exact CatFixed_of_tables h hI
    · simp only [Op.run]
      rw [h]
      obtain ⟨_, hm, hseq, _⟩ := deleteTarget_effect tid s1
      exact CatFixed_of_missions hm hseq (CatFixed_of_tables hs1 hI)
  | AssignCatToMission mid catID =>
    rcases AssignCatToMission_cases mid catID s with h | ⟨s1, row, hs1, hfind, hno, h⟩
    · exact CatFixed_of_tables h hI
    · simp only [Op.run]
      rw [h]
      apply CatFixed_updateMission _ _ _ _ _ _ _ (CatFixed_of_tables hs1 hI)
      intro hid
      exfalso
      obtain ⟨hmem, hrid⟩ := find_mission_some hfind
      have hrow := hI.2 row hmem (hrid.trans hid)
      rcases hno with h0 | h0
      · rw [hrow] at h0
        exact absurd h0 (by simp)
      · rw [hrow] at h0
        exact hc0 (Option.some.inj h0)

theorem CatFixed_runOps (id c : Int) (hc0 : c ≠ 0) (ops : List Op) (s : DB)
    (hops : ∀ op ∈ ops, op.keepsCat id c) (hI : CatFixed id c s) :
    CatFixed id c (runOps ops s) := by
  induction ops generalizing s with
  | nil => exact hI
  | cons op ops ih =>
    exact ih (op.run s) (fun o ho => hops o (List.mem_cons_of_mem _ ho))
      (CatFixed_run id c hc0 op s (hops op (List.mem_cons_self _ _)) hI)

/-- C12 fails as stated: on the store whose open mission 1 is assigned to cat 7,
an `UpdateMission` request without a `cat_id` succeeds and leaves the mission
unassigned, and one with `cat_id = 42` succeeds and leaves it with cat 42. -/
theorem UpdateMission_unassigns :
    assignedDB.missions = [⟨1, some 7, false, 0, 0⟩] ∧
    (MissionUsecase.UpdateMission NewMissionPostgres ⟨1, none, false, 0, 0, []⟩ assignedDB).1
      = .ok () ∧
    (MissionUsecase.UpdateMission NewMissionPostgres ⟨1, none, false, 0, 0, []⟩
        assignedDB).2.missions = [⟨1, none, false, 0, 3⟩] ∧
    (MissionUsecase.UpdateMission NewMissionPostgres ⟨1, some 42, false, 0, 0, []⟩ assignedDB).1
      = .ok () ∧
    (MissionUsecase.UpdateMission NewMissionPostgres ⟨1, some 42, false, 0, 0, []⟩
        assignedDB).2.missions = [⟨1, some 42, false, 0, 3⟩] :=
  ⟨rfl, rfl, rfl, rfl, rfl⟩

/-- C12, as the code has it: a mission assigned to the cat `c` (`c` not 0, the
id handed out by the sequence) is still assigned to `c`, in every row that has
its id, after every sequence of use-case calls whose `UpdateMission` requests
for it carry `cat_id = c`; `AssignCatToMission`, `AddTargets`, `UpdateTarget`
and `DeleteTarget` are never restricted. -/
theorem mission_assignment_kept (s : DB) (id c : Int) (hc0 : c ≠ 0)
    (hseq : id < s.missions_id_seq)
    (hcat : ∀ r ∈ s.missions, r.id = id → r.cat_id = some c) (ops : List Op)
    (hops : ∀ op ∈ ops, op.keepsCat id c) :
    ∀ r ∈ (runOps ops s).missions, r.id = id → r.cat_id = some c :=
  (CatFixed_runOps id c hc0 ops s hops ⟨hseq, hcat⟩).2

/-- C12 at the store whose mission 1 is assigned to cat 7: a second assignment,
added targets, a target update, a target delete and an update that carries
cat 7 leave it with cat 7. -/
theorem mission_assignment_kept_witness :
    (7 : Int) ≠ 0 ∧ (1 : Int) < assignedDB.missions_id_seq ∧
    (∀ r ∈ assignedDB.missions, r.id = 1 → r.cat_id = some 7) ∧
    (runOps [Op.AssignCatToMission 1 42, Op.AddTargets 1 [⟨0, 1, "safe", "FR", "", false, 0, 0⟩],
        Op.UpdateTarget ⟨1, 1, "", "", "new", true, 0, 0⟩, Op.DeleteTarget 2,
        Op.UpdateMission ⟨1, some 7, true, 0, 0, []⟩] assignedDB).missions
      = [⟨1, some 7, true, 0, 15⟩] ∧
    ∀ r ∈ (runOps [Op.AssignCatToMission 1 42,
        Op.AddTargets 1 [⟨0, 1, "safe", "FR", "", false, 0, 0⟩],
        Op.UpdateTarget ⟨1, 1, "", "", "new", true, 0, 0⟩, Op.DeleteTarget 2,
        Op.UpdateMission ⟨1, some 7, true, 0, 0, []⟩] assignedDB).missions,
      r.id = 1 → r.cat_id = some 7 :=
  ⟨by decide, by decide, by decide, rfl,
    mission_assignment_kept assignedDB 1 7 (by decide) (by decide) (by decide) _ (by decide)⟩

/-! ## Deleting missions -/

theorem selectMissionCatID_ok {id : Int} {s s1 : DB} {c : Option Int}
    (h : selectMissionCatID id s = (.ok c, s1)) :
    ∃ row, s.missions.find? (fun r => r.id = id) = some row ∧ c = row.cat_id := by
  unfold selectMissionCatID at h
  split at h
  · simp at h
  · rename_i s2 hrt
    have ht := (tables_eq_iff _ _).1 (roundTrip_tables_of_eq hrt)
    split at h
    · simp at h
    · rename_i r hf
      simp at h
      rw [ht.2.1] at hf
      exact ⟨r, hf, h.1.symm⟩

/-- The store's `DeleteMission` never succeeds on a mission whose `cat_id` is
NULL, and changes no table then. -/
theorem store_DeleteMission_null_cat (id : Int) (s : DB)
    (hnull : ∀ r ∈ s.missions, r.id = id → r.cat_id = none) :
    (MissionPostgres.DeleteMission id s).1 ≠ .ok () ∧
    (MissionPostgres.DeleteMission id s).2.tables = s.tables := by
  have ht := selectMissionCatID_tables id s
  unfold MissionPostgres.DeleteMission
  split
  · rename_i err s1 h
    rw [h] at ht
    exact ⟨by simp, ht⟩
  · rename_i s1 h
    rw [h] at ht
    exact ⟨by simp, ht⟩
  · rename_i catID s1 h
    exfalso
    obtain ⟨row, hfind, hc⟩ := selectMissionCatID_ok h
    obtain ⟨hmem, hrid⟩ := find_mission_some hfind
    rw [hnull row hmem hrid] at hc
    exact absurd hc (by simp)

/-- Over the PostgreSQL adapter the use case `DeleteMission` never succeeds on
a mission whose `cat_id` is NULL, and changes no table then. -/
theorem DeleteMission_null_cat (id : Int) (s : DB)
    (hnull : ∀ r ∈ s.missions, r.id = id → r.cat_id = none) :
    (MissionUsecase.DeleteMission NewMissionPostgres id s).1 ≠ .ok () ∧
    (MissionUsecase.DeleteMission NewMissionPostgres id s).2.tables = s.tables := by
  have ht := GetMissionByID_tables id s
  simp only [MissionUsecase.DeleteMission, NewMissionPostgres]
  split
  · rename_i err s1 h
    rw [h] at ht
    exact ⟨by simp, ht⟩
  · rename_i m s1 h
    rw [h] at ht
    split_ifs with hc
    · exact ⟨by simp, ht⟩
    · have hnull1 : ∀ r ∈ s1.missions, r.id = id → r.cat_id = none := by
        rw [((tables_eq_iff _ _).1 ht).2.1]
        exact hnull
      obtain ⟨h1, h2⟩ := store_DeleteMission_null_cat id s1 hnull1
      exact ⟨h1, h2.trans ht⟩

/-- Over the PostgreSQL adapter the use case `DeleteMission` never succeeds on
a mission that has a cat (`cat_id` neither NULL nor 0), and changes no table
then. -/
theorem DeleteMission_assigned (id : Int) (s : DB)
    (hcat : ∀ r ∈ s.missions, r.id = id → r.cat_id ≠ none ∧ r.cat_id ≠ some 0) :
    (MissionUsecase.DeleteMission NewMissionPostgres id s).1 ≠ .ok () ∧
    (MissionUsecase.DeleteMission NewMissionPostgres id s).2.tables = s.tables := by
  have ht := GetMissionByID_tables id s
  simp only [MissionUsecase.DeleteMission, NewMissionPostgres]
  split
  · rename_i err s1 h
    rw [h] at ht
    exact ⟨by simp, ht⟩
  · rename_i m s1 h
    rw [h] at ht
    obtain ⟨row, hfind, _, hc, _⟩ := GetMissionByID_ok h
    obtain ⟨hmem, hrid⟩ := find_mission_some hfind
    have := hcat row hmem hrid
    rw [← hc] at this
    rw [if_pos this]
    exact ⟨by simp, ht⟩

theorem catOk_of_cats {a b : DB} (h : a.cats = b.cats) (c : Option Int) :
    a.catOk c = b.catOk c := by
  unfold DB.catOk
  rw [h]

/-- A store with the same cats whose mission rows are old ones or carry a
`cat_id` that passed the foreign key keeps the foreign key. -/
theorem NoCatZero_of_rows {s s1 : DB} (hc : s1.cats = s.cats)
    (hm : ∀ r ∈ s1.missions, r ∈ s.missions ∨ s.catOk r.cat_id = true)
    (hI : NoCatZero s) : NoCatZero s1 := by
  refine ⟨by rw [hc]; exact hI.1, ?_⟩
  intro r hr
  rw [catOk_of_cats hc]
  rcases hm r hr with h | h
  · exact hI.2 r h
  · exact h

theorem NoCatZero_of_tables {s s1 : DB} (h : s1.tables = s.tables) (hI : NoCatZero s) :
    NoCatZero s1 := by
  have ht := (tables_eq_iff _ _).1 h
  exact NoCatZero_of_rows ht.1 (fun _ hr => Or.inl (ht.2.1 ▸ hr)) hI

theorem NoCatZero_of_missions {s s1 : DB} (hc : s1.cats = s.cats)
    (hm : s1.missions = s.missions) (hI : NoCatZero s) : NoCatZero s1 :=
  NoCatZero_of_rows hc (fun _ hr => Or.inl (hm ▸ hr)) hI

/-- The rows the mission `INSERT` leaves are old ones or passed the foreign
key. -/
theorem insertMission_rows (c : Option Int) (b : Bool) (s : DB) :
    ∀ r ∈ (insertMission c b s).2.missions, r ∈ s.missions ∨ s.catOk r.cat_id = true := by
  unfold insertMission
  rcases hrt : s.roundTrip with ⟨f, s1⟩
  have ht := (tables_eq_iff _ _).1 (roundTrip_tables_of_eq hrt)
  obtain ⟨h1, h2, _⟩ := ht
  have hk : ∀ x, DB.catOk { s1 with missions_id_seq := s1.missions_id_seq + 1 } x = s.catOk x :=
    fun x => catOk_of_cats h1 x
  cases f
  · simp only []
    split_ifs with hpk hfk
    · intro r hr
      exact Or.inl (h2 ▸ hr)
    · intro r hr
      simp only [List.mem_append, List.mem_singleton] at hr
      rcases hr with hr | hr
      · exact Or.inl (h2 ▸ hr)
      · right
        rw [hr, ← hk]
        exact hfk
    · intro r hr
      exact Or.inl (h2 ▸ hr)
  · intro r hr
    exact Or.inl (h2 ▸ hr)

/-- The rows the mission `UPDATE` leaves are old ones or passed the foreign
key. -/
theorem updateMission_rows (c : Option Int) (b : Bool) (id : Int) (s : DB) :
    ∀ r ∈ (updateMission c b id s).2.missions, r ∈ s.missions ∨ s.catOk r.cat_id = true := by
  unfold updateMission
  rcases hrt : s.roundTrip with ⟨f, s1⟩
  have ht := (tables_eq_iff _ _).1 (roundTrip_tables_of_eq hrt)
  obtain ⟨h1, h2, _⟩ := ht
  cases f
  · simp only []
    split_ifs with hn hfk
    · intro r hr
      exact Or.inl (h2 ▸ hr)
    · intro r hr
      simp only [List.mem_map] at hr
      obtain ⟨r0, hr0, hEq⟩ := hr
      by_cases hid : r0.id = id
      · right
        rw [if_pos hid] at hEq
        rw [← hEq, ← catOk_of_cats h1]
        exact hfk
      · left
        rw [if_neg hid] at hEq
        rw [← hEq]
        exact h2 ▸ hr0
    · intro r hr
      exact Or.inl (h2 ▸ hr)
  · intro r hr
    exact Or.inl (h2 ▸ hr)

/-- Every use-case call keeps the foreign key of `missions.cat_id` and the cats
as they are. -/
theorem NoCatZero_run (op : Op) (s : DB) (hI : NoCatZero s) : NoCatZero (op.run s) := by
  cases op with
  | CreateMission m =>
    simp only [Op.run, MissionUsecase.CreateMission, NewMissionPostgres]
    rw [CreateMission_state]
    exact NoCatZero_of_rows (insertMission_effect m.CatID m.Completed s).1
      (insertMission_rows m.CatID m.Completed s) hI
  | GetMissionByID mid => exact NoCatZero_of_tables (GetMissionByID_tables mid s) hI
  | ListMissions => exact NoCatZero_of_tables (ListMissions_tables s) hI
  | UpdateMission m =>
    rcases UpdateMission_cases m s with h | ⟨s1, _, hs1, _, _, h⟩
    · exact NoCatZero_of_tables h hI
    · simp only [Op.run]
      rw [h]
      exact NoCatZero_of_rows (updateMission_effect m.CatID m.Completed m.ID s1).1
        (updateMission_rows m.CatID m.Completed m.ID s1) (NoCatZero_of_tables hs1 hI)
  | DeleteMission mid =>
    rcases DeleteMission_cases mid s with h | ⟨s1, _, hs1, _, _, h⟩
    · exact NoCatZero_of_tables h hI
    · simp only [Op.run]
      rw [h]
      obtain ⟨hc, _, _, _, hm, _⟩ := deleteMission_effect mid s1
      refine NoCatZero_of_rows hc ?_ (NoCatZero_of_tables hs1 hI)
      intro r hr
      rcases hm with hm | hm
      · exact Or.inl (hm ▸ hr)
      · rw [hm] at hr
        exact Or.inl (List.mem_filter.1 hr).1
  | AddTargets mid targets =>
    rcases AddTargets_cases mid targets s with h | ⟨s1, _, hs1, _, _, h⟩
    · exact NoCatZero_of_tables h hI
    · simp only [Op.run]
      rw [h]
      obtain ⟨hc, hm, _, _⟩ := AddTargets_others targets s1
      exact NoCatZero_of_missions hc hm (NoCatZero_of_tables hs1 hI)
  | UpdateTarget t =>
    rcases UpdateTarget_cases t s with h | ⟨s1, _, _, hs1, _, _, _, h⟩
    · exact NoCatZero_of_tables h hI
    · simp only [Op.run]
      rw [h]
      obtain ⟨hc, hm, _⟩ := updateTarget_effect t.Notes t.Completed t.ID s1
      exact NoCatZero_of_missions hc hm (NoCatZero_of_tables hs1 hI)
  | DeleteTarget tid =>
    rcases DeleteTarget_cases tid s with h | ⟨s1, _, hs1, _, _, h⟩
    · exact NoCatZero_of_tables h hI
    · simp only [Op.run]
      rw [h]
      obtain ⟨hc, hm, _⟩ := deleteTarget_effect tid s1
      exact NoCatZero_of_missions hc hm (NoCatZero_of_tables hs1 hI)
  | AssignCatToMission mid catID =>
    rcases AssignCatToMission_cases mid catID s with h | ⟨s1, row, hs1, _, _, h⟩
    · exact NoCatZero_of_tables h hI
    · simp only [Op.run]
      rw [h]
      exact NoCatZero_of_rows (updateMission_effect (some catID) row.completed mid s1).1
        (updateMission_rows (some catID) row.completed mid s1) (NoCatZero_of_tables hs1 hI)

/-- Under the foreign key and without a cat 0, no mission has `cat_id = 0`. -/
theorem NoCatZero_cat_id {s : DB} (hI : NoCatZero s) : ∀ r ∈ s.missions, r.cat_id ≠ some 0 := by
  intro r hr h0
  have := hI.2 r hr
  rw [h0] at this
  simp only [DB.catOk] at this
  rw [hI.1] at this
  exact absurd this (by simp)

/-- In every store reached by use-case calls from a fresh database whose cats
all have another id than 0, as ids from a sequence have, no mission has
`cat_id = 0`. -/
theorem no_zero_cat_id_reachable (cats : List Int) (cascade : Bool) (faults : List Bool)
    (hcats : cats.contains 0 = false) (ops : List Op) :
    ∀ r ∈ (runOps ops (freshDB cats cascade faults)).missions, r.cat_id ≠ some 0 := by
  apply NoCatZero_cat_id
  have base : NoCatZero (freshDB cats cascade faults) :=
    ⟨hcats, fun r hr => by simp [freshDB] at hr⟩
  generalize freshDB cats cascade faults = s at base
  induction ops generalizing s with
  | nil => exact base
  | cons op ops ih => exact ih (op.run s) (NoCatZero_run op s base)

/-- The store's `DeleteMission` never succeeds when the row it reads has a NULL
`cat_id`, and changes no table then. -/
theorem store_DeleteMission_first_null (id : Int) (s : DB) (row : MissionRow)
    (hfind : s.missions.find? (fun r => r.id = id) = some row) (hnull : row.cat_id = none) :
    (MissionPostgres.DeleteMission id s).1 ≠ .ok () ∧
    (MissionPostgres.DeleteMission id s).2.tables = s.tables := by
  have ht := selectMissionCatID_tables id s
  unfold MissionPostgres.DeleteMission
  split
  · rename_i err s1 h
    rw [h] at ht
    exact ⟨by simp, ht⟩
  · rename_i s1 h
    rw [h] at ht
    exact ⟨by simp, ht⟩
  · rename_i catID s1 h
    exfalso
    obtain ⟨row2, hfind2, hc⟩ := selectMissionCatID_ok h
    rw [hfind] at hfind2
    rw [← Option.some.inj hfind2, hnull] at hc
    exact absurd hc (by simp)

/-- C13: over the PostgreSQL adapter, for a mission persisted as completed whose
`cat_id` is not 0 (no reachable store has a `cat_id` 0, see
`no_zero_cat_id_reachable`), assigned or not, the use case `DeleteMission`
fails and no table changes, so every row of the mission is still there and
still completed. An assigned mission is refused by rule D1; for a mission
without a cat the use case calls the store, which fails on reading the NULL
`cat_id`. -/
theorem DeleteMission_of_completed_fails (s : DB) (id : Int)
    (hdone : ∀ r ∈ s.missions, r.id = id → r.completed = true)
    (hno0 : ∀ r ∈ s.missions, r.id = id → r.cat_id ≠ some 0) :
    (MissionUsecase.DeleteMission NewMissionPostgres id s).1 ≠ .ok () ∧
    (MissionUsecase.DeleteMission NewMissionPostgres id s).2.tables = s.tables ∧
    (MissionUsecase.DeleteMission NewMissionPostgres id s).2.missions = s.missions ∧
    ∀ r ∈ (MissionUsecase.DeleteMission NewMissionPostgres id s).2.missions,
      r.id = id → r.completed = true := by
  have key : (MissionUsecase.DeleteMission NewMissionPostgres id s).1 ≠ .ok () ∧
      (MissionUsecase.DeleteMission NewMissionPostgres id s).2.tables = s.tables := by
    have ht := GetMissionByID_tables id s
    simp only [MissionUsecase.DeleteMission, NewMissionPostgres]
    split
    · rename_i err s1 h
      rw [h] at ht
      exact ⟨by simp, ht⟩
    · rename_i m s1 h
      rw [h] at ht
      obtain ⟨row, hfind, _, hcat, _⟩ := GetMissionByID_ok h
      obtain ⟨hmem, hrid⟩ := find_mission_some hfind
      split_ifs with hc
      · exact ⟨by simp, ht⟩
      · have hnull : row.cat_id = none := by
          rw [← hcat]
          by_contra hn
          exact hc ⟨hn, fun h0 => hno0 row hmem hrid (hcat ▸ h0)⟩
        have hfind1 : s1.missions.find? (fun r => r.id = id) = some row := by
          rw [((tables_eq_iff _ _).1 ht).2.1]
          exact hfind
        obtain ⟨h1, h2⟩ := store_DeleteMission_first_null id s1 row hfind1 hnull
        exact ⟨h1, h2.trans ht⟩
  have hm := ((tables_eq_iff _ _).1 key.2).2.1
  refine ⟨key.1, key.2, hm, ?_⟩
  rw [hm]
  exact hdone

/-- C13 at the demo store: mission 1 is completed and has no cat, its delete
fails in the store and it stays; on the store whose mission 1 is assigned, once
that mission is completed its delete is refused by rule D1. -/
theorem DeleteMission_of_completed_fails_witness :
    (∀ r ∈ demoDB.missions, r.id = 1 → r.completed = true) ∧
    (∀ r ∈ demoDB.missions, r.id = 1 → r.cat_id ≠ some 0) ∧
    (MissionUsecase.DeleteMission NewMissionPostgres 1 demoDB).1
      = .error "cannot scan NULL into *int64" ∧
    (MissionUsecase.DeleteMission NewMissionPostgres 1
        (runOps [Op.UpdateMission ⟨1, some 7, true, 0, 0, []⟩] assignedDB)).1
      = .error "mission cannot be deleted because it is assigned to a cat" ∧
    (MissionUsecase.DeleteMission NewMissionPostgres 1 demoDB).1 ≠ .ok () ∧
    (MissionUsecase.DeleteMission NewMissionPostgres 1 demoDB).2.missions = demoDB.missions :=
  ⟨by decide, by decide, rfl, rfl,
    (DeleteMission_of_completed_fails demoDB 1 (by decide) (by decide)).1,
    (DeleteMission_of_completed_fails demoDB 1 (by decide) (by decide)).2.2.1⟩

/-- C14 fails on the code: on the demo store the open mission 2 has no cat and
no targets, the use case lets the delete through, and the store's
`DeleteMission` fails on reading the NULL `cat_id` into an `int64`; the mission
row is still there. The completed mission 1, without a cat as well, fares the
same. -/
theorem DeleteMission_of_unassigned_fails :
    demoDB.missions = [⟨1, none, true, 0, 0⟩, ⟨2, none, false, 0, 0⟩] ∧
    (MissionUsecase.DeleteMission NewMissionPostgres.recording 2 (demoDB, [])).2.2
      = [Call.GetMissionByID 2, Call.DeleteMission 2] ∧
    (MissionUsecase.DeleteMission NewMissionPostgres 2 demoDB).1
      = .error "cannot scan NULL into *int64" ∧
    (MissionUsecase.DeleteMission NewMissionPostgres 2 demoDB).2.missions = demoDB.missions ∧
    (MissionUsecase.DeleteMission NewMissionPostgres 1 demoDB).1
      = .error "cannot scan NULL into *int64" ∧
    (MissionUsecase.DeleteMission NewMissionPostgres 1 demoDB).2.missions = demoDB.missions :=
  ⟨rfl, rfl, rfl, rfl, rfl, rfl⟩

/-! ## What `UpdateTarget` can change -/

/-- A map that fixes the rows a filter keeps, and keeps the filter's verdict on
every row, does not show through the filter. -/
theorem filter_map_of_fixed {α : Type} (p : α → Bool) (f : α → α) (l : List α)
    (hp : ∀ a, p (f a) = p a) (hf : ∀ a, p a = true → f a = a) :
    (l.map f).filter p = l.filter p := by
  induction l with
  | nil => rfl
  | cons a l ih =>
    simp only [List.map_cons, List.filter_cons, hp a, ih]
    by_cases h : p a = true
    · simp [h, hf a h]
    · simp [h]

/-- C15: whatever the request carries and whether it succeeds or fails,
`UpdateTarget` over the PostgreSQL adapter leaves the `id`, `mission_id`,
`name`, `country` and `created_at` of every target row as they were, row by
row, leaves every row with another id than the request's untouched, and leaves
`missions` alone; only `notes`, `completed` and `updated_at` of the addressed
target can differ. -/
theorem UpdateTarget_frame (s : DB) (t : Target) :
    (MissionUsecase.UpdateTarget NewMissionPostgres t s).2.targets.map
        (fun r => (r.id, r.mission_id, r.name, r.country, r.created_at))
      = s.targets.map (fun r => (r.id, r.mission_id, r.name, r.country, r.created_at)) ∧
    (MissionUsecase.UpdateTarget NewMissionPostgres t s).2.targets.filter (fun r => r.id ≠ t.ID)
      = s.targets.filter (fun r => r.id ≠ t.ID) ∧
    (MissionUsecase.UpdateTarget NewMissionPostgres t s).2.missions = s.missions := by
  rcases UpdateTarget_cases t s with h | ⟨s1, _, _, hs1, _, _, _, h⟩
  · have ht := (tables_eq_iff _ _).1 h
    rw [ht.2.1, ht.2.2.1]
    exact ⟨rfl, rfl, rfl⟩
  · have ht := (tables_eq_iff _ _).1 hs1
    obtain ⟨_, hm, _, _, _, he⟩ := updateTarget_effect t.Notes t.Completed t.ID s1
    rw [h, hm, ht.2.1]
    refine ⟨?_, ?_, rfl⟩
    · rcases he with ⟨_, he⟩ | ⟨_, now, he⟩
      · rw [he, ht.2.2.1]
      · rw [he, ht.2.2.1, List.map_map]
        apply List.map_congr_left
        intro r _
        simp only [Function.comp]
        split_ifs <;> rfl
    · rcases he with ⟨_, he⟩ | ⟨_, now, he⟩
      · rw [he, ht.2.2.1]
      · rw [he, ht.2.2.1]
        apply filter_map_of_fixed
        · intro r
          split_ifs <;> rfl
        · intro r hr
          have : r.id ≠ t.ID := by simpa using hr
          rw [if_neg this]

/-! ## Creating a cat -/

/-- C16: `Create` with an empty name returns "cat name cannot be empty" and
calls neither the validator nor the store; with a name, a validator error `err`
gives "error validating breed: " followed by `err`, a validator answer `false`
gives "invalid breed", both after the one validator call and without a call of
the store, and a validator answer `true` gives exactly the store's `Store c`,
called right after the validator. So the store's `Store` is called exactly when
the name is not empty and the validator answers `true`; and over the PostgreSQL
adapter, with a validator that leaves the cats table alone, the three failures
leave the cats table as it was. -/
theorem Create_rule {σ : Type} (repo : CatDomain.Repository σ)
    (bv : CatDomain.BreedValidator σ) (c : CatDomain.Cat) (s : σ) :
    (c.Name = "" →
      CatUsecase.Create repo bv c s = (.error "cat name cannot be empty", s) ∧
      (CatUsecase.Create repo.recording bv.recording c (s, [])).2.2 = []) ∧
    (c.Name ≠ "" → ∀ err s1, bv.ValidateBreed c.Breed s = (.error err, s1) →
      CatUsecase.Create repo bv c s = (.error ("error validating breed: " ++ err), s1) ∧
      (CatUsecase.Create repo.recording bv.recording c (s, [])).2.2
        = [CatDomain.CatCall.ValidateBreed c.Breed]) ∧
    (c.Name ≠ "" → ∀ s1, bv.ValidateBreed c.Breed s = (.ok false, s1) →
      CatUsecase.Create repo bv c s = (.error "invalid breed", s1) ∧
      (CatUsecase.Create repo.recording bv.recording c (s, [])).2.2
        = [CatDomain.CatCall.ValidateBreed c.Breed]) ∧
    (c.Name ≠ "" → ∀ s1, bv.ValidateBreed c.Breed s = (.ok true, s1) →
      CatUsecase.Create repo bv c s = repo.Store c s1 ∧
      (CatUsecase.Create repo.recording bv.recording c (s, [])).2.2
        = [CatDomain.CatCall.ValidateBreed c.Breed, CatDomain.CatCall.Store c]) ∧
    ((CatUsecase.Create repo.recording bv.recording c (s, [])).2.2.any
        CatDomain.CatCall.isStore = true
      ↔ (c.Name ≠ "" ∧ (bv.ValidateBreed c.Breed s).1 = .ok true)) ∧
    (∀ (v : CatDomain.BreedValidator CatStore.CatDB) (db : CatStore.CatDB),
      (v.ValidateBreed c.Breed db).2.cats = db.cats →
      (c.Name = "" ∨ (v.ValidateBreed c.Breed db).1 ≠ .ok true) →
      (CatUsecase.Create NewPostgresCatRepository v c db).2.cats = db.cats) := by
  refine ⟨?_, ?_, ?_, ?_, ?_, ?_⟩
  · intro hn
    simp [CatUsecase.Create, hn]
  · intro hn err s1 hv
    simp [CatUsecase.Create, CatDomain.Repository.recording, CatDomain.BreedValidator.recording,
      CatDomain.noted, hn, hv]
  · intro hn s1 hv
    simp [CatUsecase.Create, CatDomain.Repository.recording, CatDomain.BreedValidator.recording,
      CatDomain.noted, hn, hv]
  · intro hn s1 hv
    simp [CatUsecase.Create, CatDomain.Repository.recording, CatDomain.BreedValidator.recording,
      CatDomain.noted, hn, hv]
  · by_cases hn : c.Name = ""
    · simp [CatUsecase.Create, hn]
    · rcases hv : bv.ValidateBreed c.Breed s with ⟨r, s1⟩
      rcases r with err | b
      · simp [CatUsecase.Create, CatDomain.Repository.recording,
          CatDomain.BreedValidator.recording, CatDomain.noted, hn, hv, CatDomain.CatCall.isStore]
      · cases b <;>
          simp [CatUsecase.Create, CatDomain.Repository.recording,
            CatDomain.BreedValidator.recording, CatDomain.noted, hn, hv,
            CatDomain.CatCall.isStore]
  · intro v db hkeep hfail
    by_cases hn : c.Name = ""
    · simp [CatUsecase.Create, hn]
    · rcases hv : v.ValidateBreed c.Breed db with ⟨r, s1⟩
      rw [hv] at hkeep hfail
      rcases r with err | b
      · simpa [CatUsecase.Create, hn, hv] using hkeep
      · cases b
        · simpa [CatUsecase.Create, hn, hv] using hkeep
        · simp [hn] at hfail

/-! ## Updating a salary -/

/-- A salary that is `>= 0` is not `< 0`. -/
theorem Float64.not_lt_of_ge (x : CatDomain.Float64) (h : x.ge CatDomain.Float64.zero = true) :
    x.lt CatDomain.Float64.zero = false := by
  cases x with
  | nan => rfl
  | negInf => simp [CatDomain.Float64.ge, CatDomain.Float64.zero] at h
  | posInf => rfl
  | fin q =>
    simp only [CatDomain.Float64.ge, CatDomain.Float64.zero, decide_eq_true_eq] at h
    simp only [CatDomain.Float64.lt, CatDomain.Float64.zero, decide_eq_false_iff_not, not_lt]
    exact h

theorem CatDB_roundTrip_cats (s : CatStore.CatDB) :
    s.roundTrip.2.cats = s.cats ∧ s.roundTrip.2.salaryColumn = s.salaryColumn := by
  unfold CatStore.CatDB.roundTrip
  split <;> exact ⟨rfl, rfl⟩

/-- What the salary `UPDATE` leaves in a row found by id afterwards. -/
theorem find_after_updateSalary (salary : CatDomain.Float64) (id : Int)
    (l : List CatStore.CatRow) :
    (l.map (fun r => if r.id = id then { r with salary := salary } else r)).find?
        (fun r => r.id = id)
      = (l.find? (fun r => r.id = id)).map (fun r => { r with salary := salary }) := by
  induction l with
  | nil => rfl
  | cons a l ih =>
    by_cases h : a.id = id
    · simp [List.find?_cons, h]
    · simp [List.find?_cons, h, ih]

/-- After a successful `UpdateSalary` of the adapter, the cats table is the old
one with what the column keeps of the salary written into the rows of that
id. -/
theorem postgres_UpdateSalary_ok {id : Int} {salary : CatDomain.Float64}
    {s s1 : CatStore.CatDB}
    (h : postgresCatRepository.UpdateSalary id salary s = (.ok (), s1)) :
    s1.cats = s.cats.map (fun r =>
      if r.id = id then { r with salary := s.salaryColumn salary } else r) := by
  have hc := CatDB_roundTrip_cats s
  unfold postgresCatRepository.UpdateSalary CatStore.updateSalary at h
  rcases hrt : s.roundTrip with ⟨f, s2⟩
  rw [hrt] at h hc
  cases f
  · simp only [Prod.mk.injEq, true_and] at h
    rw [← h]
    simp only at hc
    rw [hc.1, hc.2]
  · simp at h

/-- C17 fails as stated: in a two-decimal salary column, `UpdateSalary` of cat 1
with the salary 1/8, which is not negative, succeeds, and the `GetByID` right
after it succeeds and returns the salary 13/100, not the value given. -/
theorem UpdateSalary_read_back_rounded :
    (CatDomain.Float64.fin (1 / 8)).ge CatDomain.Float64.zero = true ∧
    (CatUsecase.UpdateSalary NewPostgresCatRepository 1 (.fin (1 / 8)) centsDB).1 = .ok () ∧
    (CatUsecase.GetByID NewPostgresCatRepository 1
        (CatUsecase.UpdateSalary NewPostgresCatRepository 1 (.fin (1 / 8)) centsDB).2).1
      = .ok ⟨1, "Tom", 3, "Siamese", .fin (13 / 100)⟩ ∧
    CatDomain.Float64.fin (13 / 100) ≠ CatDomain.Float64.fin (1 / 8) := by
  refine ⟨?_, ?_, ?_, ?_⟩
  · with_unfolding_all decide
  · with_unfolding_all rfl
  · with_unfolding_all rfl
  · with_unfolding_all decide

/-- C17, amended: with `salary < 0`, `UpdateSalary` returns "salary cannot be
negative", leaves the store as it was and calls no repository method; with
`salary >= 0` the result is exactly the store's `UpdateSalary`, its only
repository call. Over the PostgreSQL adapter, when that call has succeeded for
an id that has a row, every successful `GetByID` of that id right after it
returns what the salary column keeps of the new salary (the new salary itself
when the column represents it exactly), and `GetByID` does succeed unless the
driver fails. -/
theorem UpdateSalary_rule {σ : Type} (repo : CatDomain.Repository σ) (id : Int)
    (salary : CatDomain.Float64) (s : σ) :
    (salary.lt CatDomain.Float64.zero = true →
      CatUsecase.UpdateSalary repo id salary s = (.error "salary cannot be negative", s) ∧
      (CatUsecase.UpdateSalary repo.recording id salary (s, [])).2.2 = []) ∧
    (salary.ge CatDomain.Float64.zero = true →
      CatUsecase.UpdateSalary repo id salary s = repo.UpdateSalary id salary s ∧
      (CatUsecase.UpdateSalary repo.recording id salary (s, [])).2.2
        = [CatDomain.CatCall.UpdateSalary id salary]) ∧
    (salary.ge CatDomain.Float64.zero = true → ∀ db db1 : CatStore.CatDB,
      CatUsecase.UpdateSalary NewPostgresCatRepository id salary db = (.ok (), db1) →
      (∃ r ∈ db.cats, r.id = id) →
      (∀ c db2, CatUsecase.GetByID NewPostgresCatRepository id db1 = (.ok c, db2) →
        c.Salary = db.salaryColumn salary) ∧
      (db1.faults.head? ≠ some true →
        ∃ c db2, CatUsecase.GetByID NewPostgresCatRepository id db1 = (.ok c, db2) ∧
          c.ID = id ∧ c.Salary = db.salaryColumn salary)) := by
  refine ⟨?_, ?_, ?_⟩
  · intro hneg
    simp [CatUsecase.UpdateSalary, hneg]
  · intro hge
    have := Float64.not_lt_of_ge salary hge
    simp [CatUsecase.UpdateSalary, CatDomain.Repository.recording, CatDomain.noted, this]
  · intro hge db db1 hupd hex
    have hlt := Float64.not_lt_of_ge salary hge
    simp only [CatUsecase.UpdateSalary, hlt, NewPostgresCatRepository] at hupd
    have hcats := postgres_UpdateSalary_ok hupd
    obtain ⟨r0, hr0, hid0⟩ := hex
    have hfound : ∃ r1, db.cats.find? (fun r => r.id = id) = some r1 ∧ r1.id = id := by
      cases hf : db.cats.find? (fun r => decide (r.id = id)) with
      | none =>
        have := List.find?_eq_none.1 hf r0 hr0
        simp [hid0] at this
      | some r1 =>
        have := List.find?_some hf
        exact ⟨r1, rfl, by simpa using this⟩
    obtain ⟨r1, hr1, hid1⟩ := hfound
    have hfind1 : ∀ s2 : CatStore.CatDB, s2.cats = db1.cats →
        s2.cats.find? (fun r => r.id = id)
          = some { r1 with salary := db.salaryColumn salary } := by
      intro s2 hs2
      rw [hs2, hcats, find_after_updateSalary, hr1]
      rfl
    constructor
    · intro c db2 hget
      simp only [CatUsecase.GetByID, NewPostgresCatRepository,
        postgresCatRepository.GetByID, CatStore.selectCat] at hget
      rcases hrt : db1.roundTrip with ⟨f, s2⟩
      have hc2 := (CatDB_roundTrip_cats db1).1
      rw [hrt] at hget hc2
      cases f
      · simp only [hfind1 s2 hc2, Prod.mk.injEq, Except.ok.injEq] at hget
        rw [← hget.1]
        rfl
      · simp at hget
    · intro hnofault
      simp only [CatUsecase.GetByID, NewPostgresCatRepository,
        postgresCatRepository.GetByID, CatStore.selectCat]
      rcases hrt : db1.roundTrip with ⟨f, s2⟩
      have hc2 := (CatDB_roundTrip_cats db1).1
      rw [hrt] at hc2
      cases f
      · simp only [hfind1 s2 hc2]
        exact ⟨_, _, rfl, hid1, rfl⟩
      · exfalso
        apply hnofault
        unfold CatStore.CatDB.roundTrip at hrt
        split at hrt
        · simp at hrt
        · rename_i f fs hfs
          simp only [Prod.mk.injEq] at hrt
          rw [hfs, hrt.1]
          rfl

/-- C17 at the cats table with Tom: the salary 2000 is accepted, written, and
read back as what the column keeps of it, here 2000 itself. -/
theorem UpdateSalary_rule_witness :
    CatUsecase.UpdateSalary NewPostgresCatRepository 1 (.fin 2000) catsDB
      = (.ok (), { catsDB with cats := [⟨1, "Tom", 3, "Siamese", .fin 2000⟩] }) ∧
    catsDB.salaryColumn (.fin 2000) = .fin 2000 ∧
    ∃ c db2,
      CatUsecase.GetByID NewPostgresCatRepository 1
          { catsDB with cats := [⟨1, "Tom", 3, "Siamese", .fin 2000⟩] } = (.ok c, db2) ∧
        c.ID = 1 ∧ c.Salary = catsDB.salaryColumn (.fin 2000) :=
  ⟨rfl, rfl,
    ((UpdateSalary_rule NewPostgresCatRepository 1 (.fin 2000) catsDB).2.2 rfl catsDB _
      rfl ⟨_, List.mem_singleton.2 rfl, rfl⟩).2 (by decide)⟩

/-! ## The breed catalog -/

theorem loop_eq_true_iff (breed : String) (breeds : List CatAPIValidator.Breed) :
    CatAPIValidator.loop breed breeds = true ↔ ∃ b ∈ breeds, b.Name = breed := by
  induction breeds with
  | nil => simp [CatAPIValidator.loop]
  | cons b breeds ih =>
    unfold CatAPIValidator.loop
    by_cases h : b.Name = breed
    · simp [h]
    · simp [h, ih]

/-- C18: on a catalog that was fetched with status 200 and decoded, whatever
records it holds, `ValidateBreed` returns `(true, nil)` exactly when some
record's name is the input string, character for character, and `(false, nil)`
exactly when none is; so it returns `(false, nil)` on the empty catalog, and a
name that differs in case only does not count. -/
theorem ValidateBreed_on_decoded_catalog (breeds : List CatAPIValidator.Breed) (breed : String) :
    (CatAPIValidator.ValidateBreed ⟨.ok (), .ok ⟨200, .ok breeds⟩⟩ breed = .ok true
      ↔ ∃ b ∈ breeds, b.Name = breed) ∧
    (CatAPIValidator.ValidateBreed ⟨.ok (), .ok ⟨200, .ok breeds⟩⟩ breed = .ok false
      ↔ ¬ ∃ b ∈ breeds, b.Name = breed) ∧
    CatAPIValidator.ValidateBreed ⟨.ok (), .ok ⟨200, .ok []⟩⟩ breed = .ok false ∧
    CatAPIValidator.ValidateBreed ⟨.ok (), .ok ⟨200, .ok [⟨"Bengal"⟩, ⟨"Siamese"⟩]⟩⟩ "Siamese"
      = .ok true ∧
    CatAPIValidator.ValidateBreed ⟨.ok (), .ok ⟨200, .ok [⟨"Bengal"⟩, ⟨"Siamese"⟩]⟩⟩ "siamese"
      = .ok false := by
  have h := loop_eq_true_iff breed breeds
  refine ⟨?_, ?_, rfl, rfl, rfl⟩
  · simp only [CatAPIValidator.ValidateBreed, ne_eq, not_true_eq_false, if_false,
      Except.ok.injEq]
    exact h
  · simp only [CatAPIValidator.ValidateBreed, ne_eq, not_true_eq_false, if_false,
      Except.ok.injEq]
    rw [← h]
    simp

/-! ## Path ids that are not positive -/

/-- The cat routes refuse a path id that is not positive with 400 "invalid id"
and touch nothing. -/
theorem CatHandler_rejects_nonpositive {σ : Type} (repo : CatDomain.Repository σ) (id : Int)
    (hid : id ≤ 0) (body : Except String CatHandler.UpdateSalaryRequest) (s : σ) :
    CatHandler.GetByID repo (.ok id) s = (⟨400, some "invalid id", none⟩, s) ∧
    CatHandler.UpdateSalary repo (.ok id) body s = (⟨400, some "invalid id"⟩, s) ∧
    CatHandler.Delete repo (.ok id) s = (⟨400, some "invalid id"⟩, s) := by
  simp [CatHandler.GetByID, CatHandler.UpdateSalary, CatHandler.Delete, hid]

/-- C19 fails on the code for the mission and target routes: the path id 0 of
`DELETE /missions/0`, `GET /missions/0` and `DELETE /targets/0`, and the cat id
-1 of the assign route for mission 2, reach the use case, which calls the
store, and the answer is 500 or 404, where the cat route `DELETE /cats/0`
answers 400 without a call. -/
theorem mission_routes_pass_nonpositive_ids :
    Handler.deleteMission NewMissionPostgres.recording (.ok 0) (demoDB, [])
      = (⟨500, some "no rows in result set"⟩,
          ({ demoDB with now := 1 }, [Call.GetMissionByID 0])) ∧
    Handler.getMissionByID NewMissionPostgres.recording (.ok 0) (demoDB, [])
      = (⟨404, some "no rows in result set", none⟩,
          ({ demoDB with now := 1 }, [Call.GetMissionByID 0])) ∧
    Handler.deleteTarget NewMissionPostgres.recording (.ok 0) (demoDB, [])
      = (⟨500, some "no rows in result set"⟩,
          ({ demoDB with now := 1 }, [Call.GetTargetByID 0])) ∧
    Handler.assignCatToMission NewMissionPostgres.recording (.ok 2) (.ok (-1)) (demoDB, [])
      = (⟨500, some "violates foreign key constraint"⟩,
          ({ demoDB with now := 3 },
            [Call.GetMissionByID 2, Call.UpdateMission ⟨2, some (-1), false, 0, 0, []⟩])) ∧
    CatHandler.Delete NewPostgresCatRepository.recording (.ok 0) (catsDB, [])
      = (⟨400, some "invalid id"⟩, (catsDB, [])) :=
  ⟨rfl, rfl, rfl, rfl, rfl⟩

/-! ## The status of a refused mutation -/

/-- C20 fails as stated: `DELETE /missions/1` on the store whose mission 1 is
assigned, and `DELETE /targets/1` on the store whose target 1 is completed, are
refused by a domain rule and answered with status 500, not 400. -/
theorem refused_delete_answers_500 :
    (Handler.deleteMission NewMissionPostgres (.ok 1) assignedDB).1
      = ⟨500, some "mission cannot be deleted because it is assigned to a cat"⟩ ∧
    (Handler.deleteTarget NewMissionPostgres (.ok 1) doneDB).1
      = ⟨500, some "cannot delete a completed target"⟩ :=
  ⟨rfl, rfl⟩

/-- C20, as the code has it: on each of the six mission and target mutation
routes, when the use case returns an error, a domain rule's or any other, the
response has status 500 and the error's message under "error", and the store
is what the use case left. -/
theorem mutation_routes_answer_500 {σ : Type} (repo : Repository σ) (s s1 : σ) (msg : String) :
    (∀ id dto rebind bound, rebind ⟨id, dto.CatID, dto.Completed, 0, 0, []⟩ = .ok bound →
      MissionUsecase.UpdateMission repo { bound with ID := id } s = (.error msg, s1) →
      Handler.updateMission repo (.ok id) (.ok dto) rebind s = (⟨500, some msg, none⟩, s1)) ∧
    (∀ id, MissionUsecase.DeleteMission repo id s = (.error msg, s1) →
      Handler.deleteMission repo (.ok id) s = (⟨500, some msg⟩, s1)) ∧
    (∀ id catID, MissionUsecase.AssignCatToMission repo id catID s = (.error msg, s1) →
      Handler.assignCatToMission repo (.ok id) (.ok catID) s = (⟨500, some msg⟩, s1)) ∧
    (∀ id targetsDTO,
      MissionUsecase.AddTargets repo id (Handler.domainTargets id targetsDTO) s
        = (.error msg, s1) →
      Handler.addTargets repo (.ok id) (.ok targetsDTO) s = (⟨500, some msg⟩, s1)) ∧
    (∀ (bound : Target) id,
      MissionUsecase.UpdateTarget repo { bound with ID := id } s = (.error msg, s1) →
      Handler.updateTarget repo (.ok bound) (.ok id) s = (⟨500, some msg, none⟩, s1)) ∧
    (∀ id, MissionUsecase.DeleteTarget repo id s = (.error msg, s1) →
      Handler.deleteTarget repo (.ok id) s = (⟨500, some msg⟩, s1)) := by
  refine ⟨?_, ?_, ?_, ?_, ?_, ?_⟩
  · intro id dto rebind bound hb h
    simp [Handler.updateMission, hb, h]
  · intro id h
    simp [Handler.deleteMission, h]
  · intro id catID h
    simp [Handler.assignCatToMission, h]
  · intro id targetsDTO h
    simp [Handler.addTargets, h]
  · intro bound id h
    simp [Handler.updateTarget, h]
  · intro id h
    simp [Handler.deleteTarget, h]

/-! ## Ids that match no row -/

/-- The mission adapter reports an id that matches no row: unless the driver
fails first, `UpdateMission` returns "mission not found", `UpdateTarget`
returns "target not found", and `DeleteMission` and `DeleteTarget` return the
driver's "no rows in result set" from their leading `SELECT`; none of them
changes a table. -/
theorem mission_adapter_reports_missing_rows (s : DB) (hok : s.faults.head? ≠ some true) :
    (∀ m : Mission, (∀ r ∈ s.missions, r.id ≠ m.ID) →
      (MissionPostgres.UpdateMission m s).1 = .error "mission not found" ∧
      (MissionPostgres.UpdateMission m s).2.tables = s.tables) ∧
    (∀ id : Int, (∀ r ∈ s.missions, r.id ≠ id) →
      (MissionPostgres.DeleteMission id s).1 = .error "no rows in result set" ∧
      (MissionPostgres.DeleteMission id s).2.tables = s.tables) ∧
    (∀ t : Target, (∀ r ∈ s.targets, r.id ≠ t.ID) →
      (MissionPostgres.UpdateTarget t s).1 = .error "target not found" ∧
      (MissionPostgres.UpdateTarget t s).2.tables = s.tables) ∧
    (∀ id : Int, (∀ r ∈ s.targets, r.id ≠ id) →
      (MissionPostgres.DeleteTarget id s).1 = .error "no rows in result set" ∧
      (MissionPostgres.DeleteTarget id s).2.tables = s.tables) := by
  rcases hrt : s.roundTrip with ⟨f, s1⟩
  have ht := (tables_eq_iff _ _).1 (roundTrip_tables_of_eq hrt)
  have hf : f = false := by
    unfold DB.roundTrip at hrt
    split at hrt
    · simp at hrt
      exact hrt.1
    · rename_i f0 fs hfs
      simp only [Prod.mk.injEq] at hrt
      rw [hfs] at hok
      cases f0
      · exact hrt.1.symm
      · exact absurd rfl hok
  subst hf
  obtain ⟨h1, h2, h3, h4, h5, h6⟩ := ht
  refine ⟨?_, ?_, ?_, ?_⟩
  · intro m hm
    have hcount : List.countP (fun r => decide (r.id = m.ID)) s.missions = 0 := by
      rw [List.countP_eq_zero]
      intro r hr
      simpa using hm r hr
    simp [MissionPostgres.UpdateMission, updateMission, hrt, h2, hcount, DB.tables, h1, h3, h4,
      h5, h6]
  · intro id hm
    have hfind : List.find? (fun r => decide (r.id = id)) s.missions = none := by
      rw [List.find?_eq_none]
      intro r hr
      simpa using hm r hr
    simp [MissionPostgres.DeleteMission, selectMissionCatID, hrt, h2, hfind, DB.tables, h1, h3,
      h4, h5, h6, errNoRows]
  · intro t htg
    have hcount : List.countP (fun r => decide (r.id = t.ID)) s.targets = 0 := by
      rw [List.countP_eq_zero]
      intro r hr
      simpa using htg r hr
    have hmap : List.map (fun r : TargetRow =>
        if r.id = t.ID then
          { r with notes := t.Notes, completed := t.Completed, updated_at := s1.now }
        else r) s.targets = s.targets := by
      conv_rhs => rw [← List.map_id s.targets]
      apply List.map_congr_left
      intro r hr
      rw [if_neg (htg r hr)]
      rfl
    simp [MissionPostgres.UpdateTarget, updateTarget, hrt, h3, hcount, hmap, DB.tables, h1, h2,
      h4, h5, h6]
  · intro id htg
    have hfind : List.find? (fun r => decide (r.id = id)) s.targets = none := by
      rw [List.find?_eq_none]
      intro r hr
      simpa using htg r hr
    simp [MissionPostgres.DeleteTarget, selectTargetCompleted, hrt, h3, hfind, DB.tables, h1, h2,
      h4, h5, h6, errNoRows]

/-- The cat adapter does not report an id that matches no row: unless the
driver fails, `UpdateSalary` and `Delete` return nil and leave the cats table
as it was. -/
theorem cat_adapter_accepts_missing_rows (s : CatStore.CatDB) (id : Int)
    (salary : CatDomain.Float64) (hok : s.faults.head? ≠ some true)
    (hmiss : ∀ r ∈ s.cats, r.id ≠ id) :
    (postgresCatRepository.UpdateSalary id salary s).1 = .ok () ∧
    (postgresCatRepository.UpdateSalary id salary s).2.cats = s.cats ∧
    (postgresCatRepository.Delete id s).1 = .ok () ∧
    (postgresCatRepository.Delete id s).2.cats = s.cats := by
  rcases hrt : s.roundTrip with ⟨f, s1⟩
  have hc := CatDB_roundTrip_cats s
  rw [hrt] at hc
  have hf : f = false := by
    unfold CatStore.CatDB.roundTrip at hrt
    split at hrt
    · simp at hrt
      exact hrt.1
    · rename_i f0 fs hfs
      simp only [Prod.mk.injEq] at hrt
      rw [hfs] at hok
      cases f0
      · exact hrt.1.symm
      · exact absurd rfl hok
  subst hf
  simp only at hc
  have hcount : List.countP (fun r => decide (r.id = id)) s.cats = 0 := by
    rw [List.countP_eq_zero]
    intro r hr
    simpa using hmiss r hr
  have hmap : List.map (fun r : CatStore.CatRow =>
      if r.id = id then { r with salary := s1.salaryColumn salary } else r) s.cats = s.cats := by
    conv_rhs => rw [← List.map_id s.cats]
    apply List.map_congr_left
    intro r hr
    rw [if_neg (hmiss r hr)]
    rfl
  have hfilter : List.filter (fun r : CatStore.CatRow => decide (r.id ≠ id)) s.cats = s.cats := by
    rw [List.filter_eq_self]
    intro r hr
    simpa using hmiss r hr
  simp [postgresCatRepository.UpdateSalary, postgresCatRepository.Delete, CatStore.updateSalary,
    CatStore.deleteCat, hrt, hc.1, hcount, hmap, hfilter]
  exact hmiss

/-- C21 fails on the code for the cat adapter: on the cats table that holds cat
1 only, `UpdateSalary 999` and `Delete 999` return nil and change nothing,
where on the demo store, which has no mission 999 and no target 999, the
mission adapter's `UpdateMission`, `DeleteMission`, `UpdateTarget` and
`DeleteTarget` each return an error. -/
theorem cat_adapter_succeeds_on_missing_row :
    catsDB.cats = [⟨1, "Tom", 3, "Siamese", .fin 1000⟩] ∧
    (NewPostgresCatRepository.UpdateSalary 999 (.fin 10) catsDB).1 = .ok () ∧
    (NewPostgresCatRepository.UpdateSalary 999 (.fin 10) catsDB).2.cats = catsDB.cats ∧
    (NewPostgresCatRepository.Delete 999 catsDB).1 = .ok () ∧
    (NewPostgresCatRepository.Delete 999 catsDB).2.cats = catsDB.cats ∧
    (NewMissionPostgres.UpdateMission ⟨999, none, false, 0, 0, []⟩ demoDB).1
      = .error "mission not found" ∧
    (NewMissionPostgres.DeleteMission 999 demoDB).1 = .error "no rows in result set" ∧
    (NewMissionPostgres.UpdateTarget ⟨999, 1, "", "", "new", false, 0, 0⟩ demoDB).1
      = .error "target not found" ∧
    (NewMissionPostgres.DeleteTarget 999 demoDB).1 = .error "no rows in result set" :=
  ⟨rfl, rfl, rfl, rfl, rfl, rfl, rfl, rfl, rfl⟩

/-! ## An update of a target that names no mission -/

/-- Over the PostgreSQL adapter, `PUT /targets/{id}` with a body that carries no
`mission_id` never succeeds on a store without a mission 0, and changes no
table: the bound target has `MissionID = 0`, and the use case loads the mission
of that id. -/
theorem updateTarget_without_mission_id (s : DB) (id : Int) (bound : Target)
    (hbody : bound.MissionID = 0) (hno0 : ∀ r ∈ s.missions, r.id ≠ 0) :
    (Handler.updateTarget NewMissionPostgres (.ok bound) (.ok id) s).1.status = 500 ∧
    (Handler.updateTarget NewMissionPostgres (.ok bound) (.ok id) s).2.tables = s.tables := by
  have ht := GetTargetByID_tables id s
  simp only [Handler.updateTarget, MissionUsecase.UpdateTarget, NewMissionPostgres]
  split
  · rename_i err s2 huc
    refine ⟨rfl, ?_⟩
    split at huc
    · rename_i err1 s1 h
      rw [h] at ht
      simp only [Prod.mk.injEq] at huc
      rw [← huc.2]
      exact ht
    · rename_i existing s1 h
      rw [h] at ht
      have ht2 := GetMissionByID_tables bound.MissionID s1
      split at huc
      · rename_i err2 s3 h2
        rw [h2] at ht2
        simp only [Prod.mk.injEq] at huc
        rw [← huc.2]
        exact ht2.trans ht
      · rename_i mission s3 h2
        exfalso
        obtain ⟨row, hfind, _⟩ := GetMissionByID_ok h2
        obtain ⟨hmem, hrid⟩ := find_mission_some hfind
        rw [((tables_eq_iff _ _).1 ht).2.1] at hmem
        exact hno0 row hmem (hrid.trans hbody)
  · rename_i u s2 huc
    exfalso
    split at huc
    · simp at huc
    · rename_i existing s1 h
      rw [h] at ht
      split at huc
      · simp at huc
      · rename_i mission s3 h2
        obtain ⟨row, hfind, _⟩ := GetMissionByID_ok h2
        obtain ⟨hmem, hrid⟩ := find_mission_some hfind
        rw [((tables_eq_iff _ _).1 ht).2.1] at hmem
        exact hno0 row hmem (hrid.trans hbody)

/-- C22 fails on the code: on the store with the open mission 1 and its open
target 1, `PUT /targets/1` with the body `"completed": true, "notes": "x"` is
bound to a target with `MissionID = 0`; the use case loads target 1, then
mission 0, which does not exist, and the answer is 500 with nothing persisted.
The same body with `"mission_id": 1` added is answered 200 and persisted. -/
theorem updateTarget_needs_mission_id :
    assignedDB.missions = [⟨1, some 7, false, 0, 0⟩] ∧
    assignedDB.targets = [⟨1, 1, "vault", "CH", "old", false, 0, 0⟩] ∧
    Handler.updateTarget NewMissionPostgres.recording (.ok ⟨0, 0, "", "", "x", true, 0, 0⟩)
        (.ok 1) (assignedDB, [])
      = (⟨500, some "no rows in result set", none⟩,
          ({ assignedDB with now := 2 }, [Call.GetTargetByID 1, Call.GetMissionByID 0])) ∧
    (Handler.updateTarget NewMissionPostgres (.ok ⟨0, 1, "", "", "x", true, 0, 0⟩) (.ok 1)
        assignedDB).1 = ⟨200, none, some ⟨1, 1, "", "", "x", true, 0, 0⟩⟩ ∧
    (Handler.updateTarget NewMissionPostgres (.ok ⟨0, 1, "", "", "x", true, 0, 0⟩) (.ok 1)
        assignedDB).2.targets = [⟨1, 1, "vault", "CH", "x", true, 0, 4⟩] :=
  ⟨rfl, rfl, rfl, rfl, rfl⟩

/-! ## The first target that fails -/

/-- The store's `AddTargets` on a list in two parts: the first part, and if
that went through, the second part on the store it left. -/
theorem AddTargets_append (pre rest : List Target) (s : DB) :
    MissionPostgres.AddTargets (pre ++ rest) s
      = match MissionPostgres.AddTargets pre s with
        | (.error err, s1) => (.error err, s1)
        | (.ok _, s1) => MissionPostgres.AddTargets rest s1 := by
  induction pre generalizing s with
  | nil => simp [MissionPostgres.AddTargets]
  | cons t ts ih =>
    simp only [List.cons_append]
    rw [MissionPostgres.AddTargets]
    conv_rhs => rw [MissionPostgres.AddTargets]
    split_ifs with h0
    · rfl
    · rcases hins : insertTarget t.MissionID t.Name t.Country t.Notes t.Completed s with ⟨r, s1⟩
      cases r with
      | error err => rfl
      | ok u => exact ih s1

/-- When the store's `AddTargets` returns nil, every target of the list has a
row of its own, appended in list order. -/
theorem AddTargets_ok (targets : List Target) (s s1 : DB)
    (h : MissionPostgres.AddTargets targets s = (.ok (), s1)) :
    ∃ news : List TargetRow, s1.targets = s.targets ++ news ∧
      news.map (fun r => (r.mission_id, r.name, r.country, r.notes, r.completed))
        = targets.map (fun t => (t.MissionID, t.Name, t.Country, t.Notes, t.Completed)) := by
  induction targets generalizing s with
  | nil =>
    simp only [MissionPostgres.AddTargets, Prod.mk.injEq, true_and] at h
    exact ⟨[], by simp [h]⟩
  | cons t ts ih =>
    rw [MissionPostgres.AddTargets] at h
    split_ifs at h with h0
    · simp at h
    · obtain ⟨_, _, _, _, _, he⟩ :=
        insertTarget_effect t.MissionID t.Name t.Country t.Notes t.Completed s
      rcases hins : insertTarget t.MissionID t.Name t.Country t.Notes t.Completed s with ⟨r, s2⟩
      rw [hins] at h he
      cases r with
      | error err => simp at h
      | ok u =>
        simp only at h
        rcases he with ⟨he, _⟩ | ⟨_, _, now, he⟩
        · simp at he
        · obtain ⟨news, h1, h2⟩ := ih s2 h
          simp only at he
          refine ⟨⟨s.targets_id_seq, t.MissionID, t.Name, t.Country, t.Notes, t.Completed, now,
            now⟩ :: news, ?_, ?_⟩
          · rw [h1, he]
            simp
          · simp [h2]

/-- C23: when the targets before index `k` of the list go through (the store's
`AddTargets` on them returns nil) and the target at index `k` fails, by its
`MissionID = 0` or by the error of its `INSERT`, the store's `AddTargets` on
the whole list returns that error, "target must have mission_id" in the first
case; the `targets` table is then the old one followed by one row for each of
the `k` targets before, in list order, and nothing of the target at `k` or of a
later one. -/
theorem AddTargets_stops_at_first_failure (pre post : List Target) (t : Target) (s s1 : DB)
    (hpre : MissionPostgres.AddTargets pre s = (.ok (), s1)) :
    (t.MissionID = 0 →
      MissionPostgres.AddTargets (pre ++ t :: post) s
        = (.error "target must have mission_id", s1)) ∧
    (t.MissionID ≠ 0 → ∀ err s2,
      insertTarget t.MissionID t.Name t.Country t.Notes t.Completed s1 = (.error err, s2) →
      MissionPostgres.AddTargets (pre ++ t :: post) s = (.error err, s2) ∧
      s2.targets = s1.targets) ∧
    (∃ news : List TargetRow, s1.targets = s.targets ++ news ∧ news.length = pre.length ∧
      news.map (fun r => (r.mission_id, r.name, r.country, r.notes, r.completed))
        = pre.map (fun t => (t.MissionID, t.Name, t.Country, t.Notes, t.Completed))) := by
  refine ⟨?_, ?_, ?_⟩
  · intro h0
    rw [AddTargets_append, hpre]
    simp [MissionPostgres.AddTargets, h0]
  · intro h0 err s2 hins
    rw [AddTargets_append, hpre]
    refine ⟨by simp [MissionPostgres.AddTargets, h0, hins], ?_⟩
    obtain ⟨_, _, _, _, _, he⟩ :=
      insertTarget_effect t.MissionID t.Name t.Country t.Notes t.Completed s1
    rw [hins] at he
    rcases he with ⟨_, he⟩ | ⟨he, _⟩
    · exact he
    · simp at he
  · obtain ⟨news, h1, h2⟩ := AddTargets_ok pre s s1 hpre
    refine ⟨news, h1, ?_, h2⟩
    have := congrArg List.length h2
    simpa using this

/-- C23 at the demo store: of three targets for the open mission 2, the second
has `MissionID = 0`; the first is inserted, the call fails on the second, the
third is not inserted. -/
theorem AddTargets_stops_at_first_failure_witness :
    MissionPostgres.AddTargets [⟨0, 2, "safe", "FR", "", false, 0, 0⟩] demoDB
      = (.ok (), { demoDB with
          targets := demoDB.targets ++ [⟨2, 2, "safe", "FR", "", false, 1, 1⟩],
          targets_id_seq := 3, now := 1 }) ∧
    MissionPostgres.AddTargets
        ([⟨0, 2, "safe", "FR", "", false, 0, 0⟩] ++
          ⟨0, 0, "dock", "NL", "", false, 0, 0⟩ :: [⟨0, 2, "mill", "BE", "", false, 0, 0⟩]) demoDB
      = (.error "target must have mission_id", { demoDB with
          targets := demoDB.targets ++ [⟨2, 2, "safe", "FR", "", false, 1, 1⟩],
          targets_id_seq := 3, now := 1 }) :=
  ⟨rfl, (AddTargets_stops_at_first_failure [⟨0, 2, "safe", "FR", "", false, 0, 0⟩]
    [⟨0, 2, "mill", "BE", "", false, 0, 0⟩] ⟨0, 0, "dock", "NL", "", false, 0, 0⟩ demoDB _
    rfl).1 rfl⟩

/-! ## The store's own guard in `DeleteMission` -/

theorem selectMission_error {id : Int} {s s1 : DB} {err : String}
    (h : selectMission id s = (.error err, s1)) : err = errDriver ∨ err = errNoRows := by
  unfold selectMission at h
  split at h
  · simp only [Prod.mk.injEq, Except.error.injEq] at h
    exact Or.inl h.1.symm
  · split at h
    · simp only [Prod.mk.injEq, Except.error.injEq] at h
      exact Or.inr h.1.symm
    · simp at h

theorem GetMissionByID_error {id : Int} {s s1 : DB} {err : String}
    (h : MissionPostgres.GetMissionByID id s = (.error err, s1)) :
    err = errDriver ∨ err = errNoRows := by
  unfold MissionPostgres.GetMissionByID at h
  split at h
  · rename_i err1 s2 hsel
    simp only [Prod.mk.injEq, Except.error.injEq] at h
    rw [← h.1]
    exact selectMission_error hsel
  · rename_i row s2 hsel
    simp only [MissionPostgres.listTargetsByMissionID, selectTargetsByMission] at h
    rcases hrt : s2.roundTrip with ⟨f, s3⟩
    rw [hrt] at h
    cases f
    · simp at h
    · simp only [Prod.mk.injEq, Except.error.injEq] at h
      exact Or.inl h.1.symm

theorem selectMissionCatID_error {id : Int} {s s1 : DB} {err : String}
    (h : selectMissionCatID id s = (.error err, s1)) : err = errDriver ∨ err = errNoRows := by
  unfold selectMissionCatID at h
  split at h
  · simp only [Prod.mk.injEq, Except.error.injEq] at h
    exact Or.inl h.1.symm
  · split at h
    · simp only [Prod.mk.injEq, Except.error.injEq] at h
      exact Or.inr h.1.symm
    · simp at h

theorem deleteMission_error {id : Int} {s s1 : DB} {err : String}
    (h : deleteMission id s = (.error err, s1)) : err = errDriver ∨ err = errForeignKey := by
  unfold deleteMission at h
  split at h
  · simp only [Prod.mk.injEq, Except.error.injEq] at h
    exact Or.inl h.1.symm
  · simp only at h
    split_ifs at h
    · simp at h
    · simp at h
    · simp only [Prod.mk.injEq, Except.error.injEq] at h
      exact Or.inr h.1.symm
    · simp at h

/-- C24: whatever the store and the id, the use case `DeleteMission` over the
PostgreSQL adapter never returns the store's "cannot delete mission assigned to
a cat": a mission with a cat is refused by the use case before the store is
called, and the store then reads the same row. -/
theorem DeleteMission_store_guard_never_fires (s : DB) (id : Int) :
    (MissionUsecase.DeleteMission NewMissionPostgres id s).1
      ≠ .error "cannot delete mission assigned to a cat" := by
  have ht := GetMissionByID_tables id s
  simp only [MissionUsecase.DeleteMission, NewMissionPostgres]
  split
  · rename_i err s1 h
    rcases GetMissionByID_error h with he | he <;> rw [he] <;> simp only [ne_eq,
      Except.error.injEq] <;> decide
  · rename_i m s1 h
    rw [h] at ht
    obtain ⟨row, hfind, _, hcat, _⟩ := GetMissionByID_ok h
    split_ifs with hc
    · simp only [ne_eq, Except.error.injEq]
      decide
    · unfold MissionPostgres.DeleteMission
      split
      · rename_i err s2 hsel
        rcases selectMissionCatID_error hsel with he | he <;> rw [he] <;> simp only [ne_eq,
          Except.error.injEq] <;> decide
      · simp only [ne_eq, Except.error.injEq]
        decide
      · rename_i catID s2 hsel
        obtain ⟨row2, hfind2, hc2⟩ := selectMissionCatID_ok hsel
        rw [((tables_eq_iff _ _).1 ht).2.1, hfind] at hfind2
        have hrow : row = row2 := Option.some.inj hfind2
        split_ifs with h0
        · exfalso
          apply hc
          rw [hcat, hrow, ← hc2]
          exact ⟨by simp, fun h => h0 (Option.some.inj h)⟩
        · split
          · rename_i err s3 hdel
            rcases deleteMission_error hdel with he | he <;> rw [he] <;> simp only [ne_eq,
              Except.error.injEq] <;> decide
          · split_ifs
            · simp only [ne_eq, Except.error.injEq]
              decide
            · simp

/-! ## The two binds of `PUT /missions/{id}` -/

/-- With the second bind as gin makes it on a body of one JSON value, of which
the first bind leaves nothing unread, `Handler.updateMission` answers every
request whose path id parses and whose body binds with 400 "EOF", leaves the
store as it was and calls no repository method. When the first bind leaves
something unread, the handler goes on with what decoding the rest gives. -/
theorem updateMission_second_bind_fails {σ : Type} (repo : Repository σ) (id : Int)
    (dto : Handler.MissionDTO) (s : σ) :
    Handler.updateMission repo (.ok id) (.ok dto) (Handler.secondBind none) s
      = (⟨400, some "EOF", none⟩, s) ∧
    (Handler.updateMission repo.recording (.ok id) (.ok dto) (Handler.secondBind none)
        (s, [])).2.2 = [] ∧
    (∀ decode, Handler.updateMission repo (.ok id) (.ok dto) (Handler.secondBind (some decode)) s
      = Handler.updateMission repo (.ok id) (.ok dto) decode s) := by
  refine ⟨?_, ?_, ?_⟩
  · simp [Handler.updateMission, Handler.secondBind]
  · simp [Handler.updateMission, Handler.secondBind]
  · intro decode
    rfl

/-- Were the second bind to succeed and leave the mission as the first bind
filled it, `Handler.updateMission` would do what C25 says: one call of the use
case `UpdateMission` with the id of the path and the `cat_id` and `completed`
of the body, and 200 with that mission when the use case returns nil. -/
theorem updateMission_if_rebound {σ : Type} (repo : Repository σ) (id : Int)
    (dto : Handler.MissionDTO) (s s1 : σ)
    (huc : MissionUsecase.UpdateMission repo ⟨id, dto.CatID, dto.Completed, 0, 0, []⟩ s
      = (.ok (), s1)) :
    Handler.updateMission repo (.ok id) (.ok dto) (fun m => .ok m) s
      = (⟨200, none, some ⟨id, dto.CatID, dto.Completed, 0, 0, []⟩⟩, s1) := by
  simp [Handler.updateMission, huc]

/-- When the first bind leaves a second JSON value unread, here one that sets
`completed` to true after a first value that left it false, the second bind
decodes it onto the mission, and the use case is called once with the id of the
path and what the second value set. -/
theorem updateMission_second_value_decoded :
    (Handler.updateMission NewMissionPostgres.recording (.ok 2) (.ok ⟨none, false⟩)
        (Handler.secondBind (some (fun m => .ok { m with Completed := true })))
        (demoDB, [])).1 = ⟨200, none, some ⟨2, none, true, 0, 0, []⟩⟩ ∧
    (Handler.updateMission NewMissionPostgres.recording (.ok 2) (.ok ⟨none, false⟩)
        (Handler.secondBind (some (fun m => .ok { m with Completed := true })))
        (demoDB, [])).2.2
      = [Call.GetMissionByID 2, Call.UpdateMission ⟨2, none, true, 0, 0, []⟩] :=
  ⟨rfl, rfl⟩

/-- C25 fails on the code: `PUT /missions/2` with the body `"completed": true`
on the demo store, where mission 2 is open, a body of which the first bind
leaves nothing unread, is answered 400 "EOF" by the second bind; no repository
method is called and mission 2 stays open. Without the
second bind's failure the use case is called once with mission 2, no cat,
completed, and the answer is 200. -/
theorem updateMission_never_reaches_the_use_case :
    demoDB.missions = [⟨1, none, true, 0, 0⟩, ⟨2, none, false, 0, 0⟩] ∧
    Handler.updateMission NewMissionPostgres.recording (.ok 2) (.ok ⟨none, true⟩)
        (Handler.secondBind none) (demoDB, [])
      = (⟨400, some "EOF", none⟩, (demoDB, [])) ∧
    (Handler.updateMission NewMissionPostgres.recording (.ok 2) (.ok ⟨none, true⟩)
        (fun m => .ok m) (demoDB, [])).1 = ⟨200, none, some ⟨2, none, true, 0, 0, []⟩⟩ ∧
    (Handler.updateMission NewMissionPostgres.recording (.ok 2) (.ok ⟨none, true⟩)
        (fun m => .ok m) (demoDB, [])).2.2
      = [Call.GetMissionByID 2, Call.UpdateMission ⟨2, none, true, 0, 0, []⟩] :=
  ⟨rfl, rfl, rfl, rfl⟩
